import Mathlib

/-!
# Ant foraging simulation (`ant-sim/main.c`)

A shallow embedding of the simulation core of `main.c`: the vector helpers,
the pheromone grid (decay, deposit, window query), the two-state ant
machine `updateAntState`, the integrator loop `moveAnts`, and one tick of the
main loop (`updatePheromones` followed by `moveAnts`).

Modelling conventions.

* In the state machine and the tick, `double` and `float` values are elements
  of an ordered field `K` with exact arithmetic; the definitions are executable
  at `K = ℚ`.  The claims that speak of exact values of floating-point results
  (decay, `normalize`, `clampMagnitude`, the speed limit) are settled on the
  definitions of the section "Rounded arithmetic", which round every operation
  as the code does.
* `sqrt` of `math.h` is a parameter `sq : K → K`.  Theorems that depend on what
  `sqrt` returns assume `IsSqrt sq`; concrete runs use `sqrtQ`, which is exact
  on squares of rationals.
* `rand()` is a stream `rand : ℕ → ℕ` read at a counter `seed` that each call
  advances by one.
* C `int` values are integers; the conversion of a `double` to `int` truncates
  toward zero (`toInt`).  Overflow of `int` is not modelled: positions of the
  simulation stay within a few cells of the 800 x 600 grid.
* The global array `pheromones[GRID_WIDTH][GRID_HEIGHT]` is a function on
  integer coordinates; every read and write of the program is guarded by the
  bounds check `inGrid`.
-/

namespace AntSim

/-! ## Constants -/

abbrev SCREEN_WIDTH : ℤ := 800
abbrev SCREEN_HEIGHT : ℤ := 600
abbrev FOOD_DETECTION_RADIUS : ℤ := 50
abbrev FOOD_CAPTURE_RADIUS : ℤ := 2
abbrev PHEROMONE_DECREASE_RATE : ℤ := 1
abbrev GRID_WIDTH : ℤ := SCREEN_WIDTH
abbrev GRID_HEIGHT : ℤ := SCREEN_HEIGHT
abbrev NEST_X : ℤ := 400
abbrev NEST_Y : ℤ := 300
abbrev MAX_SPEED : ℤ := 2
abbrev STEER_STRENGTH : ℤ := 2

section Model

variable {K : Type} [LinearOrderedField K] [FloorRing K]

/-- The macro `PHEROMONE_DECAY_RATE` (0.05). -/
abbrev PHEROMONE_DECAY_RATE : K := 5 / 100

/-- The macro `WANDER_STRENGTH` (0.1). -/
abbrev WANDER_STRENGTH : K := 1 / 10

/-! ## Data model -/

/-- The struct `Vector2D`. -/
structure Vector2D (K : Type) where
  x : K
  y : K

/-- The enum `AntState`; only `TO_FOOD` and `TO_HOME` are handled by the
switch of `updateAntState`. -/
inductive AntState where
  | WANDER
  | MOVE_TO_FOOD
  | FOLLOW_PHEROMONE
  | MOVE_TO_NEST
  | TO_FOOD
  | TO_HOME
  | TO_HOME_NO_FOOD
  deriving DecidableEq, Repr

/-- The struct `Ant`. -/
structure Ant (K : Type) where
  position : Vector2D K
  velocity : Vector2D K
  has_food : ℤ
  desiredDirection : Vector2D K
  state : AntState
  pheromoneStrength : K

/-- The struct `Food`; the field `exists` of the source is `exists_`. -/
structure Food where
  x : ℤ
  y : ℤ
  amount : ℤ
  exists_ : ℤ
  deriving DecidableEq, Repr

/-- The struct `Pheromone`: `type` is 0 (food mark) or 1 (home mark). -/
structure Pheromone (K : Type) where
  type : ℤ
  strength : K

/-- The global array `pheromones`, indexed by integer coordinates. -/
abbrev Grid (K : Type) := ℤ → ℤ → Pheromone K

/-- The bounds check `x >= 0 && x < GRID_WIDTH && y >= 0 && y < GRID_HEIGHT`. -/
def inGrid (x y : ℤ) : Prop := 0 ≤ x ∧ x < GRID_WIDTH ∧ 0 ≤ y ∧ y < GRID_HEIGHT

instance (x y : ℤ) : Decidable (inGrid x y) := by
  unfold inGrid; infer_instance

/-- Conversion of a `double` to `int`: truncation toward zero. -/
def toInt (v : K) : ℤ := if 0 ≤ v then ⌊v⌋ else ⌈v⌉

/-! ## Vector helpers -/

def magnitude_2d (sq : K → K) (v : Vector2D K) : K :=
  sq (v.x * v.x + v.y * v.y)

def clamp_magnitude_vector_2d (sq : K → K) (v : Vector2D K) (max_magnitude : K) :
    Vector2D K :=
  let current_mag := magnitude_2d sq v
  if current_mag > max_magnitude then
    let scale := max_magnitude / current_mag
    ⟨v.x * scale, v.y * scale⟩
  else v

def normalize_vector_2d (sq : K → K) (v : Vector2D K) : Vector2D K :=
  let mag := magnitude_2d sq v
  if mag = 0 then v else ⟨v.x / mag, v.y / mag⟩

def multiply_vector_2d (v : Vector2D K) (scalar : K) : Vector2D K :=
  ⟨v.x * scalar, v.y * scalar⟩

def divide_vector_2d (v : Vector2D K) (scalar : K) : Vector2D K :=
  if scalar = 0 then v else ⟨v.x / scalar, v.y / scalar⟩

def add_vector_2d (v1 v2 : Vector2D K) : Vector2D K :=
  ⟨v1.x + v2.x, v1.y + v2.y⟩

/-- The function `distance` on `int` coordinates. -/
def distance (sq : K → K) (x1 y1 x2 y2 : ℤ) : K :=
  sq (((x1 - x2) * (x1 - x2) + (y1 - y2) * (y1 - y2) : ℤ) : K)

/-! ## Pheromone field -/

/-- One pass of `updatePheromones`: every cell of the grid is multiplied by
`1.0 - PHEROMONE_DECAY_RATE`. -/
def updatePheromones (g : Grid K) : Grid K := fun x y =>
  let p := g x y
  if inGrid x y then { type := p.type, strength := p.strength * (1 - PHEROMONE_DECAY_RATE) }
  else p

/-- Assignment to the cell `pheromones[x][y]`. -/
def setCell (g : Grid K) (x y : ℤ) (p : Pheromone K) : Grid K := fun x' y' =>
  if x' = x ∧ y' = y then p else g x' y'

def depositPheromones (g : Grid K) (x y type : ℤ) (pheromoneStrength : K) : Grid K :=
  if inGrid x y then
    if type = 0 then
      setCell g x y { type := 0, strength := (g x y).strength + pheromoneStrength }
    else
      setCell g x y { type := 1, strength := (g x y).strength + pheromoneStrength }
  else g

/-- The values `-5, ..., 5` of the loop variables `dx` and `dy`. -/
def windowOffsets : List ℤ := [-5, -4, -3, -2, -1, 0, 1, 2, 3, 4, 5]

/-- The offsets `(dx, dy)` in the order in which the two nested loops of
`strongestPheromone` visit them: `dx` ascending in the outer loop, `dy`
ascending in the inner loop. -/
def windowCells : List (ℤ × ℤ) :=
  windowOffsets.flatMap (fun dx => windowOffsets.map (fun dy => (dx, dy)))

/-- Body of the inner loop of `strongestPheromone`; the accumulator is
`(direction, max_pheromone)`. -/
def scanCell (g : Grid K) (cx cy : ℤ) (acc : Vector2D K × K) (dx dy : ℤ) :
    Vector2D K × K :=
  let x := cx + dx
  let y := cy + dy
  if inGrid x y then
    if (g x y).strength > acc.2 then (⟨(dx : K), (dy : K)⟩, (g x y).strength) else acc
  else acc

/-- The two nested loops of `strongestPheromone` around the cell `(cx, cy)`. -/
def scanWindow (g : Grid K) (cx cy : ℤ) : Vector2D K × K :=
  windowOffsets.foldl
    (fun acc dx => windowOffsets.foldl (fun acc2 dy => scanCell g cx cy acc2 dx dy) acc)
    (⟨0, 0⟩, 0)

def strongestPheromone (g : Grid K) (ant : Ant K) : Vector2D K :=
  (scanWindow g (toInt ant.position.x) (toInt ant.position.y)).1

/-! ## Food scan -/

/-- The loop of `foodNearby` from index `i` on. -/
def foodNearbyFrom (sq : K → K) (ant : Ant K) : List Food → ℤ → ℤ
  | [], _ => -1
  | f :: fs, i =>
    if f.exists_ ≠ 0 ∧
        distance sq (toInt ant.position.x) (toInt ant.position.y) f.x f.y
          < (FOOD_DETECTION_RADIUS : K) then i
    else foodNearbyFrom sq ant fs (i + 1)

def foodNearby (sq : K → K) (ant : Ant K) (foods : List Food) : ℤ :=
  foodNearbyFrom sq ant foods 0

/-! ## Ant state machine -/

/-- What an ant update reads and writes besides the ant: the food array, the
pheromone grid and the position in the `rand()` stream. -/
structure Env (K : Type) where
  foods : List Food
  pheromones : Grid K
  seed : ℕ

/-- The expression `(rand() % 3) - 1`. -/
def randStep (rand : ℕ → ℕ) (seed : ℕ) : ℤ := ((rand seed % 3 : ℕ) : ℤ) - 1

/-- The pickup statements of the capture block: `amount -= 1` and, when the
amount is then `<= 0`, `exists = 0`. -/
def takeOne (f : Food) : Food :=
  let amount := f.amount - 1
  let f1 : Food := { f with amount := amount }
  if amount ≤ 0 then { f1 with exists_ := 0 } else f1

/-- The block of the `TO_FOOD` case that runs when `foodNearby` returned the
index `i` of the food `f`: head for the food and capture it when close. -/
def towardFood (sq : K → K) (ant : Ant K) (e : Env K) (i : ℕ) (f : Food) :
    Ant K × Env K :=
  let food_dir : Vector2D K := ⟨(f.x : K) - ant.position.x, (f.y : K) - ant.position.y⟩
  let ant1 := { ant with desiredDirection := normalize_vector_2d sq food_dir }
  if distance sq (toInt ant.position.x) (toInt ant.position.y) f.x f.y
      < (FOOD_CAPTURE_RADIUS : K) then
    ({ ant1 with has_food := 1, state := AntState.TO_HOME },
     { e with foods := e.foods.set i (takeOne f) })
  else (ant1, e)

/-- The pheromone/wander block that opens the `TO_FOOD` case: follow the
strongest pheromone of the window, or perturb the heading with two `rand()`
draws.  Returns the ant and the new position in the `rand()` stream. -/
def followOrWander (sq : K → K) (rand : ℕ → ℕ) (ant : Ant K) (e : Env K) : Ant K × ℕ :=
  let pheromone_dir := strongestPheromone e.pheromones ant
  if magnitude_2d sq pheromone_dir > 0 then
    ({ ant with desiredDirection := normalize_vector_2d sq pheromone_dir }, e.seed)
  else
    let dx := ant.desiredDirection.x + (randStep rand e.seed : K) * WANDER_STRENGTH
    let dy := ant.desiredDirection.y + (randStep rand (e.seed + 1) : K) * WANDER_STRENGTH
    ({ ant with desiredDirection := normalize_vector_2d sq ⟨dx, dy⟩ }, e.seed + 2)

def updateAntState (sq : K → K) (rand : ℕ → ℕ) (ant : Ant K) (e : Env K) :
    Ant K × Env K :=
  match ant.state with
  | AntState.TO_FOOD =>
    let r := followOrWander sq rand ant e
    let ant1 := r.1
    let e1 : Env K := { e with seed := r.2 }
    let food_indexa := foodNearby sq ant1 e1.foods
    if food_indexa ≠ -1 then
      match e1.foods[food_indexa.toNat]? with
      | some f => towardFood sq ant1 e1 food_indexa.toNat f
      | none => (ant1, e1)
    else (ant1, e1)
  | AntState.TO_HOME =>
    let g := depositPheromones e.pheromones (toInt ant.position.x) (toInt ant.position.y) 1
      ant.pheromoneStrength
    let dd : Vector2D K := ⟨400 - ant.position.x, 300 - ant.position.y⟩
    let ant1 := { ant with
      pheromoneStrength := ant.pheromoneStrength - (PHEROMONE_DECREASE_RATE : K)
      desiredDirection := normalize_vector_2d sq dd }
    let ant2 :=
      if distance sq (toInt ant.position.x) (toInt ant.position.y) 400 300 < (2 : K) then
        { ant1 with state := AntState.TO_FOOD, pheromoneStrength := 100 }
      else ant1
    (ant2, { e with pheromones := g })
  | _ => (ant, e)

/-! ## Integrator and tick -/

/-- One of the four wrap statements on a coordinate: `if (c < 0) c = dim - 1;`
followed by `if (c >= dim) c = 0;`. -/
def wrapCoord (c : K) (dim : ℤ) : K :=
  let c1 := if c < 0 then (dim : K) - 1 else c
  if c1 ≥ (dim : K) then 0 else c1

/-- The steering and integration part of the loop body of `moveAnts`. -/
def integrate (sq : K → K) (ant : Ant K) : Ant K :=
  let desiredVel := multiply_vector_2d ant.desiredDirection (MAX_SPEED : K)
  let desiredSteeringForce : Vector2D K :=
    ⟨(desiredVel.x - ant.velocity.x) * (STEER_STRENGTH : K),
     (desiredVel.y - ant.velocity.y) * (STEER_STRENGTH : K)⟩
  let clampedDSF := clamp_magnitude_vector_2d sq desiredSteeringForce (STEER_STRENGTH : K)
  let acceleration := divide_vector_2d (⟨clampedDSF.x, clampedDSF.y⟩ : Vector2D K) 1
  let velocity :=
    clamp_magnitude_vector_2d sq (add_vector_2d ant.velocity acceleration) (MAX_SPEED : K)
  let px := wrapCoord ant.position.x SCREEN_WIDTH
  let py := wrapCoord ant.position.y SCREEN_HEIGHT
  { ant with velocity := velocity, position := ⟨px + velocity.x, py + velocity.y⟩ }

/-- The loop body of `moveAnts` for one ant. -/
def moveAnt (sq : K → K) (rand : ℕ → ℕ) (ant : Ant K) (e : Env K) : Ant K × Env K :=
  let r := updateAntState sq rand ant e
  (integrate sq r.1, r.2)

/-- The loop of `moveAnts` over the ants in index order, on the shared
environment. -/
def moveAntsLoop (sq : K → K) (rand : ℕ → ℕ) : List (Ant K) → Env K → List (Ant K) × Env K
  | [], e => ([], e)
  | a :: as, e =>
    let r := moveAnt sq rand a e
    let rest := moveAntsLoop sq rand as r.2
    (r.1 :: rest.1, rest.2)

/-- The whole simulation state. -/
structure World (K : Type) where
  ants : List (Ant K)
  env : Env K

def moveAnts (sq : K → K) (rand : ℕ → ℕ) (w : World K) : World K :=
  let r := moveAntsLoop sq rand w.ants w.env
  { ants := r.1, env := r.2 }

/-- One tick of the main loop: `updatePheromones(); moveAnts(...)`. -/
def Step (sq : K → K) (rand : ℕ → ℕ) (w : World K) : World K :=
  moveAnts sq rand
    { w with env := { w.env with pheromones := updatePheromones w.env.pheromones } }

/-- The state after `n` ticks. -/
def Steps (sq : K → K) (rand : ℕ → ℕ) : ℕ → World K → World K
  | 0, w => w
  | n + 1, w => Step sq rand (Steps sq rand n w)

/-- What the theorems assume of `sqrt`: on non-negative arguments it returns
the non-negative square root. -/
def IsSqrt (sq : K → K) : Prop := ∀ a : K, 0 ≤ a → 0 ≤ sq a ∧ sq a * sq a = a

end Model

/-- An executable square root on `ℚ`, exact on squares of rationals (rounded
down elsewhere); used to run the model on concrete inputs. -/
def sqrtQ (q : ℚ) : ℚ := (Nat.sqrt (q.num.toNat * q.den) : ℚ) / (q.den : ℚ)

/-! ## Rounded arithmetic

The definitions above read `double` and `float` as exact numbers.  The
definitions of this section make the rounding of the C arithmetic explicit, on
rationals: every `double` operation is rounded on its own (no fused
multiply-add) to the nearest binary64 number and the store to a `float` field
rounds to the nearest binary32 number, ties to even, with gradual underflow.
Overflow to infinity is not represented: the theorems on these definitions
bound the size of their inputs where the code could overflow. -/

/-- Rounding of a rational to the nearest integer, ties to the even one. -/
def roundHalfEven (x : ℚ) : ℤ :=
  let f := ⌊x⌋
  if x - f < 1 / 2 then f
  else if 1 / 2 < x - f then f + 1
  else if f % 2 = 0 then f else f + 1

/-- Rounding to the nearest binary floating-point number with `p` significant
bits and least normal exponent `emin`: the spacing of the numbers around `q` is
`2 ^ (e - (p - 1))`, where `2 ^ e ≤ |q| < 2 ^ (e + 1)`, and `2 ^ (emin - (p - 1))`
below `2 ^ emin`. -/
def flt (p : ℕ) (emin : ℤ) (q : ℚ) : ℚ :=
  let e := max (Int.log 2 |q|) emin
  let u : ℚ := 2 ^ (e - ((p : ℤ) - 1))
  (roundHalfEven (q / u) : ℚ) * u

/-- Rounding to `double` (binary64). -/
def fl64 (q : ℚ) : ℚ := flt 53 (-1022) q

/-- Rounding to `float` (binary32). -/
def fl32 (q : ℚ) : ℚ := flt 24 (-126) q

/-- The correctly rounded square root of `math.h` on a `double`: with
`4 ^ k ≤ q < 4 ^ (k + 1)` the root lies in `[2 ^ k, 2 ^ (k + 1))`, where the
spacing of the `double`s is `2 ^ (k - 52)`; `m` is the root in units of that
spacing, rounded down, and the midpoint to the next `double` decides.  The
value 0 stands for the `sqrt` of a negative number, which the code never
takes. -/
def sqrt64 (q : ℚ) : ℚ :=
  if q ≤ 0 then 0
  else
    let k := Int.log 2 q / 2
    let u : ℚ := 2 ^ (k - 52)
    let m : ℤ := (Nat.sqrt ⌊q / (u * u)⌋.toNat : ℤ)
    let mid : ℚ := ((m : ℚ) + 1 / 2) * u
    if q < mid * mid then (m : ℚ) * u
    else if mid * mid < q then ((m : ℚ) + 1) * u
    else if m % 2 = 0 then (m : ℚ) * u else ((m : ℚ) + 1) * u

/-- The constant `(1.0 - PHEROMONE_DECAY_RATE)` of `updatePheromones`, a
`double`: the literal `0.05` rounded, subtracted from 1, rounded. -/
def decayFactor : ℚ := fl64 (1 - fl64 (5 / 100))

/-- One pass of `updatePheromones` with its rounding: the `float` strength is
multiplied by the `double` constant in `double`, and the product is stored back
into the `float` field. -/
def updatePheromones_f32 (g : Grid ℚ) : Grid ℚ := fun x y =>
  let p := g x y
  if inGrid x y then { type := p.type, strength := fl32 (fl64 (p.strength * decayFactor)) }
  else p

/-- The function `magnitude_2d` in `double` arithmetic: two products, their sum
and the square root, each rounded. -/
def magnitude_2d_b64 (v : Vector2D ℚ) : ℚ :=
  sqrt64 (fl64 (fl64 (v.x * v.x) + fl64 (v.y * v.y)))

/-- The function `clamp_magnitude_vector_2d` in `double` arithmetic. -/
def clamp_magnitude_vector_2d_b64 (v : Vector2D ℚ) (max_magnitude : ℚ) : Vector2D ℚ :=
  let current_mag := magnitude_2d_b64 v
  if current_mag > max_magnitude then
    let scale := fl64 (max_magnitude / current_mag)
    ⟨fl64 (v.x * scale), fl64 (v.y * scale)⟩
  else v

/-- The function `normalize_vector_2d` in `double` arithmetic. -/
def normalize_vector_2d_b64 (v : Vector2D ℚ) : Vector2D ℚ :=
  let mag := magnitude_2d_b64 v
  if mag = 0 then v else ⟨fl64 (v.x / mag), fl64 (v.y / mag)⟩

/-- The factor `1 - 2 ^ -53` of one rounding to `double`. -/
def rho : ℚ := 1 - 1 / 2 ^ 53

/-- `Near k a b`: `a` and `b` agree up to `k` roundings to `double`, each of
relative error at most `2 ^ -53`. -/
def Near (k : ℕ) (a b : ℚ) : Prop := b * rho ^ k ≤ a ∧ a * rho ^ k ≤ b

/-! ## Concrete inputs -/

/-- The rational field with every cell of type 0 and strength 0 (the initial
contents of the global array). -/
def zeroGrid : Grid ℚ := fun _ _ => ⟨0, 0⟩

/-- A seeking ant one cell from the right edge, moving right at full speed. -/
def edgeAnt : Ant ℚ := ⟨⟨799, 0⟩, ⟨2, 0⟩, 0, ⟨1, 0⟩, AntState.TO_FOOD, 100⟩

/-- A returning ant `k` ticks into its walk along the row `y = 300` from the
left edge toward the nest: `runner 0` is at `(0, 300)` with
`pheromoneStrength = 100`. -/
def runner (k : ℕ) : Ant ℚ :=
  ⟨⟨2 * (k : ℚ), 300⟩, ⟨2, 0⟩, 0, ⟨1, 0⟩, AntState.TO_HOME, 100 - (k : ℚ)⟩

/-- The world of the long walk home: `runner 0` alone on the empty field, no
food. -/
def longWalk : World ℚ := ⟨[runner 0], ⟨[], zeroGrid, 0⟩⟩

/-- A field whose only marked cell is the home mark of strength 1 at
`(9, 10)`. -/
def homeGrid : Grid ℚ := fun x y => if x = 9 ∧ y = 10 then ⟨1, 1⟩ else ⟨0, 0⟩

/-- The field `homeGrid` with one more cell: a food mark (type 0) of strength 5
at `(11, 10)`. -/
def baitGrid : Grid ℚ := fun x y =>
  if x = 9 ∧ y = 10 then ⟨1, 1⟩ else if x = 11 ∧ y = 10 then ⟨0, 5⟩ else ⟨0, 0⟩

/-- The field `homeGrid` with the type of every cell flipped. -/
def flippedGrid : Grid ℚ := fun x y => if x = 9 ∧ y = 10 then ⟨0, 1⟩ else ⟨1, 0⟩

/-- A seeking ant at `(10, 10)`. -/
def scout : Ant ℚ := ⟨⟨10, 10⟩, ⟨0, 0⟩, 0, ⟨0, 1⟩, AntState.TO_FOOD, 100⟩

/-- A seeking ant at `(8.5, 10)`. -/
def shyAnt : Ant ℚ := ⟨⟨17 / 2, 10⟩, ⟨0, 0⟩, 0, ⟨1, 0⟩, AntState.TO_FOOD, 100⟩

/-- A full food source at `(10, 10)`. -/
def snack : Food := ⟨10, 10, 100, 1⟩

theorem sqrtQ_mul_self (r : ℚ) (h : 0 ≤ r) : sqrtQ (r * r) = r := by
  unfold sqrtQ
  have hn : 0 ≤ r.num := Rat.num_nonneg.mpr h
  have hd : (r.den : ℚ) ≠ 0 := by exact_mod_cast r.den_nz
  obtain ⟨n, hn2⟩ := Int.eq_ofNat_of_zero_le hn
  have e3 : r = (n : ℚ) / (r.den : ℚ) := by
    have h3 := (Rat.num_div_den r).symm
    rw [hn2] at h3
    exact_mod_cast h3
  rw [Rat.mul_self_num, Rat.mul_self_den, hn2]
  have e1 : ((n : ℤ) * (n : ℤ)).toNat * (r.den * r.den) = (n * r.den) * (n * r.den) := by
    have : ((n : ℤ) * (n : ℤ)).toNat = n * n := by
      rw [← Nat.cast_mul]; exact Int.toNat_natCast _
    rw [this]; ring
  rw [e1, Nat.sqrt_eq]
  conv_rhs => rw [e3]
  push_cast
  field_simp
  ring

theorem sqrtQ_zero : sqrtQ 0 = 0 := by
  have h := sqrtQ_mul_self 0 le_rfl
  simpa using h

section SqrtLemmas

variable {K : Type} [LinearOrderedField K]

theorem IsSqrt.nonneg {sq : K → K} (h : IsSqrt sq) {a : K} (ha : 0 ≤ a) : 0 ≤ sq a :=
  (h a ha).1

theorem IsSqrt.mul_self {sq : K → K} (h : IsSqrt sq) {a : K} (ha : 0 ≤ a) :
    sq a * sq a = a :=
  (h a ha).2

theorem IsSqrt.lt_iff {sq : K → K} (h : IsSqrt sq) {a b : K} (ha : 0 ≤ a) (hb : 0 ≤ b) :
    sq a < b ↔ a < b * b := by
  have h1 := h.nonneg ha
  have h2 := h.mul_self ha
  constructor
  · intro hlt
    nlinarith
  · intro hlt
    by_contra hcon
    push_neg at hcon
    nlinarith

theorem IsSqrt.abs_le {sq : K → K} (h : IsSqrt sq) (x y : K) :
    |x| ≤ sq (x * x + y * y) := by
  have ha : 0 ≤ x * x + y * y := by nlinarith [mul_self_nonneg x, mul_self_nonneg y]
  have h1 := h.nonneg ha
  have h2 := h.mul_self ha
  by_contra hcon
  push_neg at hcon
  have h3 := abs_mul_abs_self x
  nlinarith [mul_self_nonneg y, abs_nonneg x]

end SqrtLemmas

/-! ## Facts about rounding -/

theorem roundHalfEven_sub_le (x : ℚ) : |(roundHalfEven x : ℚ) - x| ≤ 1 / 2 := by
  unfold roundHalfEven
  have h1 := Int.floor_le x
  have h2 := Int.lt_floor_add_one x
  simp only []
  split_ifs with a b c
  · rw [abs_le]; constructor <;> linarith
  · push_cast; rw [abs_le]; constructor <;> linarith
  · rw [abs_le]; constructor <;> linarith
  · push_cast; rw [abs_le]; constructor <;> linarith

theorem roundHalfEven_eq (x : ℚ) (n : ℤ) (h : |x - n| < 1 / 2) : roundHalfEven x = n := by
  rw [abs_lt] at h
  unfold roundHalfEven
  simp only []
  by_cases hx : (n : ℚ) ≤ x
  · have hf : ⌊x⌋ = n := by
      rw [Int.floor_eq_iff]; constructor <;> linarith [h.1, h.2]
    rw [hf, if_pos (by linarith [h.2])]
  · have hf : ⌊x⌋ = n - 1 := by
      rw [Int.floor_eq_iff]; push_cast; constructor <;> linarith [h.1, h.2]
    rw [hf]
    push_cast
    rw [if_neg (by linarith [h.1]), if_pos (by linarith [h.1])]
    ring

theorem roundHalfEven_nonneg (x : ℚ) (h : 0 ≤ x) : 0 ≤ roundHalfEven x := by
  unfold roundHalfEven
  have h1 : 0 ≤ ⌊x⌋ := Int.floor_nonneg.mpr h
  simp only []
  split_ifs <;> omega

theorem roundHalfEven_nonpos (x : ℚ) (h : x ≤ 0) : roundHalfEven x ≤ 0 := by
  unfold roundHalfEven
  have h0 := Int.floor_le x
  have h2 := Int.lt_floor_add_one x
  have h1 : ⌊x⌋ ≤ 0 := by
    have : ((⌊x⌋ : ℤ) : ℚ) ≤ 0 := le_trans h0 h
    exact_mod_cast this
  simp only []
  split_ifs with a b c
  · exact h1
  · by_contra hc
    have : ⌊x⌋ = 0 := by omega
    rw [this] at b; simp at b; linarith
  · exact h1
  · by_contra hc
    have : ⌊x⌋ = 0 := by omega
    rw [this] at a b; simp at a b; linarith

theorem roundHalfEven_le_of_le (x : ℚ) (n : ℤ) (h : x ≤ n) : roundHalfEven x ≤ n := by
  unfold roundHalfEven
  have h0 := Int.floor_le x
  have h2 := Int.lt_floor_add_one x
  have h1 : ⌊x⌋ ≤ n := by
    have : ((⌊x⌋ : ℤ) : ℚ) ≤ n := le_trans h0 h
    exact_mod_cast this
  simp only []
  split_ifs with a b c
  · exact h1
  · by_contra hc
    have : ⌊x⌋ = n := by omega
    rw [this] at b; linarith
  · exact h1
  · by_contra hc
    have : ⌊x⌋ = n := by omega
    rw [this] at a b; linarith

theorem two_zpow_pos (e : ℤ) : (0 : ℚ) < 2 ^ e := zpow_pos (by norm_num) e

theorem log_two_eq (q : ℚ) (e : ℤ) (hlo : (2 : ℚ) ^ e ≤ |q|) (hhi : |q| < 2 ^ (e + 1)) :
    Int.log 2 |q| = e := by
  have hpos : 0 < |q| := lt_of_lt_of_le (two_zpow_pos e) hlo
  have h1 : e ≤ Int.log 2 |q| := by
    rw [← Int.zpow_le_iff_le_log (by norm_num) hpos]; simpa using hlo
  have h2 : Int.log 2 |q| < e + 1 := by
    rw [← Int.lt_zpow_iff_log_lt (by norm_num) hpos]; simpa using hhi
  omega

/-- Evaluation of a rounding in the normal range. -/
theorem flt_eval (p : ℕ) (emin e : ℤ) (q : ℚ) (n : ℤ) (he : emin ≤ e)
    (hlo : (2 : ℚ) ^ e ≤ |q|) (hhi : |q| < 2 ^ (e + 1))
    (hn : |q / 2 ^ (e - ((p : ℤ) - 1)) - n| < 1 / 2) :
    flt p emin q = (n : ℚ) * 2 ^ (e - ((p : ℤ) - 1)) := by
  unfold flt
  simp only []
  rw [log_two_eq q e hlo hhi, max_eq_left he, roundHalfEven_eq _ n hn]

theorem flt_zero (p : ℕ) (emin : ℤ) : flt p emin 0 = 0 := by
  unfold flt
  simp [roundHalfEven]

theorem flt_nonneg (p : ℕ) (emin : ℤ) (q : ℚ) (h : 0 ≤ q) : 0 ≤ flt p emin q := by
  unfold flt
  simp only []
  apply mul_nonneg _ (two_zpow_pos _).le
  have := roundHalfEven_nonneg (q / 2 ^ (max (Int.log 2 |q|) emin - ((p : ℤ) - 1)))
    (div_nonneg h (two_zpow_pos _).le)
  exact_mod_cast this

theorem flt_nonpos (p : ℕ) (emin : ℤ) (q : ℚ) (h : q ≤ 0) : flt p emin q ≤ 0 := by
  unfold flt
  simp only []
  apply mul_nonpos_of_nonpos_of_nonneg _ (two_zpow_pos _).le
  have := roundHalfEven_nonpos (q / 2 ^ (max (Int.log 2 |q|) emin - ((p : ℤ) - 1)))
    (div_nonpos_of_nonpos_of_nonneg h (two_zpow_pos _).le)
  exact_mod_cast this

/-- The error of a rounding: half a unit in the last place. -/
theorem flt_error (p : ℕ) (emin : ℤ) (q : ℚ) :
    |flt p emin q - q| ≤ 2 ^ (-(p : ℤ)) * |q| + 2 ^ (emin - (p : ℤ)) := by
  by_cases hq : q = 0
  · subst hq
    rw [flt_zero]
    simp
    exact (two_zpow_pos _).le
  have hpos : 0 < |q| := abs_pos.mpr hq
  unfold flt
  simp only []
  set e := max (Int.log 2 |q|) emin with he
  set u : ℚ := 2 ^ (e - ((p : ℤ) - 1)) with hu
  have hupos : 0 < u := two_zpow_pos _
  have h1 : |(roundHalfEven (q / u) : ℚ) * u - q| ≤ u / 2 := by
    have h2 := roundHalfEven_sub_le (q / u)
    have h3 : (roundHalfEven (q / u) : ℚ) * u - q = ((roundHalfEven (q / u) : ℚ) - q / u) * u := by
      field_simp
    rw [h3, abs_mul, abs_of_pos hupos]
    calc |(roundHalfEven (q / u) : ℚ) - q / u| * u ≤ 1 / 2 * u :=
          mul_le_mul_of_nonneg_right h2 hupos.le
      _ = u / 2 := by ring
  have h4 : u / 2 = 2 ^ (e - (p : ℤ)) := by
    rw [hu, show e - (p : ℤ) = (e - ((p : ℤ) - 1)) - 1 by ring, zpow_sub_one₀ (by norm_num)]
    ring
  rw [h4] at h1
  refine le_trans h1 ?_
  rcases le_total emin (Int.log 2 |q|) with hle | hle
  · have hee : e = Int.log 2 |q| := max_eq_left hle
    have h5 : (2 : ℚ) ^ (Int.log 2 |q|) ≤ |q| := by
      have := Int.zpow_log_le_self (b := 2) (by norm_num) hpos
      simpa using this
    have h6 : (2 : ℚ) ^ (e - (p : ℤ)) = 2 ^ (-(p : ℤ)) * 2 ^ (Int.log 2 |q|) := by
      rw [hee, ← zpow_add₀ (by norm_num)]; congr 1; ring
    rw [h6]
    have h7 : (2 : ℚ) ^ (-(p : ℤ)) * 2 ^ (Int.log 2 |q|) ≤ 2 ^ (-(p : ℤ)) * |q| :=
      mul_le_mul_of_nonneg_left h5 (two_zpow_pos _).le
    linarith [two_zpow_pos (emin - (p : ℤ))]
  · have hee : e = emin := max_eq_right hle
    rw [hee]
    have : 0 ≤ (2 : ℚ) ^ (-(p : ℤ)) * |q| := mul_nonneg (two_zpow_pos _).le hpos.le
    linarith

/-- Evaluation of the rounding of a positive number in the normal range. -/
theorem flt_eval_pos (p : ℕ) (emin e : ℤ) (q : ℚ) (n : ℤ) (he : emin ≤ e)
    (hlo : (2 : ℚ) ^ e ≤ q) (hhi : q < 2 ^ (e + 1))
    (h1 : (n : ℚ) - 1 / 2 < q / 2 ^ (e - ((p : ℤ) - 1)))
    (h2 : q / 2 ^ (e - ((p : ℤ) - 1)) < (n : ℚ) + 1 / 2) :
    flt p emin q = (n : ℚ) * 2 ^ (e - ((p : ℤ) - 1)) := by
  have hq : 0 < q := lt_of_lt_of_le (two_zpow_pos e) hlo
  exact flt_eval p emin e q n he (by rw [abs_of_pos hq]; exact hlo)
    (by rw [abs_of_pos hq]; exact hhi) (by rw [abs_lt]; constructor <;> linarith)

theorem log_two_div_two (q : ℚ) (k : ℤ) (hlo : (2 : ℚ) ^ (2 * k) ≤ q)
    (hhi : q < 2 ^ (2 * k + 2)) : Int.log 2 q / 2 = k := by
  have hpos : 0 < q := lt_of_lt_of_le (two_zpow_pos _) hlo
  have h1 : 2 * k ≤ Int.log 2 q := by
    rw [← Int.zpow_le_iff_le_log (by norm_num) hpos]; simpa using hlo
  have h2 : Int.log 2 q < 2 * k + 2 := by
    rw [← Int.lt_zpow_iff_log_lt (by norm_num) hpos]; simpa using hhi
  omega

theorem sqrt64_nonneg (q : ℚ) : 0 ≤ sqrt64 q := by
  unfold sqrt64
  split_ifs with h
  · exact le_refl 0
  · simp only []
    have hu : (0 : ℚ) < 2 ^ (Int.log 2 q / 2 - 52) := two_zpow_pos _
    have hm : (0 : ℚ) ≤ ((Nat.sqrt ⌊q / (2 ^ (Int.log 2 q / 2 - 52) *
        2 ^ (Int.log 2 q / 2 - 52))⌋.toNat : ℤ) : ℚ) := by
      exact_mod_cast Int.natCast_nonneg _
    split_ifs
    · exact mul_nonneg hm hu.le
    · exact mul_nonneg (by linarith) hu.le
    · exact mul_nonneg hm hu.le
    · exact mul_nonneg (by linarith) hu.le

/-- Evaluation of a square root: the result is the multiple `n * 2 ^ (k - 52)`
whose rounding interval contains the exact root. -/
theorem sqrt64_eval (q : ℚ) (k n : ℤ) (hn : 1 ≤ n) (hlo : (2 : ℚ) ^ (2 * k) ≤ q)
    (hhi : q < 2 ^ (2 * k + 2))
    (h1 : (((n : ℚ) - 1 / 2) * 2 ^ (k - 52)) * (((n : ℚ) - 1 / 2) * 2 ^ (k - 52)) < q)
    (h2 : q < (((n : ℚ) + 1 / 2) * 2 ^ (k - 52)) * (((n : ℚ) + 1 / 2) * 2 ^ (k - 52))) :
    sqrt64 q = (n : ℚ) * 2 ^ (k - 52) := by
  have hpos : 0 < q := lt_of_lt_of_le (two_zpow_pos _) hlo
  unfold sqrt64
  rw [if_neg (not_le.mpr hpos)]
  simp only []
  rw [log_two_div_two q k hlo hhi]
  set u : ℚ := 2 ^ (k - 52) with hu
  have hupos : 0 < u := two_zpow_pos _
  have huu : 0 < u * u := mul_pos hupos hupos
  set N : ℕ := ⌊q / (u * u)⌋.toNat with hN
  have hfl : 0 ≤ ⌊q / (u * u)⌋ := Int.floor_nonneg.mpr (div_pos hpos huu).le
  have hNz : ((N : ℤ) : ℚ) = ((⌊q / (u * u)⌋ : ℤ) : ℚ) := by
    rw [hN, Int.toNat_of_nonneg hfl]
  have hN1 : (N : ℚ) ≤ q / (u * u) := by
    have := Int.floor_le (q / (u * u))
    rw [← hNz] at this; exact_mod_cast this
  have hN2 : q / (u * u) < (N : ℚ) + 1 := by
    have := Int.lt_floor_add_one (q / (u * u))
    rw [← hNz] at this; exact_mod_cast this
  set m : ℕ := Nat.sqrt N with hm
  have hm1 : m * m ≤ N := Nat.sqrt_le N
  have hm2 : N < (m + 1) * (m + 1) := Nat.lt_succ_sqrt N
  have hm1q : (m : ℚ) * m ≤ N := by exact_mod_cast hm1
  have hm2q : (N : ℚ) + 1 ≤ ((m : ℚ) + 1) * ((m : ℚ) + 1) := by exact_mod_cast hm2
  have hq1 : ((n : ℚ) - 1 / 2) * ((n : ℚ) - 1 / 2) < q / (u * u) := by
    rw [lt_div_iff₀ huu]
    calc ((n : ℚ) - 1 / 2) * ((n : ℚ) - 1 / 2) * (u * u)
        = (((n : ℚ) - 1 / 2) * u) * (((n : ℚ) - 1 / 2) * u) := by ring
      _ < q := h1
  have hq2 : q / (u * u) < ((n : ℚ) + 1 / 2) * ((n : ℚ) + 1 / 2) := by
    rw [div_lt_iff₀ huu]
    calc q < (((n : ℚ) + 1 / 2) * u) * (((n : ℚ) + 1 / 2) * u) := h2
      _ = ((n : ℚ) + 1 / 2) * ((n : ℚ) + 1 / 2) * (u * u) := by ring
  have hnq : (1 : ℚ) ≤ n := by exact_mod_cast hn
  have hmle : (m : ℤ) ≤ n := by
    by_contra hc
    have : (n : ℤ) + 1 ≤ m := by omega
    have hc2 : (n : ℚ) + 1 ≤ m := by exact_mod_cast this
    have hc3 : ((n : ℚ) + 1 / 2) * ((n : ℚ) + 1 / 2) < (m : ℚ) * m :=
      mul_lt_mul'' (by linarith) (by linarith) (by linarith) (by linarith)
    linarith
  have hmge : n - 1 ≤ (m : ℤ) := by
    by_contra hc
    have : (m : ℤ) + 2 ≤ n := by omega
    have hc2 : (m : ℚ) + 2 ≤ n := by exact_mod_cast this
    have hm0 : (0 : ℚ) ≤ m := Nat.cast_nonneg m
    have hc3 : ((m : ℚ) + 1) * ((m : ℚ) + 1) < ((n : ℚ) - 1 / 2) * ((n : ℚ) - 1 / 2) :=
      mul_lt_mul'' (by linarith) (by linarith) (by linarith) (by linarith)
    linarith
  have hcast : (((m : ℕ) : ℤ) : ℚ) = (m : ℚ) := by push_cast; rfl
  rcases (by omega : (m : ℤ) = n ∨ (m : ℤ) = n - 1) with hmn | hmn
  · have hmq : (((m : ℕ) : ℤ) : ℚ) = (n : ℚ) := by rw [hmn]
    rw [hmq, if_pos h2]
  · have hmq : (((m : ℕ) : ℤ) : ℚ) = (n : ℚ) - 1 := by rw [hmn]; push_cast; ring
    rw [hmq]
    have e1 : (n : ℚ) - 1 + 1 / 2 = (n : ℚ) - 1 / 2 := by ring
    rw [e1, if_neg (not_lt.mpr h1.le), if_pos h1]
    ring

theorem fl64_error (q : ℚ) : |fl64 q - q| ≤ |q| / 2 ^ 53 + 1 / 2 ^ 1075 := by
  have h := flt_error 53 (-1022) q
  have e1 : (2 : ℚ) ^ (-((53 : ℕ) : ℤ)) = 1 / 2 ^ 53 := by norm_num
  have e2 : (2 : ℚ) ^ ((-1022 : ℤ) - ((53 : ℕ) : ℤ)) = 1 / 2 ^ 1075 := by norm_num
  rw [e1, e2] at h
  unfold fl64
  linarith

theorem fl32_error (q : ℚ) : |fl32 q - q| ≤ |q| / 2 ^ 24 + 1 / 2 ^ 150 := by
  have h := flt_error 24 (-126) q
  have e1 : (2 : ℚ) ^ (-((24 : ℕ) : ℤ)) = 1 / 2 ^ 24 := by norm_num
  have e2 : (2 : ℚ) ^ ((-126 : ℤ) - ((24 : ℕ) : ℤ)) = 1 / 2 ^ 150 := by norm_num
  rw [e1, e2] at h
  unfold fl32
  linarith

/-! ## The pheromone field: decay and deposit -/

section Field

variable {K : Type} [LinearOrderedField K]

theorem inGrid_iff (x y : ℤ) : inGrid x y ↔ 0 ≤ x ∧ x < 800 ∧ 0 ≤ y ∧ y < 600 := Iff.rfl

theorem updatePheromones_strength (g : Grid K) (x y : ℤ) (h : inGrid x y) :
    (updatePheromones g x y).strength = (g x y).strength * (1 - 5 / 100) := by
  simp [updatePheromones, h]

theorem updatePheromones_type (g : Grid K) (x y : ℤ) :
    (updatePheromones g x y).type = (g x y).type := by
  unfold updatePheromones
  by_cases h : inGrid x y <;> simp [h]

theorem updatePheromones_nonneg (g : Grid K) (x y : ℤ) (h : 0 ≤ (g x y).strength) :
    0 ≤ (updatePheromones g x y).strength := by
  unfold updatePheromones
  by_cases hg : inGrid x y
  · simp only [hg, if_true]
    have : (0 : K) ≤ 1 - 5 / 100 := by norm_num
    exact mul_nonneg h this
  · simpa [hg] using h

theorem depositPheromones_same (g : Grid K) (x y type : ℤ) (a : K) (h : inGrid x y) :
    depositPheromones g x y type a x y
      = { type := if type = 0 then 0 else 1, strength := (g x y).strength + a } := by
  unfold depositPheromones
  by_cases ht : type = 0 <;> simp [h, ht, setCell]

theorem depositPheromones_other (g : Grid K) (x y type : ℤ) (a : K) (x' y' : ℤ)
    (hne : ¬ (x' = x ∧ y' = y)) : depositPheromones g x y type a x' y' = g x' y' := by
  unfold depositPheromones
  by_cases h : inGrid x y <;> by_cases ht : type = 0 <;> simp [h, ht, setCell, hne]

theorem depositPheromones_outside (g : Grid K) (x y type : ℤ) (a : K) (h : ¬ inGrid x y) :
    depositPheromones g x y type a = g := by
  simp [depositPheromones, h]

end Field

/-! ## Decay in `float` arithmetic -/

theorem decay_step_01 : fl64 (5 / 100) = (3602879701896397 / 72057594037927936) := by
  rw [show (5 / 100 : ℚ) = (1 / 20) by norm_num]
  exact (flt_eval_pos 53 (-1022) (-5) _ 7205759403792794
    (by norm_num) (by norm_num) (by norm_num) (by norm_num) (by norm_num)).trans
    (by norm_num)

theorem decay_step_02 :
    fl64 (1 - (3602879701896397 / 72057594037927936))
      = (4278419646001971 / 4503599627370496) := by
  rw [show (1 - (3602879701896397 / 72057594037927936) : ℚ)
    = (68454714336031539 / 72057594037927936) by norm_num]
  exact (flt_eval_pos 53 (-1022) (-1) _ 8556839292003942
    (by norm_num) (by norm_num) (by norm_num) (by norm_num) (by norm_num)).trans
    (by norm_num)

theorem decay_step_03 :
    fl64 (1 * (4278419646001971 / 4503599627370496))
      = (4278419646001971 / 4503599627370496) := by
  rw [show (1 * (4278419646001971 / 4503599627370496) : ℚ)
    = (4278419646001971 / 4503599627370496) by norm_num]
  exact (flt_eval_pos 53 (-1022) (-1) _ 8556839292003942
    (by norm_num) (by norm_num) (by norm_num) (by norm_num) (by norm_num)).trans
    (by norm_num)

theorem decay_step_04 : fl32 (4278419646001971 / 4503599627370496) = (15938355 / 16777216) := by
  exact (flt_eval_pos 24 (-126) (-1) _ 15938355
    (by norm_num) (by norm_num) (by norm_num) (by norm_num) (by norm_num)).trans
    (by norm_num)

theorem decay_step_05 : fl64 (10 * (4278419646001971 / 4503599627370496)) = (19 / 2) := by
  rw [show (10 * (4278419646001971 / 4503599627370496) : ℚ)
    = (21392098230009855 / 2251799813685248) by norm_num]
  exact (flt_eval_pos 53 (-1022) 3 _ 5348024557502464
    (by norm_num) (by norm_num) (by norm_num) (by norm_num) (by norm_num)).trans
    (by norm_num)

theorem decay_step_06 : fl32 (19 / 2) = (19 / 2) := by
  exact (flt_eval_pos 24 (-126) 3 _ 9961472
    (by norm_num) (by norm_num) (by norm_num) (by norm_num) (by norm_num)).trans
    (by norm_num)

theorem decay_step_07 :
    fl64 ((19 / 2) * (4278419646001971 / 4503599627370496))
      = (5080623329627341 / 562949953421312) := by
  rw [show ((19 / 2) * (4278419646001971 / 4503599627370496) : ℚ)
    = (81289973274037449 / 9007199254740992) by norm_num]
  exact (flt_eval_pos 53 (-1022) 3 _ 5080623329627341
    (by norm_num) (by norm_num) (by norm_num) (by norm_num) (by norm_num)).trans
    (by norm_num)

theorem decay_step_08 : fl32 (5080623329627341 / 562949953421312) = (4731699 / 524288) := by
  exact (flt_eval_pos 24 (-126) 3 _ 9463398
    (by norm_num) (by norm_num) (by norm_num) (by norm_num) (by norm_num)).trans
    (by norm_num)

theorem decay_step_09 :
    fl64 ((4731699 / 524288) * (4278419646001971 / 4503599627370496))
      = (4826591959135027 / 562949953421312) := by
  rw [show ((4731699 / 524288) * (4278419646001971 / 4503599627370496) : ℚ)
    = (20244193960567880178729 / 2361183241434822606848) by norm_num]
  exact (flt_eval_pos 53 (-1022) 3 _ 4826591959135027
    (by norm_num) (by norm_num) (by norm_num) (by norm_num) (by norm_num)).trans
    (by norm_num)

theorem decay_step_10 : fl32 (4826591959135027 / 562949953421312) = (2247557 / 262144) := by
  exact (flt_eval_pos 24 (-126) 3 _ 8990228
    (by norm_num) (by norm_num) (by norm_num) (by norm_num) (by norm_num)).trans
    (by norm_num)

theorem decayFactor_eq : decayFactor = 4278419646001971 / 4503599627370496 := by
  unfold decayFactor
  rw [decay_step_01, decay_step_02]

theorem updatePheromones_f32_strength (g : Grid ℚ) (x y : ℤ) (h : inGrid x y) :
    (updatePheromones_f32 g x y).strength = fl32 (fl64 ((g x y).strength * decayFactor)) := by
  simp [updatePheromones_f32, h]

theorem updatePheromones_f32_type (g : Grid ℚ) (x y : ℤ) :
    (updatePheromones_f32 g x y).type = (g x y).type := by
  unfold updatePheromones_f32
  by_cases h : inGrid x y <;> simp [h]

theorem iterate_f32_type (g : Grid ℚ) (x y : ℤ) (k : ℕ) :
    ((updatePheromones_f32^[k] g) x y).type = (g x y).type := by
  induction k with
  | zero => rfl
  | succ n ih => rw [Function.iterate_succ_apply', updatePheromones_f32_type, ih]

/-- One rounded decay of a strength `s` differs from `0.95 * s` by at most
`|s| / 2 ^ 24` plus the least positive `float`. -/
theorem decay_pass_error (s : ℚ) :
    |fl32 (fl64 (s * decayFactor)) - 95 / 100 * s| ≤ |s| / 2 ^ 24 + 1 / 2 ^ 149 := by
  rw [decayFactor_eq]
  set c : ℚ := 4278419646001971 / 4503599627370496 with hc
  have h1 := fl64_error (s * c)
  have h2 := fl32_error (fl64 (s * c))
  have hz : |s * c| = |s| * c := by rw [abs_mul, abs_of_pos (by norm_num : (0 : ℚ) < c)]
  have hd : |s * c - 95 / 100 * s| = |s| * (1 / 22517998136852480) := by
    rw [show s * c - 95 / 100 * s = s * (c - 95 / 100) by ring, abs_mul]
    congr 1
    rw [hc]; norm_num [abs_of_neg]
  rw [hz] at h1
  have hs : 0 ≤ |s| := abs_nonneg s
  have hw : |fl64 (s * c)| ≤ |s| * c + |fl64 (s * c) - s * c| := by
    have := abs_add (fl64 (s * c) - s * c) (s * c)
    rw [sub_add_cancel, hz] at this
    linarith
  have h3 : |fl32 (fl64 (s * c)) - 95 / 100 * s| ≤
      |fl32 (fl64 (s * c)) - fl64 (s * c)| + |fl64 (s * c) - s * c| + |s * c - 95 / 100 * s| := by
    have e : fl32 (fl64 (s * c)) - 95 / 100 * s =
        (fl32 (fl64 (s * c)) - fl64 (s * c)) + (fl64 (s * c) - s * c) + (s * c - 95 / 100 * s) := by
      ring
    rw [e]
    exact (abs_add _ _).trans (add_le_add_right (abs_add _ _) _)
  rw [hc] at h1 hw
  rw [hd] at h3
  norm_num at h1 h2 hw h3 ⊢
  linarith

theorem decay_pass_nonneg (s : ℚ) (h : 0 ≤ s) : 0 ≤ fl32 (fl64 (s * decayFactor)) := by
  unfold fl32 fl64
  apply flt_nonneg
  apply flt_nonneg
  rw [decayFactor_eq]
  exact mul_nonneg h (by norm_num)

theorem iterate_f32_nonneg (g : Grid ℚ) (x y : ℤ) (h : inGrid x y) (h0 : 0 ≤ (g x y).strength)
    (k : ℕ) : 0 ≤ ((updatePheromones_f32^[k] g) x y).strength := by
  induction k with
  | zero => exact h0
  | succ n ih =>
    rw [Function.iterate_succ_apply', updatePheromones_f32_strength _ _ _ h]
    exact decay_pass_nonneg _ ih

/-- The rounding errors of `k` decays do not add up beyond `k` single errors,
and never beyond 21 of them. -/
theorem iterate_f32_error (g : Grid ℚ) (x y : ℤ) (h : inGrid x y) (k : ℕ) :
    |((updatePheromones_f32^[k] g) x y).strength - (g x y).strength * (95 / 100) ^ k|
      ≤ (k : ℚ) * (|(g x y).strength| / 2 ^ 24 + 1 / 2 ^ 149) ∧
    |((updatePheromones_f32^[k] g) x y).strength - (g x y).strength * (95 / 100) ^ k|
      ≤ 21 * (|(g x y).strength| / 2 ^ 24 + 1 / 2 ^ 149) := by
  set s := (g x y).strength with hs
  set D : ℚ := |s| / 2 ^ 24 + 1 / 2 ^ 149 with hD
  have hD0 : 0 ≤ D := by
    have : 0 ≤ |s| := abs_nonneg s
    rw [hD]; positivity
  induction k with
  | zero =>
    simp only [Function.iterate_zero, id_eq, pow_zero, mul_one, Nat.cast_zero, zero_mul]
    rw [← hs, sub_self, abs_zero]
    exact ⟨le_refl 0, by linarith⟩
  | succ n ih =>
    rw [Function.iterate_succ_apply', updatePheromones_f32_strength _ _ _ h]
    set yn := ((updatePheromones_f32^[n] g) x y).strength with hyn
    obtain ⟨ih1, ih2⟩ := ih
    have hp := decay_pass_error yn
    have hpow : |s * (95 / 100) ^ n| ≤ |s| := by
      rw [abs_mul]
      have h1 : |((95 : ℚ) / 100) ^ n| ≤ 1 := by
        rw [abs_pow]
        exact pow_le_one₀ (abs_nonneg _) (by norm_num [abs_of_pos])
      calc |s| * |((95 : ℚ) / 100) ^ n| ≤ |s| * 1 :=
            mul_le_mul_of_nonneg_left h1 (abs_nonneg s)
        _ = |s| := mul_one _
    have hy : |yn| ≤ |s| + |yn - s * (95 / 100) ^ n| := by
      have := abs_add (yn - s * (95 / 100) ^ n) (s * (95 / 100) ^ n)
      rw [sub_add_cancel] at this
      linarith
    have hsplit : |fl32 (fl64 (yn * decayFactor)) - s * (95 / 100) ^ (n + 1)| ≤
        |fl32 (fl64 (yn * decayFactor)) - 95 / 100 * yn|
          + 95 / 100 * |yn - s * (95 / 100) ^ n| := by
      have e : fl32 (fl64 (yn * decayFactor)) - s * (95 / 100) ^ (n + 1) =
          (fl32 (fl64 (yn * decayFactor)) - 95 / 100 * yn)
            + 95 / 100 * (yn - s * (95 / 100) ^ n) := by
        rw [pow_succ]; ring
      rw [e]
      refine (abs_add _ _).trans ?_
      rw [abs_mul, abs_of_pos (by norm_num : (0 : ℚ) < 95 / 100)]
    set E := |yn - s * (95 / 100) ^ n| with hE
    have hE0 : 0 ≤ E := abs_nonneg _
    have hstep : |fl32 (fl64 (yn * decayFactor)) - s * (95 / 100) ^ (n + 1)|
        ≤ (95 / 100 + 1 / 2 ^ 24) * E + D := by
      have : |yn| / 2 ^ 24 ≤ (|s| + E) / 2 ^ 24 :=
        div_le_div_of_nonneg_right hy (by positivity)
      rw [hD]
      linarith
    constructor
    · push_cast
      have : (95 / 100 + 1 / 2 ^ 24 : ℚ) * E ≤ 1 * ((n : ℚ) * D) :=
        mul_le_mul (by norm_num) ih1 hE0 (by norm_num)
      linarith
    · have : (95 / 100 + 1 / 2 ^ 24 : ℚ) * E ≤ (95 / 100 + 1 / 2 ^ 24) * (21 * D) :=
        mul_le_mul_of_nonneg_left ih2 (by norm_num)
      have h21 : (95 / 100 + 1 / 2 ^ 24 : ℚ) * (21 * D) + D ≤ 21 * D := by
        have : (0 : ℚ) ≤ (1 - 21 * (1 / 2 ^ 24) - 1 / 20 * 0) := by norm_num
        nlinarith
      linarith

theorem decay_once_of_one :
    (updatePheromones_f32 (fun _ _ => ⟨0, 1⟩) 5 5).strength = 15938355 / 16777216 := by
  rw [updatePheromones_f32_strength _ _ _ (by rw [inGrid_iff]; norm_num), decayFactor_eq]
  show fl32 (fl64 (1 * (4278419646001971 / 4503599627370496))) = _
  rw [decay_step_03, decay_step_04]

theorem decay_thrice_of_ten (g : Grid ℚ) (h : (g 5 5).strength = 10) :
    ((updatePheromones_f32^[3] g) 5 5).strength = 2247557 / 262144 := by
  have h5 : inGrid 5 5 := by rw [inGrid_iff]; norm_num
  have e3 : updatePheromones_f32^[3] g
      = updatePheromones_f32 (updatePheromones_f32 (updatePheromones_f32 g)) := rfl
  rw [e3, updatePheromones_f32_strength _ _ _ h5, updatePheromones_f32_strength _ _ _ h5,
    updatePheromones_f32_strength _ _ _ h5, h, decayFactor_eq,
    decay_step_05, decay_step_06, decay_step_07, decay_step_08, decay_step_09, decay_step_10]

/-- C9, counterexample.  In the arithmetic of the code one decay of the strength
1 leaves `15938355 / 2 ^ 24 = 0.949999988079071`, not `0.95`, and (Scenario D)
a deposit of 10 on the empty cell `(5, 5)` followed by three decays leaves
`2247557 / 2 ^ 18 = 8.573749542236328`, not `10 * 0.95 ^ 3 = 8.57375`. -/
theorem decay_not_exact :
    inGrid 5 5 ∧
    (updatePheromones_f32 (fun _ _ => ⟨0, 1⟩) 5 5).strength = 15938355 / 16777216 ∧
    (updatePheromones_f32 (fun _ _ => ⟨0, 1⟩) 5 5).strength ≠ 95 / 100 * 1 ∧
    ((updatePheromones_f32^[3] (depositPheromones zeroGrid 5 5 0 10)) 5 5).strength
      = 2247557 / 262144 ∧
    ((updatePheromones_f32^[3] (depositPheromones zeroGrid 5 5 0 10)) 5 5).strength
      ≠ 10 * (95 / 100) ^ 3 := by
  have h5 : inGrid 5 5 := by rw [inGrid_iff]; norm_num
  have hd : ((depositPheromones zeroGrid 5 5 0 10) 5 5).strength = 10 := by
    rw [depositPheromones_same _ _ _ _ _ h5]
    simp [zeroGrid]
  refine ⟨h5, decay_once_of_one, ?_, decay_thrice_of_ten _ hd, ?_⟩
  · rw [decay_once_of_one]; norm_num
  · rw [decay_thrice_of_ten _ hd]; norm_num

/-- C9 as amended (decay).  For every field `g`, every cell `(x, y)` of the grid
and every `k`, after `k` consecutive `updatePheromones` passes, computed as the
code does (product in `double`, stored as `float`), the cell keeps its type and
its strength differs from the original strength `s` times `0.95 ^ k` by at most
`k * (|s| / 2 ^ 24 + 2 ^ -149)` and by at most `21 * (|s| / 2 ^ 24 + 2 ^ -149)`;
one pass leaves the rounded product of `s` and the constant `1.0 - 0.05`,
within `|s| / 2 ^ 24 + 2 ^ -149` of `0.95 * s`; a non-negative strength stays
non-negative; and (Scenario D) a deposit of 10 on an empty cell `(5, 5)`
followed by three passes leaves `2247557 / 2 ^ 18`, within `5 / 10 ^ 7` of
`8.57375`. -/
theorem decay_spec (g : Grid ℚ) (x y : ℤ) (h : inGrid x y) (k : ℕ) :
    ((updatePheromones_f32^[k] g) x y).type = (g x y).type ∧
    |((updatePheromones_f32^[k] g) x y).strength - (g x y).strength * (95 / 100) ^ k|
      ≤ (k : ℚ) * (|(g x y).strength| / 2 ^ 24 + 1 / 2 ^ 149) ∧
    |((updatePheromones_f32^[k] g) x y).strength - (g x y).strength * (95 / 100) ^ k|
      ≤ 21 * (|(g x y).strength| / 2 ^ 24 + 1 / 2 ^ 149) ∧
    (updatePheromones_f32 g x y).strength = fl32 (fl64 ((g x y).strength * decayFactor)) ∧
    |(updatePheromones_f32 g x y).strength - 95 / 100 * (g x y).strength|
      ≤ |(g x y).strength| / 2 ^ 24 + 1 / 2 ^ 149 ∧
    (0 ≤ (g x y).strength → 0 ≤ ((updatePheromones_f32^[k] g) x y).strength) ∧
    (∀ (g0 : Grid ℚ) (t : ℤ), (g0 5 5).strength = 0 →
      ((updatePheromones_f32^[3] (depositPheromones g0 5 5 t 10)) 5 5).strength
        = 2247557 / 262144 ∧
      |((updatePheromones_f32^[3] (depositPheromones g0 5 5 t 10)) 5 5).strength
        - 857375 / 100000| ≤ 5 / 10 ^ 7) := by
  refine ⟨iterate_f32_type g x y k, (iterate_f32_error g x y h k).1,
    (iterate_f32_error g x y h k).2, updatePheromones_f32_strength g x y h, ?_,
    fun h0 => iterate_f32_nonneg g x y h h0 k, ?_⟩
  · rw [updatePheromones_f32_strength g x y h]
    exact decay_pass_error _
  · intro g0 t h0
    have h5 : inGrid 5 5 := by rw [inGrid_iff]; norm_num
    have hd : ((depositPheromones g0 5 5 t 10) 5 5).strength = 10 := by
      rw [depositPheromones_same _ _ _ _ _ h5, h0]
      norm_num
    rw [decay_thrice_of_ten _ hd]
    refine ⟨rfl, ?_⟩
    rw [abs_le]
    constructor <;> norm_num

/-- Witness for `decay_spec`: the cell `(5, 5)` of the field that is 10
everywhere, after two passes, and Scenario D on the empty field. -/
theorem decay_spec_witness :
    inGrid 5 5 ∧
    |((updatePheromones_f32^[2] (fun _ _ => (⟨1, 10⟩ : Pheromone ℚ))) 5 5).strength
        - 10 * (95 / 100) ^ 2| ≤ ((2 : ℕ) : ℚ) * (|(10 : ℚ)| / 2 ^ 24 + 1 / 2 ^ 149) ∧
    (0 : ℚ) ≤ 10 ∧
    0 ≤ ((updatePheromones_f32^[2] (fun _ _ => (⟨1, 10⟩ : Pheromone ℚ))) 5 5).strength ∧
    (zeroGrid 5 5).strength = 0 ∧
    |((updatePheromones_f32^[3] (depositPheromones zeroGrid 5 5 0 10)) 5 5).strength
        - 857375 / 100000| ≤ 5 / 10 ^ 7 :=
  ⟨by unfold inGrid; norm_num,
   (decay_spec (fun _ _ => (⟨1, 10⟩ : Pheromone ℚ)) 5 5 (by unfold inGrid; norm_num) 2).2.1,
   by norm_num,
   (decay_spec (fun _ _ => (⟨1, 10⟩ : Pheromone ℚ)) 5 5 (by unfold inGrid; norm_num)
     2).2.2.2.2.2.1 (by norm_num),
   rfl,
   ((decay_spec (fun _ _ => (⟨1, 10⟩ : Pheromone ℚ)) 5 5 (by unfold inGrid; norm_num)
     2).2.2.2.2.2.2 zeroGrid 0 rfl).2⟩

/-! ## The integrator -/

section Integrator

variable {K : Type} [LinearOrderedField K] [FloorRing K]

omit [FloorRing K] in
theorem integrate_state (sq : K → K) (ant : Ant K) :
    (integrate sq ant).state = ant.state := rfl

omit [FloorRing K] in
theorem integrate_has_food (sq : K → K) (ant : Ant K) :
    (integrate sq ant).has_food = ant.has_food := rfl

omit [FloorRing K] in
theorem integrate_pheromoneStrength (sq : K → K) (ant : Ant K) :
    (integrate sq ant).pheromoneStrength = ant.pheromoneStrength := rfl

omit [FloorRing K] in
theorem clamp_abs_le {sq : K → K} (hsq : IsSqrt sq) (v : Vector2D K) (m : K) (hm : 0 ≤ m) :
    |(clamp_magnitude_vector_2d sq v m).x| ≤ m ∧ |(clamp_magnitude_vector_2d sq v m).y| ≤ m := by
  have hx : |v.x| ≤ magnitude_2d sq v := hsq.abs_le v.x v.y
  have hy : |v.y| ≤ magnitude_2d sq v := by
    have h := hsq.abs_le v.y v.x
    rw [add_comm] at h
    exact h
  unfold clamp_magnitude_vector_2d
  by_cases hgt : magnitude_2d sq v > m
  · have hpos : 0 < magnitude_2d sq v := lt_of_le_of_lt hm hgt
    simp only [hgt, if_true]
    have hs : 0 ≤ m / magnitude_2d sq v := div_nonneg hm hpos.le
    constructor
    · rw [abs_mul, abs_of_nonneg hs]
      calc |v.x| * (m / magnitude_2d sq v)
          ≤ magnitude_2d sq v * (m / magnitude_2d sq v) :=
            mul_le_mul_of_nonneg_right hx hs
        _ = m := by field_simp
    · rw [abs_mul, abs_of_nonneg hs]
      calc |v.y| * (m / magnitude_2d sq v)
          ≤ magnitude_2d sq v * (m / magnitude_2d sq v) :=
            mul_le_mul_of_nonneg_right hy hs
        _ = m := by field_simp
  · simp only [hgt, if_false]
    push_neg at hgt
    exact ⟨hx.trans hgt, hy.trans hgt⟩

omit [FloorRing K] in
theorem wrapCoord_range (c : K) (dim : ℤ) (hdim : 1 ≤ dim) :
    0 ≤ wrapCoord c dim ∧ wrapCoord c dim < (dim : K) := by
  have hd : (1 : K) ≤ (dim : K) := by exact_mod_cast hdim
  unfold wrapCoord
  by_cases h0 : c < 0
  · have h1 : ¬ ((dim : K) - 1 ≥ (dim : K)) := by
      intro h; linarith
    simp only [h0, if_true, h1, if_false]
    constructor <;> linarith
  · simp only [h0, if_false]
    push_neg at h0
    by_cases h2 : c ≥ (dim : K)
    · simp only [h2, if_true]
      constructor <;> linarith
    · simp only [h2, if_false]
      push_neg at h2
      exact ⟨h0, h2⟩

omit [FloorRing K] in
theorem integrate_velocity (sq : K → K) (ant : Ant K) :
    ∃ v : Vector2D K,
      (integrate sq ant).velocity = clamp_magnitude_vector_2d sq v ((MAX_SPEED : ℤ) : K) :=
  ⟨_, rfl⟩

omit [FloorRing K] in
theorem integrate_position (sq : K → K) (ant : Ant K) :
    (integrate sq ant).position.x
      = wrapCoord ant.position.x SCREEN_WIDTH + (integrate sq ant).velocity.x ∧
    (integrate sq ant).position.y
      = wrapCoord ant.position.y SCREEN_HEIGHT + (integrate sq ant).velocity.y :=
  ⟨rfl, rfl⟩

omit [FloorRing K] in
theorem integrate_speed {sq : K → K} (hsq : IsSqrt sq) (ant : Ant K) :
    |(integrate sq ant).velocity.x| ≤ 2 ∧ |(integrate sq ant).velocity.y| ≤ 2 := by
  obtain ⟨v, hv⟩ := integrate_velocity sq ant
  rw [hv]
  have h := clamp_abs_le hsq v ((MAX_SPEED : ℤ) : K) (by norm_num)
  simpa using h

omit [FloorRing K] in
theorem integrate_position_bound {sq : K → K} (hsq : IsSqrt sq) (ant : Ant K) :
    (-2 ≤ (integrate sq ant).position.x ∧ (integrate sq ant).position.x < 802) ∧
    (-2 ≤ (integrate sq ant).position.y ∧ (integrate sq ant).position.y < 602) := by
  obtain ⟨h1, h2⟩ := integrate_speed hsq ant
  obtain ⟨hpx, hpy⟩ := integrate_position sq ant
  have hwx := wrapCoord_range ant.position.x SCREEN_WIDTH (by norm_num)
  have hwy := wrapCoord_range ant.position.y SCREEN_HEIGHT (by norm_num)
  rw [hpx, hpy]
  rw [abs_le] at h1 h2
  push_cast at hwx hwy
  refine ⟨⟨?_, ?_⟩, ⟨?_, ?_⟩⟩ <;>
    linarith [h1.1, h1.2, h2.1, h2.2, hwx.1, hwx.2, hwy.1, hwy.2]

end Integrator

/-! ## The state machine -/

section Machine

variable {K : Type} [LinearOrderedField K] [FloorRing K]

theorem followOrWander_facts (sq : K → K) (rand : ℕ → ℕ) (ant : Ant K) (e : Env K) :
    (followOrWander sq rand ant e).1.position = ant.position ∧
    (followOrWander sq rand ant e).1.velocity = ant.velocity ∧
    (followOrWander sq rand ant e).1.state = ant.state ∧
    (followOrWander sq rand ant e).1.has_food = ant.has_food ∧
    (followOrWander sq rand ant e).1.pheromoneStrength = ant.pheromoneStrength := by
  unfold followOrWander
  by_cases h : magnitude_2d sq (strongestPheromone e.pheromones ant) > 0 <;> simp [h]

theorem foodNearbyFrom_congr (sq : K → K) (a b : Ant K) (h : a.position = b.position)
    (fs : List Food) (i : ℤ) : foodNearbyFrom sq a fs i = foodNearbyFrom sq b fs i := by
  induction fs generalizing i with
  | nil => rfl
  | cons f fs ih => simp only [foodNearbyFrom, h, ih]

theorem foodNearbyFrom_found (sq : K → K) (ant : Ant K) (fs : List Food) (i j : ℤ)
    (hj : foodNearbyFrom sq ant fs i = j) (hne : j ≠ -1) :
    i ≤ j ∧ ∃ f, fs[(j - i).toNat]? = some f ∧ f.exists_ ≠ 0 ∧
      distance sq (toInt ant.position.x) (toInt ant.position.y) f.x f.y
        < (FOOD_DETECTION_RADIUS : K) := by
  induction fs generalizing i with
  | nil => simp [foodNearbyFrom] at hj; exact absurd hj.symm hne
  | cons f fs ih =>
    unfold foodNearbyFrom at hj
    split at hj
    · next hc =>
      subst hj
      exact ⟨le_refl _, f, by simp, hc.1, hc.2⟩
    · obtain ⟨h1, g, h2, h3⟩ := ih (i + 1) hj
      refine ⟨by omega, g, ?_, h3⟩
      have e1 : (j - i).toNat = (j - (i + 1)).toNat + 1 := by omega
      rw [e1, List.getElem?_cons_succ]
      exact h2

theorem foodNearby_found (sq : K → K) (ant : Ant K) (fs : List Food) (j : ℤ)
    (hj : foodNearby sq ant fs = j) (hne : j ≠ -1) :
    0 ≤ j ∧ ∃ f, fs[j.toNat]? = some f ∧ f.exists_ ≠ 0 ∧
      distance sq (toInt ant.position.x) (toInt ant.position.y) f.x f.y
        < (FOOD_DETECTION_RADIUS : K) := by
  have h := foodNearbyFrom_found sq ant fs 0 j hj hne
  simpa using h

/-- What one update of a `TO_FOOD` ant can do: either no capture, and then the
state, the flags and the food array are unchanged, or the capture of the food
that `foodNearby` returned. -/
theorem updateAntState_TO_FOOD (sq : K → K) (rand : ℕ → ℕ) (ant : Ant K) (e : Env K)
    (hs : ant.state = AntState.TO_FOOD) :
    (updateAntState sq rand ant e).1.position = ant.position ∧
    (updateAntState sq rand ant e).1.pheromoneStrength = ant.pheromoneStrength ∧
    (updateAntState sq rand ant e).2.pheromones = e.pheromones ∧
    (((updateAntState sq rand ant e).1.state = AntState.TO_FOOD ∧
        (updateAntState sq rand ant e).1.has_food = ant.has_food ∧
        (updateAntState sq rand ant e).2.foods = e.foods ∧
        (foodNearby sq ant e.foods = -1 ∨
          ∃ f, e.foods[(foodNearby sq ant e.foods).toNat]? = some f ∧
            ¬ distance sq (toInt ant.position.x) (toInt ant.position.y) f.x f.y
              < (FOOD_CAPTURE_RADIUS : K))) ∨
      (∃ f, foodNearby sq ant e.foods ≠ -1 ∧
        e.foods[(foodNearby sq ant e.foods).toNat]? = some f ∧ f.exists_ ≠ 0 ∧
        distance sq (toInt ant.position.x) (toInt ant.position.y) f.x f.y
          < (FOOD_CAPTURE_RADIUS : K) ∧
        (updateAntState sq rand ant e).1.state = AntState.TO_HOME ∧
        (updateAntState sq rand ant e).1.has_food = 1 ∧
        (updateAntState sq rand ant e).2.foods
          = e.foods.set (foodNearby sq ant e.foods).toNat (takeOne f))) := by
  obtain ⟨hp, -, hst, hhf, hps⟩ := followOrWander_facts sq rand ant e
  have hfn : foodNearby sq (followOrWander sq rand ant e).1 e.foods
      = foodNearby sq ant e.foods := foodNearbyFrom_congr sq _ _ hp _ _
  unfold updateAntState
  simp only [hs, hfn]
  by_cases hidx : foodNearby sq ant e.foods = -1
  · simp [hidx, hp, hst, hhf, hps, hs]
  · obtain ⟨-, f, hf, hex, -⟩ := foodNearby_found sq ant e.foods _ rfl hidx
    simp only [ne_eq, hidx, not_false_eq_true, if_true, hf]
    unfold towardFood
    rw [hp]
    have hcast : ((FOOD_CAPTURE_RADIUS : ℤ) : K) = 2 := by norm_num
    rw [hcast]
    by_cases hd : distance sq (toInt ant.position.x) (toInt ant.position.y) f.x f.y < (2 : K)
    · simp [hd, hp, hps, hex]
    · simp [hd, hp, hps, hst, hs, hhf, hidx]
      exact not_lt.mp hd

/-- What one update of a `TO_HOME` ant does. -/
theorem updateAntState_TO_HOME (sq : K → K) (rand : ℕ → ℕ) (ant : Ant K) (e : Env K)
    (hs : ant.state = AntState.TO_HOME) :
    (updateAntState sq rand ant e).1.position = ant.position ∧
    (updateAntState sq rand ant e).1.has_food = ant.has_food ∧
    (updateAntState sq rand ant e).2.foods = e.foods ∧
    (updateAntState sq rand ant e).2.seed = e.seed ∧
    (updateAntState sq rand ant e).2.pheromones
      = depositPheromones e.pheromones (toInt ant.position.x) (toInt ant.position.y) 1
          ant.pheromoneStrength ∧
    (updateAntState sq rand ant e).1.desiredDirection
      = normalize_vector_2d sq ⟨400 - ant.position.x, 300 - ant.position.y⟩ ∧
    (distance sq (toInt ant.position.x) (toInt ant.position.y) 400 300 < (2 : K) →
      (updateAntState sq rand ant e).1.state = AntState.TO_FOOD ∧
      (updateAntState sq rand ant e).1.pheromoneStrength = 100) ∧
    (¬ distance sq (toInt ant.position.x) (toInt ant.position.y) 400 300 < (2 : K) →
      (updateAntState sq rand ant e).1.state = AntState.TO_HOME ∧
      (updateAntState sq rand ant e).1.pheromoneStrength = ant.pheromoneStrength - 1) := by
  unfold updateAntState
  simp only [hs]
  by_cases hd : distance sq (toInt ant.position.x) (toInt ant.position.y) 400 300 < (2 : K)
  · simp [hd]
  · simp [hd, hs]

/-- An ant in one of the five states that the switch does not handle is left
alone. -/
theorem updateAntState_other (sq : K → K) (rand : ℕ → ℕ) (ant : Ant K) (e : Env K)
    (h1 : ant.state ≠ AntState.TO_FOOD) (h2 : ant.state ≠ AntState.TO_HOME) :
    updateAntState sq rand ant e = (ant, e) := by
  unfold updateAntState
  cases hs : ant.state <;> simp_all

/-- A food whose `exists` flag is 0 is never touched by an update. -/
theorem updateAntState_exhausted (sq : K → K) (rand : ℕ → ℕ) (ant : Ant K) (e : Env K)
    (i : ℕ) (f : Food) (hf : e.foods[i]? = some f) (hex : f.exists_ = 0) :
    (updateAntState sq rand ant e).2.foods[i]? = some f := by
  by_cases h1 : ant.state = AntState.TO_FOOD
  · obtain ⟨-, -, -, h | ⟨f2, -, hf2, hex2, -, -, -, hfoods⟩⟩ :=
      updateAntState_TO_FOOD sq rand ant e h1
    · rw [h.2.2.1]; exact hf
    · rw [hfoods]
      have hne : (foodNearby sq ant e.foods).toNat ≠ i := by
        intro heq
        rw [heq, hf] at hf2
        cases hf2
        exact hex2 hex
      rw [List.getElem?_set_ne hne]
      exact hf
  · by_cases h2 : ant.state = AntState.TO_HOME
    · rw [(updateAntState_TO_HOME sq rand ant e h2).2.2.1]; exact hf
    · rw [updateAntState_other sq rand ant e h1 h2]; exact hf

/-- An update with a non-negative `pheromoneStrength` keeps every cell
non-negative. -/
theorem updateAntState_strength_nonneg (sq : K → K) (rand : ℕ → ℕ) (ant : Ant K) (e : Env K)
    (hps : 0 ≤ ant.pheromoneStrength) (hg : ∀ x y, 0 ≤ (e.pheromones x y).strength) :
    ∀ x y, 0 ≤ ((updateAntState sq rand ant e).2.pheromones x y).strength := by
  intro x y
  by_cases h1 : ant.state = AntState.TO_FOOD
  · rw [(updateAntState_TO_FOOD sq rand ant e h1).2.2.1]; exact hg x y
  · by_cases h2 : ant.state = AntState.TO_HOME
    · rw [(updateAntState_TO_HOME sq rand ant e h2).2.2.2.2.1]
      by_cases hc : x = toInt ant.position.x ∧ y = toInt ant.position.y
      · obtain ⟨hx, hy⟩ := hc
        subst hx; subst hy
        by_cases hin : inGrid (toInt ant.position.x) (toInt ant.position.y)
        · rw [depositPheromones_same _ _ _ _ _ hin]
          exact add_nonneg (hg _ _) hps
        · rw [depositPheromones_outside _ _ _ _ _ hin]; exact hg _ _
      · rw [depositPheromones_other _ _ _ _ _ _ _ hc]; exact hg x y
    · rw [updateAntState_other sq rand ant e h1 h2]; exact hg x y

/-- An update lowers `pheromoneStrength` by at most 1, and never below 99 when
it resets it. -/
theorem updateAntState_strength_ge (sq : K → K) (rand : ℕ → ℕ) (ant : Ant K) (e : Env K)
    (c : K) (hc : c ≤ 101) (hps : c ≤ ant.pheromoneStrength) :
    c - 1 ≤ (updateAntState sq rand ant e).1.pheromoneStrength := by
  by_cases h1 : ant.state = AntState.TO_FOOD
  · rw [(updateAntState_TO_FOOD sq rand ant e h1).2.1]; linarith
  · by_cases h2 : ant.state = AntState.TO_HOME
    · obtain ⟨-, -, -, -, -, -, hnear, hfar⟩ := updateAntState_TO_HOME sq rand ant e h2
      by_cases hd : distance sq (toInt ant.position.x) (toInt ant.position.y) 400 300 < (2 : K)
      · rw [(hnear hd).2]; linarith
      · rw [(hfar hd).2]; linarith
    · rw [updateAntState_other sq rand ant e h1 h2]; simp only; linarith

end Machine

/-! ## The ant loop and the tick -/

section Loop

variable {K : Type} [LinearOrderedField K] [FloorRing K]

theorem moveAntsLoop_length (sq : K → K) (rand : ℕ → ℕ) (ants : List (Ant K)) (e : Env K) :
    (moveAntsLoop sq rand ants e).1.length = ants.length := by
  induction ants generalizing e with
  | nil => rfl
  | cons a as ih => simp [moveAntsLoop, ih]

theorem moveAntsLoop_exhausted (sq : K → K) (rand : ℕ → ℕ) (ants : List (Ant K)) (e : Env K)
    (i : ℕ) (f : Food) (hf : e.foods[i]? = some f) (hex : f.exists_ = 0) :
    (moveAntsLoop sq rand ants e).2.foods[i]? = some f := by
  induction ants generalizing e with
  | nil => exact hf
  | cons a as ih =>
    simp only [moveAntsLoop]
    exact ih _ (updateAntState_exhausted sq rand a e i f hf hex)

theorem moveAntsLoop_nonneg (sq : K → K) (rand : ℕ → ℕ) (ants : List (Ant K)) (e : Env K)
    (c : K) (h0 : 0 ≤ c) (hc : c ≤ 101) (hps : ∀ a ∈ ants, c ≤ a.pheromoneStrength)
    (hg : ∀ x y, 0 ≤ (e.pheromones x y).strength) :
    (∀ a ∈ (moveAntsLoop sq rand ants e).1, c - 1 ≤ a.pheromoneStrength) ∧
    (∀ x y, 0 ≤ ((moveAntsLoop sq rand ants e).2.pheromones x y).strength) := by
  induction ants generalizing e with
  | nil => exact ⟨fun a ha => by simp [moveAntsLoop] at ha, hg⟩
  | cons a as ih =>
    have ha : c ≤ a.pheromoneStrength := hps a (List.mem_cons_self _ _)
    have hg1 := updateAntState_strength_nonneg sq rand a e (h0.trans ha) hg
    have hrest := ih (updateAntState sq rand a e).2
      (fun b hb => hps b (List.mem_cons_of_mem _ hb)) hg1
    simp only [moveAntsLoop, moveAnt]
    refine ⟨?_, hrest.2⟩
    intro b hb
    rcases List.mem_cons.mp hb with h | h
    · rw [h, integrate_pheromoneStrength]
      exact updateAntState_strength_ge sq rand a e c hc ha
    · exact hrest.1 b h

theorem moveAntsLoop_position_bound {sq : K → K} (hsq : IsSqrt sq) (rand : ℕ → ℕ)
    (ants : List (Ant K)) (e : Env K) :
    ∀ a ∈ (moveAntsLoop sq rand ants e).1,
      (-2 ≤ a.position.x ∧ a.position.x < 802) ∧ (-2 ≤ a.position.y ∧ a.position.y < 602) := by
  induction ants generalizing e with
  | nil => intro a ha; simp [moveAntsLoop] at ha
  | cons b bs ih =>
    intro a ha
    simp only [moveAntsLoop, moveAnt] at ha
    rcases List.mem_cons.mp ha with h | h
    · rw [h]; exact integrate_position_bound hsq _
    · exact ih _ a h

/-- With an empty food array the loop leaves the array empty and every
`TO_FOOD` ant in `TO_FOOD`, with its flag and trail strength. -/
theorem moveAntsLoop_nofood (sq : K → K) (rand : ℕ → ℕ) (ants : List (Ant K)) (e : Env K)
    (he : e.foods = []) :
    (moveAntsLoop sq rand ants e).2.foods = [] ∧
    ∀ (i : ℕ) (a : Ant K), ants[i]? = some a → a.state = AntState.TO_FOOD →
      ∃ a', (moveAntsLoop sq rand ants e).1[i]? = some a' ∧ a'.state = AntState.TO_FOOD ∧
        a'.has_food = a.has_food ∧ a'.pheromoneStrength = a.pheromoneStrength := by
  induction ants generalizing e with
  | nil => exact ⟨he, fun i a h => by simp at h⟩
  | cons b bs ih =>
    have hfoods : (updateAntState sq rand b e).2.foods = [] := by
      by_cases h1 : b.state = AntState.TO_FOOD
      · obtain ⟨-, -, -, h | ⟨f, -, hf, -⟩⟩ := updateAntState_TO_FOOD sq rand b e h1
        · rw [h.2.2.1]; exact he
        · rw [he] at hf; simp at hf
      · by_cases h2 : b.state = AntState.TO_HOME
        · rw [(updateAntState_TO_HOME sq rand b e h2).2.2.1]; exact he
        · rw [updateAntState_other sq rand b e h1 h2]; exact he
    obtain ⟨ih1, ih2⟩ := ih (updateAntState sq rand b e).2 hfoods
    simp only [moveAntsLoop, moveAnt]
    refine ⟨ih1, ?_⟩
    intro i a hi hs
    cases i with
    | zero =>
      simp only [List.getElem?_cons_zero, Option.some.injEq] at hi
      subst hi
      refine ⟨integrate sq (updateAntState sq rand b e).1, by simp, ?_⟩
      rw [integrate_state, integrate_has_food, integrate_pheromoneStrength]
      obtain ⟨-, hps, -, h | ⟨f, -, hf, -⟩⟩ := updateAntState_TO_FOOD sq rand b e hs
      · exact ⟨h.1, h.2.1, hps⟩
      · rw [he] at hf; simp at hf
    | succ n =>
      simp only [List.getElem?_cons_succ] at hi ⊢
      exact ih2 n a hi hs

theorem Step_ants (sq : K → K) (rand : ℕ → ℕ) (w : World K) :
    (Step sq rand w).ants
      = (moveAntsLoop sq rand w.ants
          { w.env with pheromones := updatePheromones w.env.pheromones }).1 := rfl

theorem Step_env (sq : K → K) (rand : ℕ → ℕ) (w : World K) :
    (Step sq rand w).env
      = (moveAntsLoop sq rand w.ants
          { w.env with pheromones := updatePheromones w.env.pheromones }).2 := rfl

theorem Steps_succ (sq : K → K) (rand : ℕ → ℕ) (n : ℕ) (w : World K) :
    Steps sq rand (n + 1) w = Step sq rand (Steps sq rand n w) := rfl

theorem Steps_length (sq : K → K) (rand : ℕ → ℕ) (n : ℕ) (w : World K) :
    (Steps sq rand n w).ants.length = w.ants.length := by
  induction n with
  | zero => rfl
  | succ n ih => rw [Steps_succ, Step_ants, moveAntsLoop_length, ih]

theorem Steps_exhausted (sq : K → K) (rand : ℕ → ℕ) (n : ℕ) (w : World K)
    (i : ℕ) (f : Food) (hf : w.env.foods[i]? = some f) (hex : f.exists_ = 0) :
    (Steps sq rand n w).env.foods[i]? = some f := by
  induction n with
  | zero => exact hf
  | succ n ih =>
    rw [Steps_succ, Step_env]
    exact moveAntsLoop_exhausted sq rand _ _ i f ih hex

/-- After `k ≤ 101` ticks from a non-negative field and trail strengths of at
least 100, every trail strength is at least `100 - k` and the field is
non-negative. -/
theorem Steps_nonneg (sq : K → K) (rand : ℕ → ℕ) (w : World K)
    (hg : ∀ x y, 0 ≤ (w.env.pheromones x y).strength)
    (hps : ∀ a ∈ w.ants, (100 : K) ≤ a.pheromoneStrength) (k : ℕ) (hk : k ≤ 101) :
    (∀ a ∈ (Steps sq rand k w).ants, (100 : K) - k ≤ a.pheromoneStrength) ∧
    (∀ x y, 0 ≤ ((Steps sq rand k w).env.pheromones x y).strength) := by
  induction k with
  | zero =>
    refine ⟨?_, hg⟩
    intro a ha
    have := hps a ha
    simpa [Steps] using this
  | succ n ih =>
    obtain ⟨ih1, ih2⟩ := ih (by omega)
    have hn : (n : K) ≤ 100 := by
      have : n ≤ 100 := by omega
      exact_mod_cast this
    have h := moveAntsLoop_nonneg sq rand (Steps sq rand n w).ants
      { (Steps sq rand n w).env with
        pheromones := updatePheromones (Steps sq rand n w).env.pheromones }
      ((100 : K) - n) (by linarith) (by linarith [Nat.cast_nonneg (α := K) n]) ih1
      (fun x y => updatePheromones_nonneg _ x y (ih2 x y))
    rw [Steps_succ, Step_ants, Step_env]
    refine ⟨?_, h.2⟩
    intro a ha
    have := h.1 a ha
    push_cast
    linarith

end Loop

/-! ## Truncation, distances and the window scan -/

section Sensing

variable {K : Type} [LinearOrderedField K] [FloorRing K]

theorem toInt_intCast (n : ℤ) : toInt ((n : ℤ) : K) = n := by
  unfold toInt
  by_cases h : (0 : K) ≤ (n : K) <;> simp [h]

theorem toInt_of_nonneg (v : K) (h : 0 ≤ v) : toInt v = ⌊v⌋ := by
  simp [toInt, h]

omit [FloorRing K] in
theorem distance_lt_iff {sq : K → K} (hsq : IsSqrt sq) (x1 y1 x2 y2 : ℤ) (b : K) (hb : 0 ≤ b) :
    distance sq x1 y1 x2 y2 < b ↔
      (((x1 - x2) * (x1 - x2) + (y1 - y2) * (y1 - y2) : ℤ) : K) < b * b := by
  unfold distance
  apply hsq.lt_iff _ hb
  have : (0 : ℤ) ≤ (x1 - x2) * (x1 - x2) + (y1 - y2) * (y1 - y2) := by
    nlinarith [mul_self_nonneg (x1 - x2), mul_self_nonneg (y1 - y2)]
  exact_mod_cast this

omit [FloorRing K] in
theorem scanCell_of_nonpos (g : Grid K) (hg : ∀ x y, (g x y).strength ≤ 0) (cx cy dx dy : ℤ) :
    scanCell g cx cy (⟨0, 0⟩, 0) dx dy = (⟨0, 0⟩, 0) := by
  unfold scanCell
  have h : ¬ (g (cx + dx) (cy + dy)).strength > 0 := not_lt.mpr (hg _ _)
  by_cases hin : inGrid (cx + dx) (cy + dy) <;> simp [hin, h]

omit [FloorRing K] in
/-- On a field without positive strength the window scan finds nothing. -/
theorem scanWindow_of_nonpos (g : Grid K) (hg : ∀ x y, (g x y).strength ≤ 0) (cx cy : ℤ) :
    scanWindow g cx cy = (⟨0, 0⟩, 0) := by
  have inner : ∀ (l : List ℤ) (dx : ℤ),
      l.foldl (fun acc2 dy => scanCell g cx cy acc2 dx dy) (⟨0, 0⟩, 0) = (⟨0, 0⟩, 0) := by
    intro l dx
    induction l with
    | nil => rfl
    | cons d ds ih => rw [List.foldl_cons, scanCell_of_nonpos g hg]; exact ih
  have outer : ∀ l : List ℤ,
      l.foldl (fun acc dx =>
        windowOffsets.foldl (fun acc2 dy => scanCell g cx cy acc2 dx dy) acc) (⟨0, 0⟩, 0)
        = (⟨0, 0⟩, 0) := by
    intro l
    induction l with
    | nil => rfl
    | cons d ds ih => rw [List.foldl_cons, inner]; exact ih
  exact outer windowOffsets

theorem strongestPheromone_of_nonpos (g : Grid K) (hg : ∀ x y, (g x y).strength ≤ 0)
    (ant : Ant K) : strongestPheromone g ant = ⟨0, 0⟩ := by
  unfold strongestPheromone
  rw [scanWindow_of_nonpos g hg]

end Sensing

theorem sqrtQ_one : sqrtQ 1 = 1 := by
  have h := sqrtQ_mul_self 1 (by norm_num)
  simpa using h

theorem sqrtQ_four : sqrtQ 4 = 2 := by
  have h := sqrtQ_mul_self 2 (by norm_num)
  norm_num at h
  exact h

/-- The real square root is a square root. -/
theorem isSqrt_real : IsSqrt Real.sqrt :=
  fun a ha => ⟨Real.sqrt_nonneg a, Real.mul_self_sqrt ha⟩

/-! ## Scenario A -/

section ScenarioA

variable {K : Type} [LinearOrderedField K] [FloorRing K]

theorem Steps_nofood (sq : K → K) (rand : ℕ → ℕ) (w : World K) (hfood : w.env.foods = [])
    (n : ℕ) : (Steps sq rand n w).env.foods = [] := by
  induction n with
  | zero => exact hfood
  | succ n ih =>
    have hnf : ({ (Steps sq rand n w).env with
        pheromones := updatePheromones (Steps sq rand n w).env.pheromones } : Env K).foods = [] :=
      ih
    rw [Steps_succ, Step_env]
    exact (moveAntsLoop_nofood sq rand _ _ hnf).1

/-- C5 (Scenario A, state part).  With zero food sources, for every field,
every random source and every number `n` of ticks, an ant that starts in
`TO_FOOD` (at any index `i` of the ant array) is in `TO_FOOD` after `n` ticks,
with its `has_food` flag and its `pheromoneStrength` unchanged. -/
theorem seeking_without_food (sq : K → K) (rand : ℕ → ℕ) (w : World K)
    (hfood : w.env.foods = []) (i : ℕ) (a : Ant K) (hi : w.ants[i]? = some a)
    (hs : a.state = AntState.TO_FOOD) (n : ℕ) :
    ∃ a', (Steps sq rand n w).ants[i]? = some a' ∧ a'.state = AntState.TO_FOOD ∧
      a'.has_food = a.has_food ∧ a'.pheromoneStrength = a.pheromoneStrength := by
  induction n with
  | zero => exact ⟨a, hi, hs, rfl, rfl⟩
  | succ n ih =>
    obtain ⟨b, hb, hbs, hbf, hbp⟩ := ih
    have hnf : ({ (Steps sq rand n w).env with
        pheromones := updatePheromones (Steps sq rand n w).env.pheromones } : Env K).foods = [] :=
      Steps_nofood sq rand w hfood n
    obtain ⟨c, hc, hcs, hcf, hcp⟩ :=
      (moveAntsLoop_nofood sq rand (Steps sq rand n w).ants _ hnf).2 i b hb hbs
    rw [Steps_succ, Step_ants]
    exact ⟨c, hc, hcs, hcf.trans hbf, hcp.trans hbp⟩

/-- C4 as amended (Scenario A, position part).  For a single ant and zero food
sources, starting from any position inside the world, after every number `n`
of ticks and for every random source the ant's position satisfies
`-2 ≤ x < 802` and `-2 ≤ y < 602`: the wrap into the world happens before the
velocity, of magnitude at most 2, is added. -/
theorem scenarioA_position_bound (sq : K → K) (hsq : IsSqrt sq) (rand : ℕ → ℕ)
    (ant : Ant K) (g : Grid K) (seed : ℕ)
    (hx : 0 ≤ ant.position.x ∧ ant.position.x < 800)
    (hy : 0 ≤ ant.position.y ∧ ant.position.y < 600) (n : ℕ) :
    ∃ a, (Steps sq rand n ⟨[ant], ⟨[], g, seed⟩⟩).ants = [a] ∧
      (-2 ≤ a.position.x ∧ a.position.x < 802) ∧ (-2 ≤ a.position.y ∧ a.position.y < 602) := by
  have hlen := Steps_length sq rand n (⟨[ant], ⟨[], g, seed⟩⟩ : World K)
  obtain ⟨a, ha⟩ : ∃ a, (Steps sq rand n ⟨[ant], ⟨[], g, seed⟩⟩).ants = [a] := by
    match h : (Steps sq rand n ⟨[ant], ⟨[], g, seed⟩⟩).ants with
    | [] => rw [h] at hlen; simp at hlen
    | [a] => exact ⟨a, rfl⟩
    | _ :: _ :: _ => rw [h] at hlen; simp at hlen
  refine ⟨a, ha, ?_⟩
  cases n with
  | zero =>
    simp only [Steps, List.cons.injEq, and_true] at ha
    subst ha
    exact ⟨⟨by linarith [hx.1], by linarith [hx.2]⟩, ⟨by linarith [hy.1], by linarith [hy.2]⟩⟩
  | succ m =>
    rw [Steps_succ, Step_ants] at ha
    exact moveAntsLoop_position_bound hsq rand _ _ a (by rw [ha]; simp)

end ScenarioA

/-- Witness for `seeking_without_food`: one seeking ant on the empty rational
field, 1000 ticks. -/
theorem seeking_without_food_witness :
    ∃ a', (Steps sqrtQ (fun _ => 1) 1000
        ⟨[(⟨⟨10, 10⟩, ⟨1, 0⟩, 0, ⟨1, 0⟩, AntState.TO_FOOD, 100⟩ : Ant ℚ)],
         ⟨[], fun _ _ => ⟨0, 0⟩, 0⟩⟩).ants[0]? = some a' ∧
      a'.state = AntState.TO_FOOD ∧ a'.has_food = 0 ∧ a'.pheromoneStrength = 100 :=
  seeking_without_food sqrtQ (fun _ => 1)
    ⟨[(⟨⟨10, 10⟩, ⟨1, 0⟩, 0, ⟨1, 0⟩, AntState.TO_FOOD, 100⟩ : Ant ℚ)],
     ⟨[], fun _ _ => ⟨0, 0⟩, 0⟩⟩ rfl 0 _ rfl rfl 1000

/-- Witness for `scenarioA_position_bound`: an ant at `(10, 10)` on the empty
real field, 1000 ticks. -/
theorem scenarioA_position_bound_witness :
    ∃ a, (Steps Real.sqrt (fun _ => 1) 1000
        ⟨[(⟨⟨10, 10⟩, ⟨1, 0⟩, 0, ⟨1, 0⟩, AntState.TO_FOOD, 100⟩ : Ant ℝ)],
         ⟨[], fun _ _ => ⟨0, 0⟩, 0⟩⟩).ants = [a] ∧
      (-2 ≤ a.position.x ∧ a.position.x < 802) ∧ (-2 ≤ a.position.y ∧ a.position.y < 602) :=
  scenarioA_position_bound Real.sqrt isSqrt_real (fun _ => 1)
    (⟨⟨10, 10⟩, ⟨1, 0⟩, 0, ⟨1, 0⟩, AntState.TO_FOOD, 100⟩ : Ant ℝ) (fun _ _ => ⟨0, 0⟩) 0
    (by norm_num) (by norm_num) 1000

/-! ## Concrete runs -/

theorem toInt_two_mul_nat (k : ℕ) : toInt (2 * (k : ℚ)) = 2 * (k : ℤ) := by
  have h := toInt_intCast (K := ℚ) (2 * (k : ℤ))
  push_cast at h
  exact h

theorem runner_distance (k : ℕ) (hk : k ≤ 101) :
    distance sqrtQ (2 * (k : ℤ)) 300 400 300 = 400 - 2 * (k : ℚ) := by
  unfold distance
  have hk2 : (k : ℚ) ≤ 101 := by exact_mod_cast hk
  have h := sqrtQ_mul_self (400 - 2 * (k : ℚ)) (by linarith)
  rw [← h]
  congr 1
  push_cast
  ring

theorem runner_heading (k : ℕ) (hk : k ≤ 101) :
    normalize_vector_2d sqrtQ ⟨400 - 2 * (k : ℚ), 0⟩ = ⟨1, 0⟩ := by
  have hk2 : (k : ℚ) ≤ 101 := by exact_mod_cast hk
  have h := sqrtQ_mul_self (400 - 2 * (k : ℚ)) (by linarith)
  have hne : (400 - 2 * (k : ℚ)) ≠ 0 := by
    intro h0; linarith
  unfold normalize_vector_2d magnitude_2d
  simp only [mul_zero, add_zero, h, hne, if_false, zero_div]
  rw [div_self hne]

/-- One tick of the long walk: the ant advances two cells, its trail strength
drops by one, and the cell `(202, 300)` ahead of it stays empty. -/
theorem runner_step (k : ℕ) (hk : k ≤ 100) (g : Grid ℚ) (hg : (g 202 300).strength = 0) :
    ∃ g', Step sqrtQ (fun _ => 0) ⟨[runner k], ⟨[], g, 0⟩⟩ = ⟨[runner (k + 1)], ⟨[], g', 0⟩⟩ ∧
      (g' 202 300).strength = 0 := by
  have hk1 : k ≤ 101 := by omega
  have hd := runner_distance k hk1
  have hh := runner_heading k hk1
  have hk2 : (k : ℚ) ≤ 100 := by exact_mod_cast hk
  have hfar : ¬ (400 - 2 * (k : ℚ) < 2) := by
    intro h; linarith
  refine ⟨depositPheromones (updatePheromones g) (2 * (k : ℤ)) 300 1 (100 - (k : ℚ)), ?_, ?_⟩
  · have h300 : toInt (300 : ℚ) = 300 := by
      have h := toInt_intCast (K := ℚ) 300
      simpa using h
    simp [Step, moveAnts, moveAntsLoop, moveAnt, updateAntState, runner, toInt_two_mul_nat,
      h300, hd, hh, hfar, integrate, multiply_vector_2d, clamp_magnitude_vector_2d,
      divide_vector_2d, add_vector_2d, wrapCoord, magnitude_2d, sqrtQ_zero]
    have h22 : sqrtQ (2 * 2) = 2 := sqrtQ_mul_self 2 (by norm_num)
    have hk0 : ¬ (2 * (k : ℚ) < 0) := by
      have : (0 : ℚ) ≤ (k : ℚ) := Nat.cast_nonneg k
      intro h; linarith
    have hk8 : ¬ ((800 : ℚ) ≤ 2 * (k : ℚ)) := by
      intro h; linarith
    simp only [h22, hk0, hk8, if_false, lt_irrefl]
    norm_num
    constructor <;> ring
  · have hne : ¬ ((202 : ℤ) = 2 * (k : ℤ) ∧ (300 : ℤ) = 300) := by omega
    rw [depositPheromones_other _ _ _ _ _ _ _ hne,
      updatePheromones_strength _ _ _ (by rw [inGrid_iff]; norm_num), hg]
    norm_num

theorem runner_steps (k : ℕ) (hk : k ≤ 101) :
    ∃ g, Steps sqrtQ (fun _ => 0) k longWalk = ⟨[runner k], ⟨[], g, 0⟩⟩ ∧
      (g 202 300).strength = 0 := by
  induction k with
  | zero => exact ⟨zeroGrid, rfl, rfl⟩
  | succ n ih =>
    obtain ⟨g, hg1, hg2⟩ := ih (by omega)
    obtain ⟨g', h1, h2⟩ := runner_step n (by omega) g hg2
    exact ⟨g', by rw [Steps_succ, hg1, h1], h2⟩

/-- C3, counterexample.  From the empty field and one returning ant at
`(0, 300)` with `pheromoneStrength = 100`, the cell `(202, 300)` holds the
strength `-1` after 102 ticks: the 102nd deposit of the ant has amount `-1`. -/
theorem strength_negative_after_102_ticks :
    (∀ x y, 0 ≤ (longWalk.env.pheromones x y).strength) ∧
    (∀ a ∈ longWalk.ants, a.pheromoneStrength = 100 ∧
      0 ≤ a.position.x ∧ a.position.x < 800 ∧ 0 ≤ a.position.y ∧ a.position.y < 600) ∧
    ((Steps sqrtQ (fun _ => 0) 102 longWalk).env.pheromones 202 300).strength = -1 ∧
    ¬ (0 ≤ ((Steps sqrtQ (fun _ => 0) 102 longWalk).env.pheromones 202 300).strength) := by
  obtain ⟨g, hg1, hg2⟩ := runner_steps 101 le_rfl
  have hcell : ((Steps sqrtQ (fun _ => 0) 102 longWalk).env.pheromones 202 300).strength
      = -1 := by
    have e102 : Steps sqrtQ (fun _ => 0) 102 longWalk
        = Step sqrtQ (fun _ => 0) (Steps sqrtQ (fun _ => 0) 101 longWalk) :=
      Steps_succ sqrtQ (fun _ => 0) 101 longWalk
    rw [e102, hg1, Step_env]
    simp only [moveAntsLoop, moveAnt]
    rw [(updateAntState_TO_HOME sqrtQ (fun _ => 0) (runner 101) _ rfl).2.2.2.2.1]
    have hx : toInt (runner 101).position.x = 202 := by
      have h := toInt_intCast (K := ℚ) 202
      simp only [runner]
      norm_num at h ⊢
      exact h
    have hy : toInt (runner 101).position.y = 300 := by
      have h := toInt_intCast (K := ℚ) 300
      simp only [runner]
      norm_num at h ⊢
      exact h
    rw [hx, hy, depositPheromones_same _ _ _ _ _ (by rw [inGrid_iff]; norm_num)]
    simp only
    rw [updatePheromones_strength _ _ _ (by rw [inGrid_iff]; norm_num), hg2]
    simp only [runner]
    norm_num
  refine ⟨fun x y => le_refl _, ?_, hcell, ?_⟩
  · intro a ha
    simp only [longWalk, List.mem_singleton] at ha
    subst ha
    simp only [runner]
    norm_num
  · rw [hcell]; norm_num

/-- C4, counterexample.  A seeking ant at `(799, 0)`, inside the world, with
velocity `(2, 0)` of magnitude 2, no food, empty field: after one tick its
position is `x = 801`, which is not below the width 800. -/
theorem scenarioA_position_escapes :
    (0 ≤ edgeAnt.position.x ∧ edgeAnt.position.x < 800 ∧
      0 ≤ edgeAnt.position.y ∧ edgeAnt.position.y < 600) ∧
    magnitude_2d sqrtQ edgeAnt.velocity ≤ 2 ∧
    (Steps sqrtQ (fun _ => 1) 1 ⟨[edgeAnt], ⟨[], zeroGrid, 0⟩⟩).ants.map
      (fun a => a.position.x) = [801] ∧
    ¬ ((801 : ℚ) < 800) := by
  have hz : ∀ x y, ((updatePheromones zeroGrid) x y).strength ≤ 0 := by
    intro x y
    unfold updatePheromones zeroGrid
    by_cases h : inGrid x y <;> simp [h]
  refine ⟨by simp only [edgeAnt]; norm_num, ?_, ?_, by norm_num⟩
  · simp [magnitude_2d, edgeAnt, sqrtQ_mul_self]
  · simp [Steps, Step, moveAnts, moveAntsLoop, moveAnt, updateAntState, edgeAnt, followOrWander,
      strongestPheromone_of_nonpos _ hz, magnitude_2d, sqrtQ_zero, sqrtQ_one, sqrtQ_four,
      randStep, normalize_vector_2d, foodNearby, foodNearbyFrom, integrate, multiply_vector_2d,
      clamp_magnitude_vector_2d, divide_vector_2d, add_vector_2d, wrapCoord]
    norm_num [sqrtQ_four]

/-- C3 as amended.  From an initial state in which every cell strength is
`≥ 0` and every ant has `pheromoneStrength = 100` (ants in any state, anywhere),
after every number `n ≤ 101` of ticks every cell has strength `≥ 0` and every
ant has `pheromoneStrength ≥ 100 - n`; so each deposit of the first 101 ticks
has a non-negative amount. -/
theorem strength_nonneg_first_101_ticks {K : Type} [LinearOrderedField K] [FloorRing K]
    (sq : K → K) (rand : ℕ → ℕ) (w : World K)
    (hg : ∀ x y, 0 ≤ (w.env.pheromones x y).strength)
    (hps : ∀ a ∈ w.ants, a.pheromoneStrength = 100) (n : ℕ) (hn : n ≤ 101) :
    (∀ x y, 0 ≤ ((Steps sq rand n w).env.pheromones x y).strength) ∧
    (∀ a ∈ (Steps sq rand n w).ants, (100 : K) - n ≤ a.pheromoneStrength) := by
  have h := Steps_nonneg sq rand w hg (fun a ha => (hps a ha).ge) n hn
  exact ⟨h.2, h.1⟩

/-- Witness for `strength_nonneg_first_101_ticks`: the long walk, 101 ticks. -/
theorem strength_nonneg_first_101_ticks_witness :
    (∀ x y, 0 ≤ ((Steps sqrtQ (fun _ => 0) 101 longWalk).env.pheromones x y).strength) ∧
    (∀ a ∈ (Steps sqrtQ (fun _ => 0) 101 longWalk).ants,
      (100 : ℚ) - (101 : ℕ) ≤ a.pheromoneStrength) :=
  strength_nonneg_first_101_ticks sqrtQ (fun _ => 0) longWalk (fun _ _ => le_refl _)
    (by
      intro a ha
      simp only [longWalk, List.mem_singleton] at ha
      subst ha
      simp [runner])
    101 le_rfl

/-! ## Scenarios B and C -/

section Scenarios

variable {K : Type} [LinearOrderedField K] [FloorRing K]

/-- A coordinate within distance 1 of an integer truncates (downward) to that
integer or a neighbour. -/
theorem floor_sub_mul_self_le_one (p : K) (f : ℤ) (h : (p - f) ^ 2 ≤ 1) :
    (⌊p⌋ - f) * (⌊p⌋ - f) ≤ 1 := by
  have habs : |p - f| ≤ 1 := by
    have := abs_le_of_sq_le_sq' (a := p - f) (b := 1) (by simpa using h) (by norm_num)
    exact abs_le.mpr this
  obtain ⟨h1, h2⟩ := abs_le.mp habs
  have hlo : f - 1 ≤ ⌊p⌋ := by
    apply Int.le_floor.mpr
    push_cast
    linarith
  have hhi : ⌊p⌋ ≤ f + 1 := by
    have h3 : ((⌊p⌋ : ℤ) : K) ≤ ((f + 1 : ℤ) : K) := by
      push_cast
      linarith [Int.floor_le p]
    exact_mod_cast h3
  nlinarith

/-- C1 (Scenario B).  One ant and one food source that exists with amount 100:
for every `TO_FOOD` ant whose position lies inside the world at Euclidean
distance exactly 1 from the food, after one tick the ant has `has_food = 1` and
state `TO_HOME`, and the food has amount 99 and still exists. -/
theorem scenarioB_capture (sq : K → K) (hsq : IsSqrt sq) (rand : ℕ → ℕ) (ant : Ant K)
    (food : Food) (g : Grid K) (seed : ℕ) (hs : ant.state = AntState.TO_FOOD)
    (hx : 0 ≤ ant.position.x ∧ ant.position.x < 800)
    (hy : 0 ≤ ant.position.y ∧ ant.position.y < 600)
    (hamount : food.amount = 100) (hex : food.exists_ ≠ 0)
    (hdist : (ant.position.x - food.x) ^ 2 + (ant.position.y - food.y) ^ 2 = 1) :
    ∃ a, (Step sq rand ⟨[ant], ⟨[food], g, seed⟩⟩).ants = [a] ∧ a.has_food = 1 ∧
      a.state = AntState.TO_HOME ∧
      (Step sq rand ⟨[ant], ⟨[food], g, seed⟩⟩).env.foods = [{ food with amount := 99 }] := by
  have hdx : (ant.position.x - food.x) ^ 2 ≤ 1 := by
    nlinarith [sq_nonneg (ant.position.y - food.y)]
  have hdy : (ant.position.y - food.y) ^ 2 ≤ 1 := by
    nlinarith [sq_nonneg (ant.position.x - food.x)]
  have h1 := floor_sub_mul_self_le_one _ _ hdx
  have h2 := floor_sub_mul_self_le_one _ _ hdy
  rw [← toInt_of_nonneg _ hx.1] at h1
  rw [← toInt_of_nonneg _ hy.1] at h2
  have hsum : ((toInt ant.position.x - food.x) * (toInt ant.position.x - food.x)
      + (toInt ant.position.y - food.y) * (toInt ant.position.y - food.y) : ℤ) ≤ 2 := by
    linarith
  have hsumK : (((toInt ant.position.x - food.x) * (toInt ant.position.x - food.x)
      + (toInt ant.position.y - food.y) * (toInt ant.position.y - food.y) : ℤ) : K) ≤ 2 := by
    exact_mod_cast hsum
  have hcap : distance sq (toInt ant.position.x) (toInt ant.position.y) food.x food.y
      < ((FOOD_CAPTURE_RADIUS : ℤ) : K) := by
    rw [distance_lt_iff hsq _ _ _ _ _ (by norm_num)]
    refine lt_of_le_of_lt hsumK ?_
    norm_num
  have hdet : distance sq (toInt ant.position.x) (toInt ant.position.y) food.x food.y
      < ((FOOD_DETECTION_RADIUS : ℤ) : K) := by
    rw [distance_lt_iff hsq _ _ _ _ _ (by norm_num)]
    refine lt_of_le_of_lt hsumK ?_
    norm_num
  have hidx : foodNearby sq ant [food] = 0 := by
    unfold foodNearby foodNearbyFrom
    rw [if_pos ⟨hex, hdet⟩]
  have hupd := updateAntState_TO_FOOD sq rand ant ⟨[food], updatePheromones g, seed⟩ hs
  rw [Step_ants, Step_env]
  simp only [moveAntsLoop, moveAnt]
  refine ⟨_, rfl, ?_⟩
  rw [integrate_has_food, integrate_state]
  obtain ⟨-, -, -, hno | ⟨f, -, hf, -, -, hst, hhf, hfoods⟩⟩ := hupd
  · exfalso
    obtain ⟨-, -, -, hneg | ⟨f, hf, hfar⟩⟩ := hno
    · rw [hidx] at hneg; norm_num at hneg
    · rw [hidx] at hf
      simp only [Int.toNat_zero, List.getElem?_cons_zero, Option.some.injEq] at hf
      subst hf
      exact hfar hcap
  · rw [hidx] at hf hfoods
    simp only [Int.toNat_zero, List.getElem?_cons_zero, Option.some.injEq] at hf
    subst hf
    refine ⟨hhf, hst, ?_⟩
    rw [hfoods]
    simp [takeOne, hamount]

end Scenarios

/-- Witness for `scenarioB_capture`: ant at `(10, 10)`, food at `(11, 10)`, on
the empty real field. -/
theorem scenarioB_capture_witness :
    ∃ a, (Step Real.sqrt (fun _ => 1)
        ⟨[(⟨⟨10, 10⟩, ⟨0, 0⟩, 0, ⟨1, 0⟩, AntState.TO_FOOD, 100⟩ : Ant ℝ)],
         ⟨[⟨11, 10, 100, 1⟩], fun _ _ => ⟨0, 0⟩, 0⟩⟩).ants = [a] ∧ a.has_food = 1 ∧
      a.state = AntState.TO_HOME ∧
      (Step Real.sqrt (fun _ => 1)
        ⟨[(⟨⟨10, 10⟩, ⟨0, 0⟩, 0, ⟨1, 0⟩, AntState.TO_FOOD, 100⟩ : Ant ℝ)],
         ⟨[⟨11, 10, 100, 1⟩], fun _ _ => ⟨0, 0⟩, 0⟩⟩).env.foods
        = [{ (⟨11, 10, 100, 1⟩ : Food) with amount := 99 }] :=
  scenarioB_capture Real.sqrt isSqrt_real (fun _ => 1)
    (⟨⟨10, 10⟩, ⟨0, 0⟩, 0, ⟨1, 0⟩, AntState.TO_FOOD, 100⟩ : Ant ℝ) ⟨11, 10, 100, 1⟩
    (fun _ _ => ⟨0, 0⟩) 0 rfl (by norm_num) (by norm_num) rfl (by norm_num) (by norm_num)

section Capture

variable {K : Type} [LinearOrderedField K] [FloorRing K]

/-- C7 as amended (capture rule).  For every `TO_FOOD` ant and the food `f` at
the index `i` that `foodNearby` returns in that tick: if the Euclidean distance
between the ant's position truncated to integer coordinates and the food is
less than 2, the update sets `has_food = 1`, replaces `f` by `f` with its amount
lowered by exactly 1 (and `exists = 0` when that amount is `≤ 0`), leaves the
other foods alone, and sets the state to `TO_HOME`. -/
theorem capture_rule (sq : K → K) (hsq : IsSqrt sq) (rand : ℕ → ℕ) (ant : Ant K) (e : Env K)
    (hs : ant.state = AntState.TO_FOOD) (i : ℕ) (f : Food)
    (hi : foodNearby sq ant e.foods = (i : ℤ)) (hf : e.foods[i]? = some f)
    (hnear : (toInt ant.position.x - f.x) ^ 2 + (toInt ant.position.y - f.y) ^ 2 < 4) :
    (updateAntState sq rand ant e).1.has_food = 1 ∧
    (updateAntState sq rand ant e).1.state = AntState.TO_HOME ∧
    (updateAntState sq rand ant e).2.foods = e.foods.set i (takeOne f) ∧
    (takeOne f).amount = f.amount - 1 ∧
    (takeOne f).exists_ = (if f.amount - 1 ≤ 0 then 0 else f.exists_) ∧
    (takeOne f).x = f.x ∧ (takeOne f).y = f.y := by
  have hcap : distance sq (toInt ant.position.x) (toInt ant.position.y) f.x f.y
      < ((FOOD_CAPTURE_RADIUS : ℤ) : K) := by
    rw [distance_lt_iff hsq _ _ _ _ _ (by norm_num)]
    have h4 : (((toInt ant.position.x - f.x) * (toInt ant.position.x - f.x)
        + (toInt ant.position.y - f.y) * (toInt ant.position.y - f.y) : ℤ) : K)
        < ((4 : ℤ) : K) := by
      apply Int.cast_lt.mpr
      nlinarith
    refine lt_of_lt_of_le h4 ?_
    norm_num
  have htake : (takeOne f).amount = f.amount - 1 ∧
      (takeOne f).exists_ = (if f.amount - 1 ≤ 0 then 0 else f.exists_) ∧
      (takeOne f).x = f.x ∧ (takeOne f).y = f.y := by
    unfold takeOne
    by_cases h : f.amount - 1 ≤ 0 <;> simp [h]
  obtain ⟨-, -, -, hno | ⟨f2, -, hf2, -, -, hst, hhf, hfoods⟩⟩ :=
    updateAntState_TO_FOOD sq rand ant e hs
  · exfalso
    obtain ⟨-, -, -, hneg | ⟨f2, hf2, hfar⟩⟩ := hno
    · rw [hi] at hneg; omega
    · rw [hi, Int.toNat_ofNat, hf] at hf2
      cases hf2
      exact hfar hcap
  · rw [hi, Int.toNat_ofNat] at hf2 hfoods
    rw [hf] at hf2
    cases hf2
    exact ⟨hhf, hst, hfoods, htake⟩

/-- C8 (food exhaustion).  When a `TO_FOOD` ant captures the food `f` at index
`i` (the index `foodNearby` returned, at capture distance) and `f.amount = 1`,
the update leaves that food with amount 0 and `exists = 0`; and from then on,
whatever the ants, the field and the random stream, after any number `n` of
further ticks and for every ant, `foodNearby` on the food array never returns
`i`. -/
theorem food_exhaustion (sq : K → K) (rand : ℕ → ℕ) (ant : Ant K) (e : Env K)
    (hs : ant.state = AntState.TO_FOOD) (i : ℕ) (f : Food)
    (hi : foodNearby sq ant e.foods = (i : ℤ)) (hf : e.foods[i]? = some f)
    (hamount : f.amount = 1)
    (hcap : distance sq (toInt ant.position.x) (toInt ant.position.y) f.x f.y
      < ((FOOD_CAPTURE_RADIUS : ℤ) : K)) :
    (updateAntState sq rand ant e).2.foods[i]? = some { f with amount := 0, exists_ := 0 } ∧
    ∀ (rand2 : ℕ → ℕ) (ants : List (Ant K)) (g : Grid K) (seed n : ℕ) (b : Ant K),
      foodNearby sq b
        (Steps sq rand2 n ⟨ants, ⟨(updateAntState sq rand ant e).2.foods, g, seed⟩⟩).env.foods
        ≠ (i : ℤ) := by
  have hlt : i < e.foods.length := by
    rcases Nat.lt_or_ge i e.foods.length with h | h
    · exact h
    · rw [List.getElem?_eq_none h] at hf; cases hf
  have hfoods : (updateAntState sq rand ant e).2.foods[i]?
      = some { f with amount := 0, exists_ := 0 } := by
    obtain ⟨-, -, -, hno | ⟨f2, -, hf2, -, -, -, -, hfoods⟩⟩ :=
      updateAntState_TO_FOOD sq rand ant e hs
    · exfalso
      obtain ⟨-, -, -, hneg | ⟨f2, hf2, hfar⟩⟩ := hno
      · rw [hi] at hneg; omega
      · rw [hi, Int.toNat_ofNat, hf] at hf2
        cases hf2
        exact hfar hcap
    · rw [hi, Int.toNat_ofNat] at hf2 hfoods
      rw [hf] at hf2
      cases hf2
      rw [hfoods, List.getElem?_set_self hlt]
      simp [takeOne, hamount]
  refine ⟨hfoods, ?_⟩
  intro rand2 ants g seed n b hcon
  have hkeep := Steps_exhausted sq rand2 n
    (⟨ants, ⟨(updateAntState sq rand ant e).2.foods, g, seed⟩⟩ : World K) i _ hfoods rfl
  obtain ⟨-, f3, hf3, hex3, -⟩ := foodNearby_found sq b _ _ hcon (by omega)
  rw [Int.toNat_ofNat, hkeep] at hf3
  cases hf3
  exact hex3 rfl

end Capture

/-! ## The window query and the trail type -/

section Query

variable {K : Type} [LinearOrderedField K] [FloorRing K]

omit [FloorRing K] in
theorem scanCell_skip (g : Grid K) (cx cy : ℤ) (acc : Vector2D K × K) (dx dy : ℤ)
    (h : (g (cx + dx) (cy + dy)).strength ≤ acc.2) : scanCell g cx cy acc dx dy = acc := by
  unfold scanCell
  have h2 : ¬ (g (cx + dx) (cy + dy)).strength > acc.2 := not_lt.mpr h
  by_cases hin : inGrid (cx + dx) (cy + dy) <;> simp [hin, h2]

omit [FloorRing K] in
theorem scanCell_take (g : Grid K) (cx cy : ℤ) (acc : Vector2D K × K) (dx dy : ℤ)
    (hin : inGrid (cx + dx) (cy + dy)) (h : acc.2 < (g (cx + dx) (cy + dy)).strength) :
    scanCell g cx cy acc dx dy = (⟨(dx : K), (dy : K)⟩, (g (cx + dx) (cy + dy)).strength) := by
  unfold scanCell
  simp [hin, h]

omit [FloorRing K] in
/-- The scan reads only the strengths of the window cells. -/
theorem scanWindow_congr (g1 g2 : Grid K) (cx cy : ℤ)
    (h : ∀ dx ∈ windowOffsets, ∀ dy ∈ windowOffsets,
      (g1 (cx + dx) (cy + dy)).strength = (g2 (cx + dx) (cy + dy)).strength) :
    scanWindow g1 cx cy = scanWindow g2 cx cy := by
  unfold scanWindow
  apply List.foldl_ext
  intro acc dx hdx
  apply List.foldl_ext
  intro acc2 dy hdy
  simp only [scanCell, h dx hdx dy hdy]

/-- The ant that an update returns depends on the field only through the
window query. -/
theorem updateAntState_fst_congr (sq : K → K) (rand : ℕ → ℕ) (ant : Ant K) (e1 e2 : Env K)
    (hfoods : e1.foods = e2.foods) (hseed : e1.seed = e2.seed)
    (hq : ant.state = AntState.TO_FOOD →
      strongestPheromone e1.pheromones ant = strongestPheromone e2.pheromones ant) :
    (updateAntState sq rand ant e1).1 = (updateAntState sq rand ant e2).1 := by
  by_cases h1 : ant.state = AntState.TO_FOOD
  · have hfw : followOrWander sq rand ant e1 = followOrWander sq rand ant e2 := by
      unfold followOrWander
      rw [hq h1, hseed]
    unfold updateAntState
    simp only [h1, hfw, hfoods]
    by_cases hidx : foodNearby sq (followOrWander sq rand ant e2).1 e2.foods = -1
    · simp [hidx]
    · simp only [ne_eq, hidx, not_false_eq_true, if_true]
      cases hf : e2.foods[(foodNearby sq (followOrWander sq rand ant e2).1 e2.foods).toNat]? with
      | none => rfl
      | some f =>
        simp only [towardFood]
        split <;> rfl
  · by_cases h2 : ant.state = AntState.TO_HOME
    · unfold updateAntState
      simp only [h2]
    · rw [updateAntState_other sq rand ant e1 h1 h2, updateAntState_other sq rand ant e2 h1 h2]

/-- C6 as amended.  The pheromone query that a `TO_FOOD` ant makes is untyped:
it reads only the strengths of the cells of the 11 x 11 window, never their
trail type.  For every ant, two fields that agree on the strengths of the
window cells give the same query result and (with the same food array and
random stream) the same `desiredDirection` after the update, whatever the trail
types of their cells. -/
theorem query_untyped (sq : K → K) (rand : ℕ → ℕ) (ant : Ant K) (e1 e2 : Env K)
    (hfoods : e1.foods = e2.foods) (hseed : e1.seed = e2.seed)
    (hstr : ∀ dx ∈ windowOffsets, ∀ dy ∈ windowOffsets,
      (e1.pheromones (toInt ant.position.x + dx) (toInt ant.position.y + dy)).strength
        = (e2.pheromones (toInt ant.position.x + dx) (toInt ant.position.y + dy)).strength) :
    strongestPheromone e1.pheromones ant = strongestPheromone e2.pheromones ant ∧
    (updateAntState sq rand ant e1).1.desiredDirection
      = (updateAntState sq rand ant e2).1.desiredDirection := by
  have hq : strongestPheromone e1.pheromones ant = strongestPheromone e2.pheromones ant := by
    unfold strongestPheromone
    rw [scanWindow_congr _ _ _ _ hstr]
  exact ⟨hq, by rw [updateAntState_fst_congr sq rand ant e1 e2 hfoods hseed (fun _ => hq)]⟩

end Query

theorem toInt_ten {K : Type} [LinearOrderedField K] [FloorRing K] : toInt (10 : K) = 10 := by
  have h := toInt_intCast (K := K) 10
  simpa using h

/-- The scan returns index 0 when the first food exists and is within the
detection radius of the truncated position. -/
theorem foodNearby_head {K : Type} [LinearOrderedField K] [FloorRing K] {sq : K → K}
    (hsq : IsSqrt sq) (ant : Ant K) (f : Food) (fs : List Food) (hex : f.exists_ ≠ 0)
    (hd : (toInt ant.position.x - f.x) * (toInt ant.position.x - f.x)
      + (toInt ant.position.y - f.y) * (toInt ant.position.y - f.y) < 2500) :
    foodNearby sq ant (f :: fs) = 0 := by
  have hdet : distance sq (toInt ant.position.x) (toInt ant.position.y) f.x f.y
      < ((FOOD_DETECTION_RADIUS : ℤ) : K) := by
    rw [distance_lt_iff hsq _ _ _ _ _ (by norm_num)]
    have h1 : (((toInt ant.position.x - f.x) * (toInt ant.position.x - f.x)
        + (toInt ant.position.y - f.y) * (toInt ant.position.y - f.y) : ℤ) : K)
        < ((2500 : ℤ) : K) := Int.cast_lt.mpr hd
    refine lt_of_lt_of_le h1 ?_
    norm_num
  unfold foodNearby foodNearbyFrom
  rw [if_pos ⟨hex, hdet⟩]

theorem scanWindow_baitGrid : scanWindow baitGrid 10 10 = (⟨1, 0⟩, 5) := by
  simp [scanWindow, windowOffsets, scanCell_skip, scanCell_take, baitGrid, inGrid_iff]

theorem scanWindow_homeGrid : scanWindow homeGrid 10 10 = (⟨-1, 0⟩, 1) := by
  simp [scanWindow, windowOffsets, scanCell_skip, scanCell_take, homeGrid, inGrid_iff]

/-- C6, counterexample.  The fields `homeGrid` and `baitGrid` agree on their
home-mark cells (the cell `(9, 10)`), and `baitGrid` has a food mark (type 0) of
strength 5 at `(11, 10)`.  For the ant at `(10, 10)` the query on `baitGrid`
selects that food-mark cell, offset `(1, 0)`, and the ant heads `(1, 0)`; on
`homeGrid` the query gives `(-1, 0)` and the ant heads `(-1, 0)`. -/
theorem query_selects_food_mark :
    (∀ x y, (homeGrid x y).type = 1 ∨ (baitGrid x y).type = 1 →
      (homeGrid x y).type = (baitGrid x y).type ∧
      (homeGrid x y).strength = (baitGrid x y).strength) ∧
    (baitGrid 11 10).type = 0 ∧
    strongestPheromone baitGrid scout = ⟨1, 0⟩ ∧
    strongestPheromone homeGrid scout = ⟨-1, 0⟩ ∧
    (updateAntState sqrtQ (fun _ => 1) scout ⟨[], baitGrid, 0⟩).1.desiredDirection = ⟨1, 0⟩ ∧
    (updateAntState sqrtQ (fun _ => 1) scout ⟨[], homeGrid, 0⟩).1.desiredDirection
      = ⟨-1, 0⟩ := by
  have hb : strongestPheromone baitGrid scout = ⟨1, 0⟩ := by
    simp only [strongestPheromone, scout, toInt_ten, scanWindow_baitGrid]
  have hh : strongestPheromone homeGrid scout = ⟨-1, 0⟩ := by
    simp only [strongestPheromone, scout, toInt_ten, scanWindow_homeGrid]
  refine ⟨?_, by simp [baitGrid], hb, hh, ?_, ?_⟩
  · intro x y h
    unfold homeGrid baitGrid at *
    by_cases h9 : x = 9 ∧ y = 10
    · simp [h9]
    · by_cases h11 : x = 11 ∧ y = 10 <;> simp [h9, h11] at h
  · simp [updateAntState, followOrWander, hb, magnitude_2d, normalize_vector_2d, sqrtQ_one,
      foodNearby, foodNearbyFrom, show scout.state = AntState.TO_FOOD from rfl]
  · simp [updateAntState, followOrWander, hh, magnitude_2d, normalize_vector_2d, sqrtQ_one,
      foodNearby, foodNearbyFrom, show scout.state = AntState.TO_FOOD from rfl]

/-- Witness for `query_untyped`: the ant at `(10, 10)` on `homeGrid` and on the
same strengths with every trail type flipped. -/
theorem query_untyped_witness :
    strongestPheromone homeGrid scout = strongestPheromone flippedGrid scout ∧
    (updateAntState sqrtQ (fun _ => 1) scout ⟨[], homeGrid, 0⟩).1.desiredDirection
      = (updateAntState sqrtQ (fun _ => 1) scout ⟨[], flippedGrid, 0⟩).1.desiredDirection :=
  query_untyped sqrtQ (fun _ => 1) scout ⟨[], homeGrid, 0⟩ ⟨[], flippedGrid, 0⟩ rfl rfl
    (by
      intro dx _ dy _
      simp only [homeGrid, flippedGrid]
      split <;> rfl)

/-! ## Concrete captures -/

theorem toInt_shyAnt : toInt shyAnt.position.x = 8 ∧ toInt shyAnt.position.y = 10 := by
  constructor
  · have h : ⌊(17 / 2 : ℚ)⌋ = 8 := Int.floor_eq_iff.mpr ⟨by norm_num, by norm_num⟩
    rw [toInt_of_nonneg _ (by simp only [shyAnt]; norm_num)]
    exact h
  · exact toInt_ten

theorem distance_shyAnt :
    distance sqrtQ (toInt shyAnt.position.x) (toInt shyAnt.position.y) snack.x snack.y = 2 := by
  rw [toInt_shyAnt.1, toInt_shyAnt.2]
  unfold distance
  simp only [snack]
  norm_num
  exact sqrtQ_four

/-- C7, counterexample.  The ant at `(8.5, 10)` is at Euclidean distance 1.5,
less than the capture radius 2, from the food at `(10, 10)`, which is the food
that `foodNearby` returns (index 0); yet the update captures nothing: the ant
stays in `TO_FOOD` with `has_food = 0` and the food keeps its amount.  The code
measures the distance from the truncated position `(8, 10)`, which is 2. -/
theorem capture_misses_within_radius :
    shyAnt.state = AntState.TO_FOOD ∧
    foodNearby sqrtQ shyAnt [snack] = 0 ∧
    magnitude_2d sqrtQ
      ⟨(snack.x : ℚ) - shyAnt.position.x, (snack.y : ℚ) - shyAnt.position.y⟩ = 3 / 2 ∧
    (3 / 2 : ℚ) < ((FOOD_CAPTURE_RADIUS : ℤ) : ℚ) ∧
    (updateAntState sqrtQ (fun _ => 1) shyAnt ⟨[snack], zeroGrid, 0⟩).1.state
      = AntState.TO_FOOD ∧
    (updateAntState sqrtQ (fun _ => 1) shyAnt ⟨[snack], zeroGrid, 0⟩).1.has_food = 0 ∧
    (updateAntState sqrtQ (fun _ => 1) shyAnt ⟨[snack], zeroGrid, 0⟩).2.foods = [snack] := by
  have hidx : foodNearby sqrtQ shyAnt [snack] = 0 := by
    unfold foodNearby foodNearbyFrom
    rw [if_pos ⟨by simp [snack], by rw [distance_shyAnt]; norm_num⟩]
  have hmag : magnitude_2d sqrtQ
      ⟨(snack.x : ℚ) - shyAnt.position.x, (snack.y : ℚ) - shyAnt.position.y⟩ = 3 / 2 := by
    have h := sqrtQ_mul_self (3 / 2) (by norm_num)
    rw [← h]
    unfold magnitude_2d
    simp only [snack, shyAnt]
    norm_num
  refine ⟨rfl, hidx, hmag, by norm_num, ?_⟩
  obtain ⟨-, -, -, hno | ⟨f, -, hf, -, hcap, -⟩⟩ :=
    updateAntState_TO_FOOD sqrtQ (fun _ => 1) shyAnt ⟨[snack], zeroGrid, 0⟩ rfl
  · exact ⟨hno.1, hno.2.1, hno.2.2.1⟩
  · exfalso
    rw [hidx] at hf
    simp only [Int.toNat_zero, List.getElem?_cons_zero, Option.some.injEq] at hf
    subst hf
    rw [distance_shyAnt] at hcap
    norm_num at hcap

/-- Witness for `capture_rule`: the real ant at `(10, 10)` and the food at
`(11, 10)`. -/
theorem capture_rule_witness :
    (updateAntState Real.sqrt (fun _ => 1)
      (⟨⟨10, 10⟩, ⟨0, 0⟩, 0, ⟨1, 0⟩, AntState.TO_FOOD, 100⟩ : Ant ℝ)
      ⟨[⟨11, 10, 100, 1⟩], fun _ _ => ⟨0, 0⟩, 0⟩).1.has_food = 1 ∧
    (updateAntState Real.sqrt (fun _ => 1)
      (⟨⟨10, 10⟩, ⟨0, 0⟩, 0, ⟨1, 0⟩, AntState.TO_FOOD, 100⟩ : Ant ℝ)
      ⟨[⟨11, 10, 100, 1⟩], fun _ _ => ⟨0, 0⟩, 0⟩).1.state = AntState.TO_HOME ∧
    (updateAntState Real.sqrt (fun _ => 1)
      (⟨⟨10, 10⟩, ⟨0, 0⟩, 0, ⟨1, 0⟩, AntState.TO_FOOD, 100⟩ : Ant ℝ)
      ⟨[⟨11, 10, 100, 1⟩], fun _ _ => ⟨0, 0⟩, 0⟩).2.foods
        = [takeOne ⟨11, 10, 100, 1⟩] ∧
    (takeOne ⟨11, 10, 100, 1⟩).amount = 100 - 1 := by
  have h := capture_rule Real.sqrt isSqrt_real (fun _ => 1)
    (⟨⟨10, 10⟩, ⟨0, 0⟩, 0, ⟨1, 0⟩, AntState.TO_FOOD, 100⟩ : Ant ℝ)
    ⟨[⟨11, 10, 100, 1⟩], fun _ _ => ⟨0, 0⟩, 0⟩ rfl 0 ⟨11, 10, 100, 1⟩
    (foodNearby_head isSqrt_real _ _ _ (by norm_num)
      (by simp only [toInt_ten]; norm_num))
    rfl (by simp only [toInt_ten]; norm_num)
  exact ⟨h.1, h.2.1, h.2.2.1, h.2.2.2.1⟩

/-- Witness for `food_exhaustion`: the real ant at `(10, 10)` takes the last
unit of the food at `(10, 10)`. -/
theorem food_exhaustion_witness :
    (updateAntState Real.sqrt (fun _ => 1)
      (⟨⟨10, 10⟩, ⟨0, 0⟩, 0, ⟨1, 0⟩, AntState.TO_FOOD, 100⟩ : Ant ℝ)
      ⟨[⟨10, 10, 1, 1⟩], fun _ _ => ⟨0, 0⟩, 0⟩).2.foods[0]?
        = some { (⟨10, 10, 1, 1⟩ : Food) with amount := 0, exists_ := 0 } ∧
    ∀ (rand2 : ℕ → ℕ) (ants : List (Ant ℝ)) (g : Grid ℝ) (seed n : ℕ) (b : Ant ℝ),
      foodNearby Real.sqrt b
        (Steps Real.sqrt rand2 n ⟨ants, ⟨(updateAntState Real.sqrt (fun _ => 1)
          (⟨⟨10, 10⟩, ⟨0, 0⟩, 0, ⟨1, 0⟩, AntState.TO_FOOD, 100⟩ : Ant ℝ)
          ⟨[⟨10, 10, 1, 1⟩], fun _ _ => ⟨0, 0⟩, 0⟩).2.foods, g, seed⟩⟩).env.foods
        ≠ ((0 : ℕ) : ℤ) :=
  food_exhaustion Real.sqrt (fun _ => 1)
    (⟨⟨10, 10⟩, ⟨0, 0⟩, 0, ⟨1, 0⟩, AntState.TO_FOOD, 100⟩ : Ant ℝ)
    ⟨[⟨10, 10, 1, 1⟩], fun _ _ => ⟨0, 0⟩, 0⟩ rfl 0 ⟨10, 10, 1, 1⟩
    (foodNearby_head isSqrt_real _ _ _ (by norm_num)
      (by simp only [toInt_ten]; norm_num))
    rfl rfl
    (by
      simp only [toInt_ten]
      rw [distance_lt_iff isSqrt_real _ _ _ _ _ (by norm_num)]
      norm_num)

/-! ## The window scan in scan order -/

section Scan

variable {K : Type} [LinearOrderedField K]

theorem foldl_nested_eq {α : Type} (f : α → ℤ → ℤ → α) (l1 l2 : List ℤ) (init : α) :
    l1.foldl (fun acc dx => l2.foldl (fun acc2 dy => f acc2 dx dy) acc) init
      = (l1.flatMap (fun dx => l2.map (fun dy => (dx, dy)))).foldl
          (fun acc p => f acc p.1 p.2) init := by
  induction l1 generalizing init with
  | nil => rfl
  | cons d ds ih =>
    rw [List.foldl_cons, List.flatMap_cons, List.foldl_append, List.foldl_map, ih]

/-- The two nested loops are one pass over `windowCells`. -/
theorem scanWindow_eq_foldl (g : Grid K) (cx cy : ℤ) :
    scanWindow g cx cy
      = windowCells.foldl (fun acc p => scanCell g cx cy acc p.1 p.2) (⟨0, 0⟩, 0) :=
  foldl_nested_eq (fun acc dx dy => scanCell g cx cy acc dx dy) windowOffsets windowOffsets _

/-- What a pass of `scanCell` over a list of offsets returns: either nothing
beats the running maximum, or the result is the first offset of the list whose
in-grid cell has the greatest strength. -/
theorem scan_foldl_spec (g : Grid K) (cx cy : ℤ) (l : List (ℤ × ℤ)) (acc : Vector2D K × K) :
    (l.foldl (fun a p => scanCell g cx cy a p.1 p.2) acc = acc ∧
      ∀ q ∈ l, inGrid (cx + q.1) (cy + q.2) → (g (cx + q.1) (cy + q.2)).strength ≤ acc.2) ∨
    (∃ pre p post, l = pre ++ p :: post ∧
      l.foldl (fun a p => scanCell g cx cy a p.1 p.2) acc
        = (⟨(p.1 : K), (p.2 : K)⟩, (g (cx + p.1) (cy + p.2)).strength) ∧
      inGrid (cx + p.1) (cy + p.2) ∧ acc.2 < (g (cx + p.1) (cy + p.2)).strength ∧
      (∀ q ∈ pre, inGrid (cx + q.1) (cy + q.2) →
        (g (cx + q.1) (cy + q.2)).strength < (g (cx + p.1) (cy + p.2)).strength) ∧
      (∀ q ∈ post, inGrid (cx + q.1) (cy + q.2) →
        (g (cx + q.1) (cy + q.2)).strength ≤ (g (cx + p.1) (cy + p.2)).strength)) := by
  induction l generalizing acc with
  | nil => exact Or.inl ⟨rfl, fun q hq => by simp at hq⟩
  | cons a t ih =>
    rw [List.foldl_cons]
    by_cases htake : inGrid (cx + a.1) (cy + a.2) ∧ acc.2 < (g (cx + a.1) (cy + a.2)).strength
    · rw [scanCell_take g cx cy acc a.1 a.2 htake.1 htake.2]
      rcases ih (⟨(a.1 : K), (a.2 : K)⟩, (g (cx + a.1) (cy + a.2)).strength) with
        ⟨h1, h2⟩ | ⟨pre, p, post, hl, hr, hin, hlt, hpre, hpost⟩
      · exact Or.inr ⟨[], a, t, rfl, h1, htake.1, htake.2, fun q hq => by simp at hq, h2⟩
      · refine Or.inr ⟨a :: pre, p, post, by rw [hl]; rfl, hr, hin, lt_trans htake.2 hlt, ?_, hpost⟩
        intro q hq hqin
        rcases List.mem_cons.mp hq with h | h
        · rw [h]; exact hlt
        · exact hpre q h hqin
    · have hskip : scanCell g cx cy acc a.1 a.2 = acc := by
        unfold scanCell
        by_cases hin : inGrid (cx + a.1) (cy + a.2)
        · have h2 : ¬ (g (cx + a.1) (cy + a.2)).strength > acc.2 := fun h => htake ⟨hin, h⟩
          simp [hin, h2]
        · simp [hin]
      have ha : inGrid (cx + a.1) (cy + a.2) → (g (cx + a.1) (cy + a.2)).strength ≤ acc.2 :=
        fun hin => not_lt.mp (fun h => htake ⟨hin, h⟩)
      rw [hskip]
      rcases ih acc with ⟨h1, h2⟩ | ⟨pre, p, post, hl, hr, hin, hlt, hpre, hpost⟩
      · refine Or.inl ⟨h1, ?_⟩
        intro q hq hqin
        rcases List.mem_cons.mp hq with h | h
        · rw [h] at hqin ⊢; exact ha hqin
        · exact h2 q h hqin
      · refine Or.inr ⟨a :: pre, p, post, by rw [hl]; rfl, hr, hin, hlt, ?_, hpost⟩
        intro q hq hqin
        rcases List.mem_cons.mp hq with h | h
        · rw [h] at hqin ⊢; exact lt_of_le_of_lt (ha hqin) hlt
        · exact hpre q h hqin

theorem mem_windowCells (p : ℤ × ℤ) :
    p ∈ windowCells ↔ (-5 ≤ p.1 ∧ p.1 ≤ 5) ∧ (-5 ≤ p.2 ∧ p.2 ≤ 5) := by
  have hoff : ∀ d : ℤ, d ∈ windowOffsets ↔ -5 ≤ d ∧ d ≤ 5 := by
    intro d
    simp only [windowOffsets, List.mem_cons, List.mem_singleton, List.not_mem_nil, or_false]
    omega
  obtain ⟨a, b⟩ := p
  simp only [windowCells, List.mem_flatMap, List.mem_map, Prod.mk.injEq]
  constructor
  · rintro ⟨dx, hdx, dy, hdy, h1, h2⟩
    subst h1; subst h2
    exact ⟨(hoff _).mp hdx, (hoff _).mp hdy⟩
  · rintro ⟨h1, h2⟩
    exact ⟨a, (hoff a).mpr h1, b, (hoff b).mpr h2, rfl, rfl⟩

/-- The order of `windowCells` is the lexicographic order of `(dx, dy)`. -/
theorem windowCells_sorted :
    windowCells.Pairwise (fun p q => p.1 < q.1 ∨ (p.1 = q.1 ∧ p.2 < q.2)) := by
  unfold windowCells
  rw [List.pairwise_flatMap]
  constructor
  · intro dx _
    rw [List.pairwise_map]
    have h : windowOffsets.Pairwise (fun a b : ℤ => a < b) := by
      unfold windowOffsets; decide
    exact h.imp (fun hab => Or.inr ⟨rfl, hab⟩)
  · have h : windowOffsets.Pairwise (fun a b : ℤ => a < b) := by
      unfold windowOffsets; decide
    refine h.imp ?_
    intro a b hab p hp q hq
    simp only [List.mem_map] at hp hq
    obtain ⟨_, _, rfl⟩ := hp
    obtain ⟨_, _, rfl⟩ := hq
    exact Or.inl hab

/-- The result of the window scan around `(cx, cy)`: either no in-grid window
cell has positive strength and the result is `((0, 0), 0)`, or the result is the
offset and strength of an in-grid window cell of positive strength that is
greatest over the in-grid window cells and first, in scan order, among those of
greatest strength. -/
theorem scanWindow_first_max (g : Grid K) (cx cy : ℤ) :
    (scanWindow g cx cy = (⟨0, 0⟩, 0) ∧
      ∀ dx dy : ℤ, -5 ≤ dx → dx ≤ 5 → -5 ≤ dy → dy ≤ 5 → inGrid (cx + dx) (cy + dy) →
        (g (cx + dx) (cy + dy)).strength ≤ 0) ∨
    (∃ dx dy : ℤ, (-5 ≤ dx ∧ dx ≤ 5) ∧ (-5 ≤ dy ∧ dy ≤ 5) ∧ inGrid (cx + dx) (cy + dy) ∧
      0 < (g (cx + dx) (cy + dy)).strength ∧
      scanWindow g cx cy = (⟨(dx : K), (dy : K)⟩, (g (cx + dx) (cy + dy)).strength) ∧
      ∀ ex ey : ℤ, -5 ≤ ex → ex ≤ 5 → -5 ≤ ey → ey ≤ 5 → inGrid (cx + ex) (cy + ey) →
        (g (cx + ex) (cy + ey)).strength ≤ (g (cx + dx) (cy + dy)).strength ∧
        ((g (cx + ex) (cy + ey)).strength = (g (cx + dx) (cy + dy)).strength →
          dx < ex ∨ (dx = ex ∧ dy ≤ ey))) := by
  rw [scanWindow_eq_foldl]
  rcases scan_foldl_spec g cx cy windowCells (⟨0, 0⟩, 0) with
    ⟨h1, h2⟩ | ⟨pre, p, post, hl, hr, hin, hlt, hpre, hpost⟩
  · refine Or.inl ⟨h1, ?_⟩
    intro dx dy h1 h2' h3 h4 hin
    exact h2 (dx, dy) ((mem_windowCells (dx, dy)).mpr ⟨⟨h1, h2'⟩, h3, h4⟩) hin
  · have hp : p ∈ windowCells := by rw [hl]; simp
    obtain ⟨hpx, hpy⟩ := (mem_windowCells p).mp hp
    refine Or.inr ⟨p.1, p.2, hpx, hpy, hin, hlt, hr, ?_⟩
    intro ex ey h1 h2 h3 h4 hein
    have hq : (ex, ey) ∈ pre ++ p :: post := by
      rw [← hl]; exact (mem_windowCells (ex, ey)).mpr ⟨⟨h1, h2⟩, h3, h4⟩
    have hsorted := windowCells_sorted
    rw [hl, List.pairwise_append] at hsorted
    obtain ⟨-, hps, -⟩ := hsorted
    rw [List.pairwise_cons] at hps
    rcases List.mem_append.mp hq with h | h
    · have hlt2 := hpre (ex, ey) h hein
      exact ⟨le_of_lt hlt2, fun heq => absurd heq (ne_of_lt hlt2)⟩
    · rcases List.mem_cons.mp h with h | h
      · rw [← h]
        exact ⟨le_refl _, fun _ => Or.inr ⟨rfl, le_refl _⟩⟩
      · refine ⟨hpost (ex, ey) h hein, fun _ => ?_⟩
        rcases hps.1 (ex, ey) h with h5 | ⟨h5, h6⟩
        · exact Or.inl h5
        · exact Or.inr ⟨h5, le_of_lt h6⟩

end Scan

section ScanClaims

variable {K : Type} [LinearOrderedField K] [FloorRing K]

/-- C11 (window query).  For every field and every ant position, with
`(cx, cy)` the position truncated to integers: if no in-grid cell
`(cx + dx, cy + dy)` with `-5 ≤ dx, dy ≤ 5` has positive strength the result is
`(0, 0)`; otherwise the result is the raw integer offset `(dx, dy)` of an
in-grid window cell whose strength is positive and greatest over all in-grid
window cells, and among the cells of that strength it is the first in scan
order (`dx` ascending in the outer loop, `dy` ascending in the inner loop). -/
theorem strongestPheromone_spec (g : Grid K) (ant : Ant K) :
    ((∀ dx dy : ℤ, -5 ≤ dx → dx ≤ 5 → -5 ≤ dy → dy ≤ 5 →
        inGrid (toInt ant.position.x + dx) (toInt ant.position.y + dy) →
        (g (toInt ant.position.x + dx) (toInt ant.position.y + dy)).strength ≤ 0) →
      strongestPheromone g ant = ⟨0, 0⟩) ∧
    ((∃ dx dy : ℤ, (-5 ≤ dx ∧ dx ≤ 5) ∧ (-5 ≤ dy ∧ dy ≤ 5) ∧
        inGrid (toInt ant.position.x + dx) (toInt ant.position.y + dy) ∧
        0 < (g (toInt ant.position.x + dx) (toInt ant.position.y + dy)).strength) →
      ∃ dx dy : ℤ, (-5 ≤ dx ∧ dx ≤ 5) ∧ (-5 ≤ dy ∧ dy ≤ 5) ∧
        inGrid (toInt ant.position.x + dx) (toInt ant.position.y + dy) ∧
        0 < (g (toInt ant.position.x + dx) (toInt ant.position.y + dy)).strength ∧
        strongestPheromone g ant = ⟨(dx : K), (dy : K)⟩ ∧
        ∀ ex ey : ℤ, -5 ≤ ex → ex ≤ 5 → -5 ≤ ey → ey ≤ 5 →
          inGrid (toInt ant.position.x + ex) (toInt ant.position.y + ey) →
          (g (toInt ant.position.x + ex) (toInt ant.position.y + ey)).strength
            ≤ (g (toInt ant.position.x + dx) (toInt ant.position.y + dy)).strength ∧
          ((g (toInt ant.position.x + ex) (toInt ant.position.y + ey)).strength
              = (g (toInt ant.position.x + dx) (toInt ant.position.y + dy)).strength →
            dx < ex ∨ (dx = ex ∧ dy ≤ ey))) := by
  unfold strongestPheromone
  rcases scanWindow_first_max g (toInt ant.position.x) (toInt ant.position.y) with
    ⟨h1, h2⟩ | ⟨dx, dy, hx, hy, hin, hpos, hr, hmax⟩
  · refine ⟨fun _ => by rw [h1], ?_⟩
    rintro ⟨dx, dy, hx, hy, hin, hpos⟩
    exact absurd (h2 dx dy hx.1 hx.2 hy.1 hy.2 hin) (not_le.mpr hpos)
  · refine ⟨?_, fun _ => ⟨dx, dy, hx, hy, hin, hpos, by rw [hr], hmax⟩⟩
    intro hall
    exact absurd (hall dx dy hx.1 hx.2 hy.1 hy.2 hin) (not_le.mpr hpos)

/-- C12 (deposit then sense).  For every in-grid cell `(cx, cy)`, every trail
type and every amount `A > 0`, on a field in which every cell of the window
around `(cx, cy)` has strength 0, after the deposit of `A` at `(cx, cy)` the
query of an ant whose truncated position is `(cx, cy)` returns `(0, 0)`, the
offset of the deposited cell, which the scan selects with maximum `A`. -/
theorem deposit_then_sense (g : Grid K) (ant : Ant K) (cx cy type : ℤ) (A : K)
    (hcx : toInt ant.position.x = cx) (hcy : toInt ant.position.y = cy)
    (hin : inGrid cx cy) (hA : 0 < A)
    (hzero : ∀ dx dy : ℤ, -5 ≤ dx → dx ≤ 5 → -5 ≤ dy → dy ≤ 5 →
      (g (cx + dx) (cy + dy)).strength = 0) :
    strongestPheromone (depositPheromones g cx cy type A) ant = ⟨0, 0⟩ ∧
    scanWindow (depositPheromones g cx cy type A) cx cy = (⟨0, 0⟩, A) := by
  have h00 := hzero 0 0 (by norm_num) (by norm_num) (by norm_num) (by norm_num)
  simp only [add_zero] at h00
  have hcell : (depositPheromones g cx cy type A cx cy).strength = A := by
    rw [depositPheromones_same _ _ _ _ _ hin, h00, zero_add]
  have hscan : scanWindow (depositPheromones g cx cy type A) cx cy = (⟨0, 0⟩, A) := by
    rcases scanWindow_first_max (depositPheromones g cx cy type A) cx cy with
      ⟨-, h2⟩ | ⟨dx, dy, hx, hy, -, hpos, hr, -⟩
    · have h := h2 0 0 (by norm_num) (by norm_num) (by norm_num) (by norm_num)
        (by simpa using hin)
      simp only [add_zero] at h
      rw [hcell] at h
      exact absurd h (not_le.mpr hA)
    · by_cases hc : cx + dx = cx ∧ cy + dy = cy
      · have hdx : dx = 0 := by omega
        have hdy : dy = 0 := by omega
        rw [hr, hdx, hdy]
        simp only [add_zero, hcell]
        simp
      · rw [depositPheromones_other _ _ _ _ _ _ _ hc,
          hzero dx dy hx.1 hx.2 hy.1 hy.2] at hpos
        exact absurd hpos (lt_irrefl _)
  refine ⟨?_, hscan⟩
  unfold strongestPheromone
  rw [hcx, hcy, hscan]

end ScanClaims

/-- Witness for `strongestPheromone_spec`: the ant at `(10, 10)` on `baitGrid`,
whose window holds the positive cell `(11, 10)`. -/
theorem strongestPheromone_spec_witness :
    ∃ dx dy : ℤ, (-5 ≤ dx ∧ dx ≤ 5) ∧ (-5 ≤ dy ∧ dy ≤ 5) ∧
      inGrid (toInt scout.position.x + dx) (toInt scout.position.y + dy) ∧
      0 < (baitGrid (toInt scout.position.x + dx) (toInt scout.position.y + dy)).strength ∧
      strongestPheromone baitGrid scout = ⟨(dx : ℚ), (dy : ℚ)⟩ ∧
      ∀ ex ey : ℤ, -5 ≤ ex → ex ≤ 5 → -5 ≤ ey → ey ≤ 5 →
        inGrid (toInt scout.position.x + ex) (toInt scout.position.y + ey) →
        (baitGrid (toInt scout.position.x + ex) (toInt scout.position.y + ey)).strength
          ≤ (baitGrid (toInt scout.position.x + dx) (toInt scout.position.y + dy)).strength ∧
        ((baitGrid (toInt scout.position.x + ex) (toInt scout.position.y + ey)).strength
            = (baitGrid (toInt scout.position.x + dx) (toInt scout.position.y + dy)).strength →
          dx < ex ∨ (dx = ex ∧ dy ≤ ey)) :=
  (strongestPheromone_spec baitGrid scout).2
    ⟨1, 0, by norm_num, by norm_num,
      by simp only [scout, toInt_ten]; rw [inGrid_iff]; norm_num,
      by simp only [scout, toInt_ten, baitGrid]; norm_num⟩

/-- Witness for `deposit_then_sense`: a deposit of 5 at `(10, 10)` on the empty
rational field, sensed by the ant at `(10, 10)`. -/
theorem deposit_then_sense_witness :
    strongestPheromone (depositPheromones zeroGrid 10 10 1 5) scout = ⟨0, 0⟩ ∧
    scanWindow (depositPheromones zeroGrid 10 10 1 5) 10 10 = (⟨0, 0⟩, 5) :=
  deposit_then_sense zeroGrid scout 10 10 1 5 toInt_ten toInt_ten
    (by rw [inGrid_iff]; norm_num) (by norm_num) (fun _ _ _ _ _ _ => rfl)

/-! ## Vector math -/

section VectorMath

variable {K : Type} [LinearOrderedField K]

theorem IsSqrt.of_mul_self {sq : K → K} (h : IsSqrt sq) {a : K} (ha : 0 ≤ a) :
    sq (a * a) = a := by
  have h0 : 0 ≤ a * a := mul_nonneg ha ha
  have h1 := h.nonneg h0
  have h2 := h.mul_self h0
  nlinarith

theorem IsSqrt.pos {sq : K → K} (h : IsSqrt sq) {a : K} (ha : 0 < a) : 0 < sq a := by
  have h1 := h.nonneg ha.le
  have h2 := h.mul_self ha.le
  rcases h1.lt_or_eq with h3 | h3
  · exact h3
  · rw [← h3] at h2
    simp at h2
    exact absurd h2 (ne_of_lt ha)

end VectorMath

/-! ## Vector math in `double` arithmetic -/

theorem fl64_nonneg (q : ℚ) (h : 0 ≤ q) : 0 ≤ fl64 q := flt_nonneg 53 (-1022) q h

theorem fl64_nonpos (q : ℚ) (h : q ≤ 0) : fl64 q ≤ 0 := flt_nonpos 53 (-1022) q h

/-- Rounding does not carry a number of `[0, 1]` beyond 1. -/
theorem fl64_le_one (q : ℚ) (h0 : 0 ≤ q) (h1 : q ≤ 1) : fl64 q ≤ 1 := by
  rcases h0.eq_or_lt with hq | hpos
  · rw [← hq]
    unfold fl64
    rw [flt_zero]
    exact zero_le_one
  have hlog : Int.log 2 |q| ≤ 0 := by
    rw [abs_of_pos hpos]
    have h2 : q < ((2 : ℕ) : ℚ) ^ (1 : ℤ) := by norm_num; linarith
    have := (Int.lt_zpow_iff_log_lt (by norm_num) hpos).mp h2
    omega
  unfold fl64 flt
  simp only []
  set e := max (Int.log 2 |q|) (-1022) with he
  have he0 : e ≤ 0 := max_le hlog (by norm_num)
  set u : ℚ := 2 ^ (e - (((53 : ℕ) : ℤ) - 1)) with hu
  have hupos : 0 < u := two_zpow_pos _
  have hn : (((2 : ℤ) ^ (52 - e).toNat : ℤ) : ℚ) * u = 1 := by
    rw [hu]
    push_cast
    rw [← zpow_natCast, Int.toNat_of_nonneg (by omega), ← zpow_add₀ (by norm_num)]
    have : 52 - e + (e - 52) = 0 := by ring
    rw [this, zpow_zero]
  have hle : q / u ≤ (((2 : ℤ) ^ (52 - e).toNat : ℤ) : ℚ) := by
    rw [div_le_iff₀ hupos, hn]
    exact h1
  have hr := roundHalfEven_le_of_le _ _ hle
  have hr2 : (roundHalfEven (q / u) : ℚ) ≤ (((2 : ℤ) ^ (52 - e).toNat : ℤ) : ℚ) := by
    exact_mod_cast hr
  calc (roundHalfEven (q / u) : ℚ) * u ≤ (((2 : ℤ) ^ (52 - e).toNat : ℤ) : ℚ) * u :=
        mul_le_mul_of_nonneg_right hr2 hupos.le
    _ = 1 := hn

theorem magnitude_b64_nonneg (v : Vector2D ℚ) : 0 ≤ magnitude_2d_b64 v := sqrt64_nonneg _

theorem normalize_b64_of_ne (v : Vector2D ℚ) (h : magnitude_2d_b64 v ≠ 0) :
    normalize_vector_2d_b64 v
      = ⟨fl64 (v.x / magnitude_2d_b64 v), fl64 (v.y / magnitude_2d_b64 v)⟩ := by
  unfold normalize_vector_2d_b64
  simp [h]

theorem clamp_b64_of_gt (v : Vector2D ℚ) (max : ℚ) (h : magnitude_2d_b64 v > max) :
    clamp_magnitude_vector_2d_b64 v max
      = ⟨fl64 (v.x * fl64 (max / magnitude_2d_b64 v)),
         fl64 (v.y * fl64 (max / magnitude_2d_b64 v))⟩ := by
  unfold clamp_magnitude_vector_2d_b64
  simp [h]

theorem clamp_b64_of_not_gt (v : Vector2D ℚ) (max : ℚ) (h : ¬ magnitude_2d_b64 v > max) :
    clamp_magnitude_vector_2d_b64 v max = v := by
  unfold clamp_magnitude_vector_2d_b64
  simp [h]

/-- The rounded scale factor of a clamp lies in `[0, 1]`. -/
theorem clamp_b64_scale (v : Vector2D ℚ) (max : ℚ) (hmax : 0 ≤ max)
    (h : magnitude_2d_b64 v > max) :
    0 ≤ fl64 (max / magnitude_2d_b64 v) ∧ fl64 (max / magnitude_2d_b64 v) ≤ 1 := by
  have hpos : 0 < magnitude_2d_b64 v := lt_of_le_of_lt hmax h
  have h0 : 0 ≤ max / magnitude_2d_b64 v := div_nonneg hmax hpos.le
  have h1 : max / magnitude_2d_b64 v ≤ 1 := by
    rw [div_le_one hpos]; exact h.le
  exact ⟨fl64_nonneg _ h0, fl64_le_one _ h0 h1⟩

/-! ## Accumulated rounding errors

One rounding in the normal range changes a number by a factor between
`rho = 1 - 2 ^ -53` and `1 / rho`.  `Near k a b` says that `a` and `b` differ by
at most `k` such factors; the lemmas below follow the roundings of
`magnitude_2d`, `normalize_vector_2d` and `clamp_magnitude_vector_2d` through
sums, products, quotients and the square root.  Where a product may underflow,
its absolute error is absorbed into one more factor. -/

theorem rho_pos : 0 < rho := by unfold rho; norm_num

theorem rho_le_one : rho ≤ 1 := by unfold rho; norm_num

theorem rho_pow_pos (k : ℕ) : 0 < rho ^ k := pow_pos rho_pos k

theorem rho_pow_le_one (k : ℕ) : rho ^ k ≤ 1 := pow_le_one₀ rho_pos.le rho_le_one

theorem rho_pow_anti {j k : ℕ} (h : j ≤ k) : rho ^ k ≤ rho ^ j :=
  pow_le_pow_of_le_one rho_pos.le rho_le_one h

theorem Near.refl (a : ℚ) : Near 0 a a := by simp [Near]

theorem Near.symm {k : ℕ} {a b : ℚ} (h : Near k a b) : Near k b a := ⟨h.2, h.1⟩

theorem Near.left_nonneg {k : ℕ} {a b : ℚ} (h : Near k a b) (hb : 0 ≤ b) : 0 ≤ a :=
  le_trans (mul_nonneg hb (rho_pow_pos k).le) h.1

theorem Near.mono {j k : ℕ} {a b : ℚ} (h : Near j a b) (hb : 0 ≤ b) (hjk : j ≤ k) :
    Near k a b := by
  have ha := h.left_nonneg hb
  have hr := rho_pow_anti hjk
  exact ⟨le_trans (mul_le_mul_of_nonneg_left hr hb) h.1,
    le_trans (mul_le_mul_of_nonneg_left hr ha) h.2⟩

theorem Near.trans {j k : ℕ} {a b c : ℚ} (h1 : Near j a b) (h2 : Near k b c) :
    Near (j + k) a c := by
  constructor
  · calc c * rho ^ (j + k) = c * rho ^ k * rho ^ j := by rw [pow_add]; ring
      _ ≤ b * rho ^ j := mul_le_mul_of_nonneg_right h2.1 (rho_pow_pos j).le
      _ ≤ a := h1.1
  · calc a * rho ^ (j + k) = a * rho ^ j * rho ^ k := by rw [pow_add]; ring
      _ ≤ b * rho ^ k := mul_le_mul_of_nonneg_right h1.2 (rho_pow_pos k).le
      _ ≤ c := h2.2

theorem Near.add {k : ℕ} {a b c d : ℚ} (h1 : Near k a b) (h2 : Near k c d) :
    Near k (a + c) (b + d) := by
  constructor
  · rw [add_mul]; exact add_le_add h1.1 h2.1
  · rw [add_mul]; exact add_le_add h1.2 h2.2

theorem Near.mul {j k : ℕ} {a b c d : ℚ} (h1 : Near j a b) (h2 : Near k c d) (hb : 0 ≤ b)
    (hd : 0 ≤ d) : Near (j + k) (a * c) (b * d) := by
  have ha := h1.left_nonneg hb
  have hc := h2.left_nonneg hd
  constructor
  · calc b * d * rho ^ (j + k) = (b * rho ^ j) * (d * rho ^ k) := by rw [pow_add]; ring
      _ ≤ a * c := mul_le_mul h1.1 h2.1 (mul_nonneg hd (rho_pow_pos k).le) ha
  · calc a * c * rho ^ (j + k) = (a * rho ^ j) * (c * rho ^ k) := by rw [pow_add]; ring
      _ ≤ b * d := mul_le_mul h1.2 h2.2 (mul_nonneg hc (rho_pow_pos k).le) hb

theorem Near.mul_const {k : ℕ} {a b : ℚ} (h : Near k a b) (c : ℚ) (hc : 0 ≤ c) :
    Near k (a * c) (b * c) := by
  constructor
  · calc b * c * rho ^ k = b * rho ^ k * c := by ring
      _ ≤ a * c := mul_le_mul_of_nonneg_right h.1 hc
  · calc a * c * rho ^ k = a * rho ^ k * c := by ring
      _ ≤ b * c := mul_le_mul_of_nonneg_right h.2 hc

theorem Near.div_const {k : ℕ} {a b : ℚ} (h : Near k a b) (c : ℚ) (hc : 0 < c) :
    Near k (a / c) (b / c) := by
  rw [div_eq_mul_inv, div_eq_mul_inv]
  exact h.mul_const _ (inv_pos.mpr hc).le

theorem Near.of_sq {k : ℕ} {a b : ℚ} (h : Near (2 * k) (a * a) (b * b)) (ha : 0 ≤ a)
    (hb : 0 ≤ b) : Near k a b := by
  have hr := (rho_pow_pos k).le
  have e : rho ^ (2 * k) = rho ^ k * rho ^ k := by rw [two_mul, pow_add]
  constructor
  · rw [mul_self_le_mul_self_iff (mul_nonneg hb hr) ha]
    calc b * rho ^ k * (b * rho ^ k) = b * b * rho ^ (2 * k) := by rw [e]; ring
      _ ≤ a * a := h.1
  · rw [mul_self_le_mul_self_iff (mul_nonneg ha hr) hb]
    calc a * rho ^ k * (a * rho ^ k) = a * a * rho ^ (2 * k) := by rw [e]; ring
      _ ≤ b * b := h.2

/-- Up to eight roundings leave a relative error of at most `2 ^ -49`. -/
theorem Near.abs_sub_le {k : ℕ} {a b : ℚ} (h : Near k a b) (hb : 0 ≤ b) (hk : k ≤ 8) :
    |a - b| ≤ b / 2 ^ 49 := by
  have h8 := h.mono hb hk
  have ha := h.left_nonneg hb
  have e1 : (1 : ℚ) - 1 / 2 ^ 49 ≤ rho ^ 8 := by unfold rho; norm_num
  have e2 : (1 + 1 / 2 ^ 49 : ℚ) * rho ^ 8 ≥ 1 := by unfold rho; norm_num
  have hr := (rho_pow_pos 8).le
  rw [abs_le]
  constructor
  · have : b * (1 - 1 / 2 ^ 49) ≤ b * rho ^ 8 := mul_le_mul_of_nonneg_left e1 hb
    linarith [h8.1]
  · have h1 : a * 1 ≤ a * ((1 + 1 / 2 ^ 49) * rho ^ 8) := mul_le_mul_of_nonneg_left e2 ha
    have h2 : a * ((1 + 1 / 2 ^ 49) * rho ^ 8) = (a * rho ^ 8) * (1 + 1 / 2 ^ 49) := by ring
    have h3 : (a * rho ^ 8) * (1 + 1 / 2 ^ 49) ≤ b * (1 + 1 / 2 ^ 49) :=
      mul_le_mul_of_nonneg_right h8.2 (by norm_num)
    linarith

/-- In the normal range the error of a rounding is relative. -/
theorem flt_error_normal (p : ℕ) (emin : ℤ) (q : ℚ) (h : (2 : ℚ) ^ emin ≤ |q|) :
    |flt p emin q - q| ≤ 2 ^ (-(p : ℤ)) * |q| := by
  have hpos : 0 < |q| := lt_of_lt_of_le (two_zpow_pos emin) h
  have hle : emin ≤ Int.log 2 |q| := by
    rw [← Int.zpow_le_iff_le_log (by norm_num) hpos]; simpa using h
  unfold flt
  simp only []
  rw [max_eq_left hle]
  set u : ℚ := 2 ^ (Int.log 2 |q| - ((p : ℤ) - 1)) with hu
  have hupos : 0 < u := two_zpow_pos _
  have h1 : |(roundHalfEven (q / u) : ℚ) * u - q| ≤ u / 2 := by
    have h2 := roundHalfEven_sub_le (q / u)
    have h3 : (roundHalfEven (q / u) : ℚ) * u - q = ((roundHalfEven (q / u) : ℚ) - q / u) * u := by
      field_simp
    rw [h3, abs_mul, abs_of_pos hupos]
    calc |(roundHalfEven (q / u) : ℚ) - q / u| * u ≤ 1 / 2 * u :=
          mul_le_mul_of_nonneg_right h2 hupos.le
      _ = u / 2 := by ring
  have h4 : u / 2 = 2 ^ (-(p : ℤ)) * 2 ^ (Int.log 2 |q|) := by
    rw [hu, ← zpow_add₀ (by norm_num),
      show -(p : ℤ) + Int.log 2 |q| = (Int.log 2 |q| - ((p : ℤ) - 1)) - 1 by ring,
      zpow_sub_one₀ (by norm_num)]
    ring
  have h5 : (2 : ℚ) ^ (Int.log 2 |q|) ≤ |q| := by
    have := Int.zpow_log_le_self (b := 2) (by norm_num) hpos
    simpa using this
  rw [h4] at h1
  exact h1.trans (mul_le_mul_of_nonneg_left h5 (two_zpow_pos _).le)

theorem fl64_error_normal (q : ℚ) (h : 1 / 2 ^ 1022 ≤ |q|) : |fl64 q - q| ≤ |q| / 2 ^ 53 := by
  have h1 := flt_error_normal 53 (-1022) q (by
    have e : (2 : ℚ) ^ (-1022 : ℤ) = 1 / 2 ^ 1022 := by norm_num
    rw [e]; exact h)
  have e1 : (2 : ℚ) ^ (-((53 : ℕ) : ℤ)) = 1 / 2 ^ 53 := by norm_num
  rw [e1] at h1
  unfold fl64
  linarith

/-- One rounding of a non-negative number that is zero or in the normal
range. -/
theorem fl64_near (q : ℚ) (h : q = 0 ∨ 1 / 2 ^ 1022 ≤ q) : Near 1 (fl64 q) q := by
  rcases h with h | h
  · subst h
    unfold fl64
    rw [flt_zero]
    simp [Near]
  · have hq : 0 < q := lt_of_lt_of_le (by norm_num) h
    have he := fl64_error_normal q (by rw [abs_of_pos hq]; exact h)
    rw [abs_of_pos hq, abs_le] at he
    unfold Near rho
    constructor
    · linarith [he.1]
    · have h1 : fl64 q ≤ q * (1 + 1 / 2 ^ 53) := by linarith [he.2]
      have h2 : fl64 q * (1 - 1 / 2 ^ 53) ^ 1 ≤ q * (1 + 1 / 2 ^ 53) * (1 - 1 / 2 ^ 53) ^ 1 :=
        mul_le_mul_of_nonneg_right h1 (by norm_num)
      have h3 : q * (1 + 1 / 2 ^ 53) * (1 - 1 / 2 ^ 53) ^ 1 ≤ q := by
        have : (1 + 1 / 2 ^ 53 : ℚ) * (1 - 1 / 2 ^ 53) ^ 1 ≤ 1 := by norm_num
        calc q * (1 + 1 / 2 ^ 53) * (1 - 1 / 2 ^ 53) ^ 1
            = q * ((1 + 1 / 2 ^ 53) * (1 - 1 / 2 ^ 53) ^ 1) := by ring
          _ ≤ q * 1 := mul_le_mul_of_nonneg_left this hq.le
          _ = q := mul_one q
      exact h2.trans h3

/-- The sum of two rounded non-negative numbers, when the exact sum is at least
`2 ^ -1000`: an underflow of one term is absorbed by the other. -/
theorem fl64_add_near (a b : ℚ) (ha : 0 ≤ a) (hb : 0 ≤ b) (h : 1 / 2 ^ 1000 ≤ a + b) :
    Near 2 (fl64 a + fl64 b) (a + b) := by
  have h1 := fl64_error a
  have h2 := fl64_error b
  rw [abs_of_nonneg ha, abs_le] at h1
  rw [abs_of_nonneg hb, abs_le] at h2
  unfold Near rho
  constructor
  · norm_num at h h1 h2 ⊢
    linarith [h1.1, h2.1]
  · norm_num at h h1 h2 ⊢
    linarith [h1.2, h2.2]

/-- The square of a rounded number of moderate size. -/
theorem fl64_sq_bounds (z : ℚ) (hz : |z| ≤ 2 ^ 302) :
    z * z * rho ^ 2 - 1 / 2 ^ 770 ≤ fl64 z * fl64 z ∧
    fl64 z * fl64 z * rho ^ 2 ≤ z * z + 1 / 2 ^ 770 := by
  have hd := fl64_error z
  set t := |z| with ht
  set f := |fl64 z| with hf
  have ht0 : 0 ≤ t := abs_nonneg z
  have hf0 : 0 ≤ f := abs_nonneg _
  have hzz : z * z = t * t := (abs_mul_abs_self z).symm
  have hff : fl64 z * fl64 z = f * f := (abs_mul_abs_self _).symm
  have hlo : t - (t / 2 ^ 53 + 1 / 2 ^ 1075) ≤ f := by
    have := abs_sub_abs_le_abs_sub z (fl64 z)
    rw [abs_sub_comm z (fl64 z)] at this
    linarith
  have hhi : f ≤ t + (t / 2 ^ 53 + 1 / 2 ^ 1075) := by
    have := abs_sub_abs_le_abs_sub (fl64 z) z
    linarith
  rw [hzz, hff]
  have hr2 : rho ^ 2 = rho * rho := pow_two rho
  have hη : (0 : ℚ) ≤ 1 / 2 ^ 1075 := by norm_num
  rw [hr2]
  constructor
  · by_cases hc : 1 / 2 ^ 1075 ≤ t * rho
    · have h0 : 0 ≤ t * rho - 1 / 2 ^ 1075 := by linarith
      have h1 : t * rho - 1 / 2 ^ 1075 ≤ f := by
        have : t * rho = t - t / 2 ^ 53 := by unfold rho; ring
        linarith
      have h2 : (t * rho - 1 / 2 ^ 1075) * (t * rho - 1 / 2 ^ 1075) ≤ f * f :=
        mul_le_mul h1 h1 h0 hf0
      have h3 : t * rho ≤ 2 ^ 302 := by
        calc t * rho ≤ t * 1 := mul_le_mul_of_nonneg_left rho_le_one ht0
          _ = t := mul_one t
          _ ≤ 2 ^ 302 := hz
      have h4 : (t * rho - 1 / 2 ^ 1075) * (t * rho - 1 / 2 ^ 1075)
          = t * t * (rho * rho) - 2 * (t * rho) * (1 / 2 ^ 1075) + (1 / 2 ^ 1075) * (1 / 2 ^ 1075) := by
        ring
      have h5 : 2 * (t * rho) * (1 / 2 ^ 1075) ≤ 2 * 2 ^ 302 * (1 / 2 ^ 1075) := by
        have : 2 * (t * rho) ≤ 2 * 2 ^ 302 := by linarith
        exact mul_le_mul_of_nonneg_right this hη
      have h6 : (2 : ℚ) * 2 ^ 302 * (1 / 2 ^ 1075) ≤ 1 / 2 ^ 770 := by norm_num
      have h7 : (0 : ℚ) ≤ (1 / 2 ^ 1075) * (1 / 2 ^ 1075) := by norm_num
      linarith
    · push_neg at hc
      have h0 : 0 ≤ t * rho := mul_nonneg ht0 rho_pos.le
      have h1 : (t * rho) * (t * rho) ≤ (1 / 2 ^ 1075) * (1 / 2 ^ 1075) :=
        mul_le_mul hc.le hc.le h0 hη
      have h2 : ((1 : ℚ) / 2 ^ 1075) * (1 / 2 ^ 1075) ≤ 1 / 2 ^ 770 := by norm_num
      have h3 : t * t * (rho * rho) = (t * rho) * (t * rho) := by ring
      have h4 : 0 ≤ f * f := mul_nonneg hf0 hf0
      linarith
  · have h1 : f * rho ≤ t + 1 / 2 ^ 1075 := by
      have e : (t + (t / 2 ^ 53 + 1 / 2 ^ 1075)) * rho
          = t - t / 2 ^ 106 + (1 / 2 ^ 1075) * rho := by unfold rho; ring
      have h2 : f * rho ≤ (t + (t / 2 ^ 53 + 1 / 2 ^ 1075)) * rho :=
        mul_le_mul_of_nonneg_right hhi rho_pos.le
      have h3 : (1 / 2 ^ 1075 : ℚ) * rho ≤ 1 / 2 ^ 1075 := by
        calc (1 / 2 ^ 1075 : ℚ) * rho ≤ (1 / 2 ^ 1075) * 1 :=
              mul_le_mul_of_nonneg_left rho_le_one hη
          _ = 1 / 2 ^ 1075 := mul_one _
      have h4 : 0 ≤ t / 2 ^ 106 := div_nonneg ht0 (by norm_num)
      linarith
    have h0 : 0 ≤ f * rho := mul_nonneg hf0 rho_pos.le
    have h2 : (f * rho) * (f * rho) ≤ (t + 1 / 2 ^ 1075) * (t + 1 / 2 ^ 1075) :=
      mul_le_mul h1 h1 h0 (add_nonneg ht0 hη)
    have h3 : (t + 1 / 2 ^ 1075) * (t + 1 / 2 ^ 1075)
        = t * t + 2 * t * (1 / 2 ^ 1075) + (1 / 2 ^ 1075) * (1 / 2 ^ 1075) := by ring
    have h4 : 2 * t * (1 / 2 ^ 1075) ≤ 2 * 2 ^ 302 * (1 / 2 ^ 1075) := by
      have : 2 * t ≤ 2 * 2 ^ 302 := by linarith
      exact mul_le_mul_of_nonneg_right this hη
    have h5 : (2 : ℚ) * 2 ^ 302 * (1 / 2 ^ 1075) + (1 / 2 ^ 1075) * (1 / 2 ^ 1075)
        ≤ 1 / 2 ^ 770 := by norm_num
    have h6 : f * f * (rho * rho) = (f * rho) * (f * rho) := by ring
    linarith

/-- The squares of two rounded numbers of moderate size, when the exact sum of
squares is at least `2 ^ -700`. -/
theorem fl64_sq_add_near (z1 z2 : ℚ) (h1 : |z1| ≤ 2 ^ 302) (h2 : |z2| ≤ 2 ^ 302)
    (h : 1 / 2 ^ 700 ≤ z1 * z1 + z2 * z2) :
    Near 3 (fl64 z1 * fl64 z1 + fl64 z2 * fl64 z2) (z1 * z1 + z2 * z2) := by
  obtain ⟨a1, a2⟩ := fl64_sq_bounds z1 h1
  obtain ⟨b1, b2⟩ := fl64_sq_bounds z2 h2
  set A := fl64 z1 * fl64 z1 + fl64 z2 * fl64 z2 with hA
  set B := z1 * z1 + z2 * z2 with hB
  have hA0 : 0 ≤ A := add_nonneg (mul_self_nonneg _) (mul_self_nonneg _)
  clear_value A B
  have hlo : B * rho ^ 2 - 2 / 2 ^ 770 ≤ A := by
    have : B * rho ^ 2 = z1 * z1 * rho ^ 2 + z2 * z2 * rho ^ 2 := by rw [hB]; ring
    rw [hA]
    linarith
  have hhi : A * rho ^ 2 ≤ B + 2 / 2 ^ 770 := by
    have : A * rho ^ 2 = fl64 z1 * fl64 z1 * rho ^ 2 + fl64 z2 * fl64 z2 * rho ^ 2 := by
      rw [hA]; ring
    linarith
  have hr3 : rho ^ 3 = rho ^ 2 * rho := pow_succ rho 2
  have hr2 : rho ^ 2 = 1 - 2 / 2 ^ 53 + 1 / 2 ^ 106 := by unfold rho; ring
  constructor
  · have e : B * rho ^ 3 = B * rho ^ 2 - B * rho ^ 2 / 2 ^ 53 := by
      rw [hr3]; unfold rho; ring
    have h3 : (2 : ℚ) / 2 ^ 770 ≤ B * rho ^ 2 / 2 ^ 53 := by
      rw [hr2]
      norm_num at h ⊢
      linarith
    linarith
  · have e : A * rho ^ 3 = (A * rho ^ 2) * rho := by rw [hr3]; ring
    have h3 : (A * rho ^ 2) * rho ≤ (B + 2 / 2 ^ 770) * rho :=
      mul_le_mul_of_nonneg_right hhi rho_pos.le
    have h4 : (B + 2 / 2 ^ 770) * rho ≤ B := by
      unfold rho
      norm_num at h ⊢
      linarith
    linarith

set_option maxRecDepth 10000 in
/-- The rounded square root `r` of `q > 0` is a multiple of a unit `w` with
`2 ^ 52 * w ≤ r`, and `q` lies between the squares of `r - w / 2` and
`r + w / 2`. -/
theorem sqrt64_spec (q : ℚ) (hq : 0 < q) :
    ∃ w : ℚ, 0 < w ∧ 2 ^ 52 * w ≤ sqrt64 q ∧
      (sqrt64 q - w / 2) * (sqrt64 q - w / 2) ≤ q ∧
      q ≤ (sqrt64 q + w / 2) * (sqrt64 q + w / 2) := by
  have hL1 : (2 : ℚ) ^ (Int.log 2 q) ≤ q := by
    have := Int.zpow_log_le_self (b := 2) (by norm_num) hq
    simpa using this
  have hk : 2 * (Int.log 2 q / 2) ≤ Int.log 2 q := by omega
  have h2k : (2 : ℚ) ^ (2 * (Int.log 2 q / 2)) ≤ q :=
    le_trans (zpow_le_zpow_right₀ (by norm_num) hk) hL1
  unfold sqrt64
  rw [if_neg (not_le.mpr hq)]
  simp only []
  set k := Int.log 2 q / 2 with hkdef
  set w : ℚ := 2 ^ (k - 52) with hw
  have hwpos : 0 < w := two_zpow_pos _
  have hww : w * w = 2 ^ (2 * k) / 2 ^ 104 := by
    rw [hw, ← zpow_add₀ (by norm_num), show k - 52 + (k - 52) = 2 * k - 104 by ring,
      zpow_sub₀ (by norm_num)]
    norm_num
  have hwwpos : 0 < w * w := mul_pos hwpos hwpos
  have hx : (2 : ℚ) ^ 104 ≤ q / (w * w) := by
    rw [le_div_iff₀ hwwpos, hww]
    have h2 : (0 : ℚ) < 2 ^ (2 * k) := two_zpow_pos _
    calc (2 : ℚ) ^ 104 * (2 ^ (2 * k) / 2 ^ 104) = 2 ^ (2 * k) := by field_simp
      _ ≤ q := h2k
  have hfl : (2 : ℤ) ^ 104 ≤ ⌊q / (w * w)⌋ := by
    rw [Int.le_floor]; push_cast; exact hx
  set N : ℕ := ⌊q / (w * w)⌋.toNat with hN
  have hNz : (N : ℤ) = ⌊q / (w * w)⌋ := by
    rw [hN, Int.toNat_of_nonneg (le_trans (by norm_num) hfl)]
  have hNge : 2 ^ 104 ≤ N := by
    have : ((2 ^ 104 : ℕ) : ℤ) ≤ (N : ℤ) := by rw [hNz]; push_cast; exact hfl
    exact_mod_cast this
  have hN1 : (N : ℚ) ≤ q / (w * w) := by
    have := Int.floor_le (q / (w * w))
    rw [← hNz] at this; exact_mod_cast this
  have hN2 : q / (w * w) < (N : ℚ) + 1 := by
    have := Int.lt_floor_add_one (q / (w * w))
    rw [← hNz] at this; exact_mod_cast this
  set m : ℕ := Nat.sqrt N with hm
  have hm1 : m * m ≤ N := Nat.sqrt_le N
  have hm2 : N < (m + 1) * (m + 1) := Nat.lt_succ_sqrt N
  have hm3 : 2 ^ 52 ≤ m := by
    rw [hm, Nat.le_sqrt]
    calc 2 ^ 52 * 2 ^ 52 = 2 ^ 104 := by norm_num
      _ ≤ N := hNge
  have hm1q : (m : ℚ) * m ≤ N := by exact_mod_cast hm1
  have hm2q : (N : ℚ) + 1 ≤ ((m : ℚ) + 1) * ((m : ℚ) + 1) := by exact_mod_cast hm2
  have hm3q : (2 : ℚ) ^ 52 ≤ m := by exact_mod_cast hm3
  have hcast : (((m : ℕ) : ℤ) : ℚ) = (m : ℚ) := by push_cast; rfl
  rw [hcast]
  have hqlo : (m : ℚ) * w * ((m : ℚ) * w) ≤ q := by
    have : (m : ℚ) * m ≤ q / (w * w) := hm1q.trans hN1
    rw [le_div_iff₀ hwwpos] at this
    calc (m : ℚ) * w * ((m : ℚ) * w) = (m : ℚ) * m * (w * w) := by ring
      _ ≤ q := this
  have hqhi : q ≤ ((m : ℚ) + 1) * w * (((m : ℚ) + 1) * w) := by
    have : q / (w * w) ≤ ((m : ℚ) + 1) * ((m : ℚ) + 1) := hN2.le.trans hm2q
    rw [div_le_iff₀ hwwpos] at this
    calc q ≤ ((m : ℚ) + 1) * ((m : ℚ) + 1) * (w * w) := this
      _ = ((m : ℚ) + 1) * w * (((m : ℚ) + 1) * w) := by ring
  have hm0 : (1 : ℚ) ≤ m := le_trans (by norm_num) hm3q
  have hmw : (2 : ℚ) ^ 52 * w ≤ (m : ℚ) * w := mul_le_mul_of_nonneg_right hm3q hwpos.le
  have hlow : ((m : ℚ) * w - w / 2) * ((m : ℚ) * w - w / 2) ≤ (m : ℚ) * w * ((m : ℚ) * w) := by
    have h0 : 0 ≤ (m : ℚ) * w - w / 2 := by
      have e : (m : ℚ) * w - w / 2 = ((m : ℚ) - 1 / 2) * w := by ring
      rw [e]
      exact mul_nonneg (by linarith) hwpos.le
    have h1 : (m : ℚ) * w - w / 2 ≤ (m : ℚ) * w := by linarith
    exact mul_le_mul h1 h1 h0 (by positivity)
  have hupp : ((m : ℚ) + 1) * w * (((m : ℚ) + 1) * w)
      ≤ (((m : ℚ) + 1) * w + w / 2) * (((m : ℚ) + 1) * w + w / 2) := by
    have h0 : 0 ≤ ((m : ℚ) + 1) * w := by positivity
    have h1 : ((m : ℚ) + 1) * w ≤ ((m : ℚ) + 1) * w + w / 2 := by linarith
    exact mul_le_mul h1 h1 h0 (by positivity)
  have hmw2 : (2 : ℚ) ^ 52 * w ≤ ((m : ℚ) + 1) * w :=
    hmw.trans (mul_le_mul_of_nonneg_right (by linarith) hwpos.le)
  have e1 : (m : ℚ) * w + w / 2 = ((m : ℚ) + 1 / 2) * w := by ring
  have e2 : ((m : ℚ) + 1) * w - w / 2 = ((m : ℚ) + 1 / 2) * w := by ring
  refine ⟨w, hwpos, ?_⟩
  split_ifs with c1 c2 c3
  · exact ⟨hmw, hlow.trans hqlo, by rw [e1]; exact c1.le⟩
  · exact ⟨hmw2, by rw [e2]; exact c2.le, hqhi.trans hupp⟩
  · exact ⟨hmw, hlow.trans hqlo, by rw [e1]; exact not_lt.mp c2⟩
  · exact ⟨hmw2, by rw [e2]; exact not_lt.mp c1, hqhi.trans hupp⟩

/-- The square of the rounded square root is within two roundings of the
argument. -/
theorem sqrt64_near (q : ℚ) (hq : 0 < q) : Near 2 (sqrt64 q * sqrt64 q) q := by
  obtain ⟨w, hw, h52, hlo, hhi⟩ := sqrt64_spec q hq
  set r := sqrt64 q with hr
  have hr0 : 0 ≤ r := sqrt64_nonneg q
  have hwr : w / 2 ≤ r / 2 ^ 53 := by
    have : w ≤ r / 2 ^ 52 := by
      rw [le_div_iff₀ (by norm_num)]; linarith
    have e : r / 2 ^ 53 = r / 2 ^ 52 / 2 := by ring
    rw [e]; linarith
  have h1 : r * rho ≤ r - w / 2 := by unfold rho; linarith
  have h2 : r + w / 2 ≤ r * (1 + 1 / 2 ^ 53) := by linarith
  have h3 : 0 ≤ r * rho := mul_nonneg hr0 rho_pos.le
  have hr2 : rho ^ 2 = rho * rho := pow_two rho
  constructor
  · have h4 : q ≤ (r * (1 + 1 / 2 ^ 53)) * (r * (1 + 1 / 2 ^ 53)) :=
      hhi.trans (mul_le_mul h2 h2 (by linarith) (by positivity))
    have h5 : q * rho ^ 2 ≤ (r * (1 + 1 / 2 ^ 53)) * (r * (1 + 1 / 2 ^ 53)) * rho ^ 2 :=
      mul_le_mul_of_nonneg_right h4 (rho_pow_pos 2).le
    have h6 : (r * (1 + 1 / 2 ^ 53)) * (r * (1 + 1 / 2 ^ 53)) * rho ^ 2
        = r * r * (((1 + 1 / 2 ^ 53) * rho) * ((1 + 1 / 2 ^ 53) * rho)) := by rw [hr2]; ring
    have h7 : ((1 + 1 / 2 ^ 53 : ℚ) * rho) * ((1 + 1 / 2 ^ 53) * rho) ≤ 1 := by
      unfold rho; norm_num
    have h8 : r * r * (((1 + 1 / 2 ^ 53) * rho) * ((1 + 1 / 2 ^ 53) * rho)) ≤ r * r * 1 :=
      mul_le_mul_of_nonneg_left h7 (mul_self_nonneg r)
    linarith
  · calc r * r * rho ^ 2 = (r * rho) * (r * rho) := by rw [hr2]; ring
      _ ≤ (r - w / 2) * (r - w / 2) := mul_le_mul h1 h1 h3 (h3.trans h1)
      _ ≤ q := hlo

/-- The square of the computed magnitude is within five roundings of the exact
sum of squares, when that sum is at least `2 ^ -1000`. -/
theorem magnitude_b64_near (v : Vector2D ℚ) (h : 1 / 2 ^ 1000 ≤ v.x * v.x + v.y * v.y) :
    Near 5 (magnitude_2d_b64 v * magnitude_2d_b64 v) (v.x * v.x + v.y * v.y) := by
  have ha := mul_self_nonneg v.x
  have hb := mul_self_nonneg v.y
  have hT0 : 0 ≤ v.x * v.x + v.y * v.y := add_nonneg ha hb
  have h1 := fl64_add_near _ _ ha hb h
  have hr2 : (1 : ℚ) / 2 ≤ rho ^ 2 := by unfold rho; norm_num
  have hs1 : 1 / 2 ^ 1022 ≤ fl64 (v.x * v.x) + fl64 (v.y * v.y) := by
    have h2 : (v.x * v.x + v.y * v.y) * (1 / 2) ≤ (v.x * v.x + v.y * v.y) * rho ^ 2 :=
      mul_le_mul_of_nonneg_left hr2 hT0
    have h3 := h1.1
    norm_num at h ⊢
    linarith
  have h2 := fl64_near _ (Or.inr hs1)
  have h3 := h2.trans h1
  have hS : 0 < fl64 (fl64 (v.x * v.x) + fl64 (v.y * v.y)) := by
    have h4 := h3.1
    have h5 : 0 < (v.x * v.x + v.y * v.y) * rho ^ (1 + 2) :=
      mul_pos (lt_of_lt_of_le (by norm_num) h) (rho_pow_pos _)
    linarith
  exact (sqrt64_near _ hS).trans h3

/-- A vector whose exact sum of squares is at most `2 ^ -1000` has a computed
magnitude of at most `2 ^ -300`. -/
theorem magnitude_b64_small (v : Vector2D ℚ) (h : v.x * v.x + v.y * v.y ≤ 1 / 2 ^ 1000) :
    magnitude_2d_b64 v ≤ 1 / 2 ^ 300 := by
  have ha := mul_self_nonneg v.x
  have hb := mul_self_nonneg v.y
  have h1 := fl64_error (v.x * v.x)
  have h2 := fl64_error (v.y * v.y)
  rw [abs_of_nonneg ha, abs_le] at h1
  rw [abs_of_nonneg hb, abs_le] at h2
  have hs0 : 0 ≤ fl64 (v.x * v.x) + fl64 (v.y * v.y) :=
    add_nonneg (fl64_nonneg _ ha) (fl64_nonneg _ hb)
  have hs : fl64 (v.x * v.x) + fl64 (v.y * v.y) ≤ 1 / 2 ^ 999 := by
    norm_num at h h1 h2 ⊢
    linarith [h1.2, h2.2]
  have h3 := fl64_error (fl64 (v.x * v.x) + fl64 (v.y * v.y))
  rw [abs_of_nonneg hs0, abs_le] at h3
  have hS : fl64 (fl64 (v.x * v.x) + fl64 (v.y * v.y)) ≤ 1 / 2 ^ 998 := by
    norm_num at hs h3 ⊢
    linarith [h3.2]
  show sqrt64 (fl64 (fl64 (v.x * v.x) + fl64 (v.y * v.y))) ≤ 1 / 2 ^ 300
  rcases le_or_lt (fl64 (fl64 (v.x * v.x) + fl64 (v.y * v.y))) 0 with h0 | h0
  · unfold sqrt64
    rw [if_pos h0]
    norm_num
  · have h4 := (sqrt64_near _ h0).2
    set r := sqrt64 (fl64 (fl64 (v.x * v.x) + fl64 (v.y * v.y))) with hr
    have hr0 : 0 ≤ r := sqrt64_nonneg _
    have hr2 : (1 : ℚ) / 2 ≤ rho ^ 2 := by unfold rho; norm_num
    have h5 : r * r * (1 / 2) ≤ r * r * rho ^ 2 :=
      mul_le_mul_of_nonneg_left hr2 (mul_self_nonneg r)
    have h6 : r * r ≤ (1 / 2 ^ 300) * (1 / 2 ^ 300) := by
      norm_num at hS ⊢
      linarith
    exact (mul_self_le_mul_self_iff hr0 (by norm_num)).mpr h6

theorem magnitude_b64_zero : magnitude_2d_b64 ⟨0, 0⟩ = 0 := by
  have e : fl64 0 = 0 := flt_zero 53 (-1022)
  show sqrt64 (fl64 (fl64 (0 * 0) + fl64 (0 * 0))) = 0
  rw [mul_zero, e, add_zero, e]
  unfold sqrt64
  rw [if_pos (le_refl 0)]

theorem abs_le_of_mul_self_le {z c : ℚ} (hc : 0 ≤ c) (h : z * z ≤ c * c) : |z| ≤ c := by
  rw [← abs_mul_abs_self z] at h
  exact (mul_self_le_mul_self_iff (abs_nonneg z) hc).mpr h

/-- The normalized vector has magnitude 1 up to a relative error of
`2 ^ -49`, for a vector of moderate size. -/
theorem normalize_b64_magnitude (v : Vector2D ℚ)
    (hlo : 1 / 2 ^ 600 ≤ v.x * v.x + v.y * v.y) :
    magnitude_2d_b64 v ≠ 0 ∧
    |magnitude_2d_b64 (normalize_vector_2d_b64 v) - 1| ≤ 1 / 2 ^ 49 := by
  have hT : 1 / 2 ^ 1000 ≤ v.x * v.x + v.y * v.y := le_trans (by norm_num) hlo
  have hTpos : 0 < v.x * v.x + v.y * v.y := lt_of_lt_of_le (by norm_num) hlo
  have hM := magnitude_b64_near v hT
  set M := magnitude_2d_b64 v with hMdef
  set T := v.x * v.x + v.y * v.y with hTdef
  have hM0 : 0 ≤ M := magnitude_b64_nonneg v
  have hMM : 0 < M * M := lt_of_lt_of_le (mul_pos hTpos (rho_pow_pos 5)) hM.1
  have hMne : M ≠ 0 := by
    intro h0; rw [h0] at hMM; simp at hMM
  have hMpos : 0 < M := lt_of_le_of_ne hM0 (Ne.symm hMne)
  refine ⟨hMne, ?_⟩
  rw [normalize_b64_of_ne v hMne]
  have hB : Near 5 (T / (M * M)) 1 := by
    have := hM.symm.div_const (M * M) hMM
    rwa [div_self hMM.ne'] at this
  have hBe : (v.x / M) * (v.x / M) + (v.y / M) * (v.y / M) = T / (M * M) := by
    rw [hTdef]; field_simp
  have hr5 : (1 : ℚ) / 2 ≤ rho ^ 5 := by unfold rho; norm_num
  have hB1 : 1 / 2 ≤ T / (M * M) := by
    have := hB.1; linarith
  have hB2 : T / (M * M) ≤ 2 := by
    have h1 := hB.2
    have h2 : T / (M * M) * (1 / 2) ≤ T / (M * M) * rho ^ 5 :=
      mul_le_mul_of_nonneg_left hr5 (by linarith)
    linarith
  have hz1 : |v.x / M| ≤ 2 ^ 302 := by
    have h1 : (v.x / M) * (v.x / M) ≤ 2 * 2 := by
      have := mul_self_nonneg (v.y / M)
      linarith
    exact (abs_le_of_mul_self_le (by norm_num) h1).trans (by norm_num)
  have hz2 : |v.y / M| ≤ 2 ^ 302 := by
    have h1 : (v.y / M) * (v.y / M) ≤ 2 * 2 := by
      have := mul_self_nonneg (v.x / M)
      linarith
    exact (abs_le_of_mul_self_le (by norm_num) h1).trans (by norm_num)
  have hA := fl64_sq_add_near (v.x / M) (v.y / M) hz1 hz2
    (by rw [hBe]; exact le_trans (by norm_num) hB1)
  rw [hBe] at hA
  have hA1 := hA.trans hB
  have hr8 : (1 : ℚ) / 2 ≤ rho ^ (3 + 5) := by unfold rho; norm_num
  have hA2 : 1 / 2 ^ 1000 ≤ fl64 (v.x / M) * fl64 (v.x / M) + fl64 (v.y / M) * fl64 (v.y / M) := by
    have := hA1.1
    rw [one_mul] at this
    exact le_trans (le_trans (by norm_num) hr8) this
  have hR := (magnitude_b64_near ⟨fl64 (v.x / M), fl64 (v.y / M)⟩ hA2).trans hA1
  have hR2 : Near (2 * 7)
      (magnitude_2d_b64 ⟨fl64 (v.x / M), fl64 (v.y / M)⟩
        * magnitude_2d_b64 ⟨fl64 (v.x / M), fl64 (v.y / M)⟩) (1 * 1) := by
    rw [mul_one]
    exact hR.mono zero_le_one (by norm_num)
  have hR3 := hR2.of_sq (magnitude_b64_nonneg _) zero_le_one
  have := hR3.abs_sub_le zero_le_one (by norm_num)
  simpa using this

/-- The clamped vector has magnitude `max` up to a relative error of
`2 ^ -49`, for a vector and a bound of moderate size. -/
theorem clamp_b64_magnitude (v : Vector2D ℚ) (max : ℚ) (hx : |v.x| ≤ 2 ^ 300)
    (hy : |v.y| ≤ 2 ^ 300) (hm1 : 1 / 2 ^ 300 ≤ max) (_ : max ≤ 2 ^ 300)
    (hgt : magnitude_2d_b64 v > max) :
    |magnitude_2d_b64 (clamp_magnitude_vector_2d_b64 v max) - max| ≤ max / 2 ^ 49 := by
  have hmax : 0 < max := lt_of_lt_of_le (by norm_num) hm1
  have hT : 1 / 2 ^ 1000 ≤ v.x * v.x + v.y * v.y := by
    by_contra hc
    push_neg at hc
    have := magnitude_b64_small v hc.le
    linarith
  have hTpos : 0 < v.x * v.x + v.y * v.y := lt_of_lt_of_le (by norm_num) hT
  have hM := magnitude_b64_near v hT
  obtain ⟨hs0, hs1⟩ := clamp_b64_scale v max hmax.le hgt
  rw [clamp_b64_of_gt v max hgt]
  set M := magnitude_2d_b64 v with hMdef
  set T := v.x * v.x + v.y * v.y with hTdef
  set s := fl64 (max / M) with hsdef
  have hMpos : 0 < M := lt_trans hmax hgt
  have hMM : 0 < M * M := mul_pos hMpos hMpos
  have hr5 : (1 : ℚ) / 2 ≤ rho ^ 5 := by unfold rho; norm_num
  have hTle : T ≤ 2 * (2 ^ 300 * 2 ^ 300) := by
    have h1 : v.x * v.x ≤ 2 ^ 300 * 2 ^ 300 := by
      rw [← abs_mul_abs_self]
      exact mul_le_mul hx hx (abs_nonneg _) (by norm_num)
    have h2 : v.y * v.y ≤ 2 ^ 300 * 2 ^ 300 := by
      rw [← abs_mul_abs_self]
      exact mul_le_mul hy hy (abs_nonneg _) (by norm_num)
    rw [hTdef]; linarith
  have hMle : M ≤ 2 ^ 301 := by
    have h1 := hM.2
    have h2 : M * M * (1 / 2) ≤ M * M * rho ^ 5 := mul_le_mul_of_nonneg_left hr5 hMM.le
    have h3 : M * M ≤ 2 ^ 301 * 2 ^ 301 := by
      norm_num at hTle ⊢
      linarith
    exact (mul_self_le_mul_self_iff hMpos.le (by norm_num)).mpr h3
  have hq : 1 / 2 ^ 1022 ≤ max / M := by
    rw [le_div_iff₀ hMpos]
    have : (1 : ℚ) / 2 ^ 1022 * M ≤ 1 / 2 ^ 1022 * 2 ^ 301 :=
      mul_le_mul_of_nonneg_left hMle (by norm_num)
    have h2 : (1 : ℚ) / 2 ^ 1022 * 2 ^ 301 ≤ 1 / 2 ^ 300 := by norm_num
    linarith
  have hs : Near 1 s (max / M) := fl64_near _ (Or.inr hq)
  have hsM : Near 1 (s * M) max := by
    have := hs.mul_const M hMpos.le
    rwa [div_mul_cancel₀ _ hMpos.ne'] at this
  have hsM2 : Near 2 (s * M * (s * M)) (max * max) := hsM.mul hsM hmax.le hmax.le
  have hB0 : Near 5 (T / (M * M)) 1 := by
    have := hM.symm.div_const (M * M) hMM
    rwa [div_self hMM.ne'] at this
  have hB : Near 7 (T / (M * M) * (s * M * (s * M))) (1 * (max * max)) :=
    hB0.mul hsM2 zero_le_one (mul_nonneg hmax.le hmax.le)
  have hBe : (v.x * s) * (v.x * s) + (v.y * s) * (v.y * s)
      = T / (M * M) * (s * M * (s * M)) := by
    rw [hTdef]; field_simp; ring
  rw [one_mul, ← hBe] at hB
  have hmm : 1 / 2 ^ 600 ≤ max * max := by
    have : (1 / 2 ^ 300 : ℚ) * (1 / 2 ^ 300) ≤ max * max :=
      mul_le_mul hm1 hm1 (by norm_num) hmax.le
    exact le_trans (by norm_num) this
  have hr7 : (1 : ℚ) / 2 ≤ rho ^ 7 := by unfold rho; norm_num
  have hB1 : 1 / 2 ^ 700 ≤ (v.x * s) * (v.x * s) + (v.y * s) * (v.y * s) := by
    have h1 := hB.1
    have h2 : max * max * (1 / 2) ≤ max * max * rho ^ 7 :=
      mul_le_mul_of_nonneg_left hr7 (mul_nonneg hmax.le hmax.le)
    norm_num at hmm ⊢
    linarith
  have hz1 : |v.x * s| ≤ 2 ^ 302 := by
    rw [abs_mul, abs_of_nonneg hs0]
    calc |v.x| * s ≤ 2 ^ 300 * 1 := mul_le_mul hx hs1 hs0 (by norm_num)
      _ ≤ 2 ^ 302 := by norm_num
  have hz2 : |v.y * s| ≤ 2 ^ 302 := by
    rw [abs_mul, abs_of_nonneg hs0]
    calc |v.y| * s ≤ 2 ^ 300 * 1 := mul_le_mul hy hs1 hs0 (by norm_num)
      _ ≤ 2 ^ 302 := by norm_num
  have hA : Near 10 (fl64 (v.x * s) * fl64 (v.x * s) + fl64 (v.y * s) * fl64 (v.y * s))
      (max * max) := (fl64_sq_add_near (v.x * s) (v.y * s) hz1 hz2 hB1).trans hB
  have hr10 : (1 : ℚ) / 2 ≤ rho ^ 10 := by unfold rho; norm_num
  have hA2 : 1 / 2 ^ 1000
      ≤ fl64 (v.x * s) * fl64 (v.x * s) + fl64 (v.y * s) * fl64 (v.y * s) := by
    have h1 := hA.1
    have h2 : max * max * (1 / 2) ≤ max * max * rho ^ 10 :=
      mul_le_mul_of_nonneg_left hr10 (mul_nonneg hmax.le hmax.le)
    norm_num at hmm ⊢
    linarith
  have hR := (magnitude_b64_near ⟨fl64 (v.x * s), fl64 (v.y * s)⟩ hA2).trans hA
  have hR2 : Near (2 * 8)
      (magnitude_2d_b64 ⟨fl64 (v.x * s), fl64 (v.y * s)⟩
        * magnitude_2d_b64 ⟨fl64 (v.x * s), fl64 (v.y * s)⟩) (max * max) :=
    hR.mono (mul_nonneg hmax.le hmax.le) (by norm_num)
  exact (hR2.of_sq (magnitude_b64_nonneg _) hmax.le).abs_sub_le hmax.le (le_refl 8)

theorem normalize_step_01 : fl64 (1 * 1) = 1 := by
  rw [show (1 * 1 : ℚ) = 1 by norm_num]
  exact (flt_eval_pos 53 (-1022) 0 _ 4503599627370496
    (by norm_num) (by norm_num) (by norm_num) (by norm_num) (by norm_num)).trans
    (by norm_num)

theorem normalize_step_02 : fl64 (1 + 1) = 2 := by
  rw [show (1 + 1 : ℚ) = 2 by norm_num]
  exact (flt_eval_pos 53 (-1022) 1 _ 4503599627370496
    (by norm_num) (by norm_num) (by norm_num) (by norm_num) (by norm_num)).trans
    (by norm_num)

theorem normalize_step_03 : sqrt64 2 = (6369051672525773 / 4503599627370496) :=
  (sqrt64_eval 2 0 6369051672525773
    (by norm_num) (by norm_num) (by norm_num) (by norm_num) (by norm_num)).trans
    (by norm_num)

theorem normalize_step_04 :
    fl64 (1 / (6369051672525773 / 4503599627370496))
      = (1592262918131443 / 2251799813685248) := by
  rw [show (1 / (6369051672525773 / 4503599627370496) : ℚ)
    = (4503599627370496 / 6369051672525773) by norm_num]
  exact (flt_eval_pos 53 (-1022) (-1) _ 6369051672525772
    (by norm_num) (by norm_num) (by norm_num) (by norm_num) (by norm_num)).trans
    (by norm_num)

theorem normalize_step_05 :
    fl64 ((1592262918131443 / 2251799813685248) * (1592262918131443 / 2251799813685248))
      = (4503599627370495 / 9007199254740992) := by
  rw [show ((1592262918131443 / 2251799813685248) * (1592262918131443 / 2251799813685248) : ℚ)
    = (2535301200456458353478625262249 / 5070602400912917605986812821504) by norm_num]
  exact (flt_eval_pos 53 (-1022) (-2) _ 9007199254740990
    (by norm_num) (by norm_num) (by norm_num) (by norm_num) (by norm_num)).trans
    (by norm_num)

theorem normalize_step_06 :
    fl64 ((4503599627370495 / 9007199254740992) + (4503599627370495 / 9007199254740992))
      = (4503599627370495 / 4503599627370496) := by
  rw [show ((4503599627370495 / 9007199254740992) + (4503599627370495 / 9007199254740992) : ℚ)
    = (4503599627370495 / 4503599627370496) by norm_num]
  exact (flt_eval_pos 53 (-1022) (-1) _ 9007199254740990
    (by norm_num) (by norm_num) (by norm_num) (by norm_num) (by norm_num)).trans
    (by norm_num)

theorem normalize_step_07 :
    sqrt64 (4503599627370495 / 4503599627370496)
      = (9007199254740991 / 9007199254740992) :=
  (sqrt64_eval (4503599627370495 / 4503599627370496) (-1) 9007199254740991
    (by norm_num) (by norm_num) (by norm_num) (by norm_num) (by norm_num)).trans
    (by norm_num)

theorem magnitude_b64_one_one :
    magnitude_2d_b64
        ⟨1, 1⟩
      = (6369051672525773 / 4503599627370496) := by
  unfold magnitude_2d_b64
  dsimp only
  rw [normalize_step_01, normalize_step_02, normalize_step_03]

theorem normalize_b64_one_one :
    normalize_vector_2d_b64 ⟨1, 1⟩
      = ⟨(1592262918131443 / 2251799813685248),
         (1592262918131443 / 2251799813685248)⟩ := by
  rw [normalize_b64_of_ne _ (by rw [magnitude_b64_one_one]; norm_num), magnitude_b64_one_one]
  dsimp only
  rw [normalize_step_04]

theorem magnitude_b64_unit_diagonal :
    magnitude_2d_b64
        ⟨(1592262918131443 / 2251799813685248),
         (1592262918131443 / 2251799813685248)⟩
      = (9007199254740991 / 9007199254740992) := by
  unfold magnitude_2d_b64
  dsimp only
  rw [normalize_step_05, normalize_step_06, normalize_step_07]

theorem clamp_step_01 : fl64 (1 * 1) = 1 := by
  rw [show (1 * 1 : ℚ) = 1 by norm_num]
  exact (flt_eval_pos 53 (-1022) 0 _ 4503599627370496
    (by norm_num) (by norm_num) (by norm_num) (by norm_num) (by norm_num)).trans
    (by norm_num)

theorem clamp_step_02 : fl64 (2 * 2) = 4 := by
  rw [show (2 * 2 : ℚ) = 4 by norm_num]
  exact (flt_eval_pos 53 (-1022) 2 _ 4503599627370496
    (by norm_num) (by norm_num) (by norm_num) (by norm_num) (by norm_num)).trans
    (by norm_num)

theorem clamp_step_03 : fl64 (1 + 4) = 5 := by
  rw [show (1 + 4 : ℚ) = 5 by norm_num]
  exact (flt_eval_pos 53 (-1022) 2 _ 5629499534213120
    (by norm_num) (by norm_num) (by norm_num) (by norm_num) (by norm_num)).trans
    (by norm_num)

theorem clamp_step_04 : sqrt64 5 = (629397181890197 / 281474976710656) :=
  (sqrt64_eval 5 1 5035177455121576
    (by norm_num) (by norm_num) (by norm_num) (by norm_num) (by norm_num)).trans
    (by norm_num)

theorem clamp_step_05 :
    fl64 (2 / (629397181890197 / 281474976710656))
      = (8056283928194521 / 9007199254740992) := by
  rw [show (2 / (629397181890197 / 281474976710656) : ℚ)
    = (562949953421312 / 629397181890197) by norm_num]
  exact (flt_eval_pos 53 (-1022) (-1) _ 8056283928194521
    (by norm_num) (by norm_num) (by norm_num) (by norm_num) (by norm_num)).trans
    (by norm_num)

theorem clamp_step_06 :
    fl64 (1 * (8056283928194521 / 9007199254740992))
      = (8056283928194521 / 9007199254740992) := by
  rw [show (1 * (8056283928194521 / 9007199254740992) : ℚ)
    = (8056283928194521 / 9007199254740992) by norm_num]
  exact (flt_eval_pos 53 (-1022) (-1) _ 8056283928194521
    (by norm_num) (by norm_num) (by norm_num) (by norm_num) (by norm_num)).trans
    (by norm_num)

theorem clamp_step_07 :
    fl64 (2 * (8056283928194521 / 9007199254740992))
      = (8056283928194521 / 4503599627370496) := by
  rw [show (2 * (8056283928194521 / 9007199254740992) : ℚ)
    = (8056283928194521 / 4503599627370496) by norm_num]
  exact (flt_eval_pos 53 (-1022) 0 _ 8056283928194521
    (by norm_num) (by norm_num) (by norm_num) (by norm_num) (by norm_num)).trans
    (by norm_num)

theorem clamp_step_08 :
    fl64 ((8056283928194521 / 9007199254740992) * (8056283928194521 / 9007199254740992))
      = (7205759403792793 / 9007199254740992) := by
  rw [show ((8056283928194521 / 9007199254740992) * (8056283928194521 / 9007199254740992) : ℚ)
    = (64903710731685341995954814419441 / 81129638414606681695789005144064) by norm_num]
  exact (flt_eval_pos 53 (-1022) (-1) _ 7205759403792793
    (by norm_num) (by norm_num) (by norm_num) (by norm_num) (by norm_num)).trans
    (by norm_num)

theorem clamp_step_09 :
    fl64 ((8056283928194521 / 4503599627370496) * (8056283928194521 / 4503599627370496))
      = (7205759403792793 / 2251799813685248) := by
  rw [show ((8056283928194521 / 4503599627370496) * (8056283928194521 / 4503599627370496) : ℚ)
    = (64903710731685341995954814419441 / 20282409603651670423947251286016) by norm_num]
  exact (flt_eval_pos 53 (-1022) 1 _ 7205759403792793
    (by norm_num) (by norm_num) (by norm_num) (by norm_num) (by norm_num)).trans
    (by norm_num)

theorem clamp_step_10 :
    fl64 ((7205759403792793 / 9007199254740992) + (7205759403792793 / 2251799813685248))
      = (9007199254740991 / 2251799813685248) := by
  rw [show ((7205759403792793 / 9007199254740992) + (7205759403792793 / 2251799813685248) : ℚ)
    = (36028797018963965 / 9007199254740992) by norm_num]
  exact (flt_eval_pos 53 (-1022) 1 _ 9007199254740991
    (by norm_num) (by norm_num) (by norm_num) (by norm_num) (by norm_num)).trans
    (by norm_num)

theorem clamp_step_11 :
    sqrt64 (9007199254740991 / 2251799813685248)
      = (9007199254740991 / 4503599627370496) :=
  (sqrt64_eval (9007199254740991 / 2251799813685248) 0 9007199254740991
    (by norm_num) (by norm_num) (by norm_num) (by norm_num) (by norm_num)).trans
    (by norm_num)

theorem magnitude_b64_one_two : magnitude_2d_b64 ⟨1, 2⟩ = (629397181890197 / 281474976710656) := by
  unfold magnitude_2d_b64
  dsimp only
  rw [clamp_step_01, clamp_step_02, clamp_step_03, clamp_step_04]

theorem clamp_b64_one_two :
    clamp_magnitude_vector_2d_b64 ⟨1, 2⟩ 2
      = ⟨(8056283928194521 / 9007199254740992),
         (8056283928194521 / 4503599627370496)⟩ := by
  rw [clamp_b64_of_gt _ _ (by rw [magnitude_b64_one_two]; norm_num), magnitude_b64_one_two]
  dsimp only
  rw [clamp_step_05, clamp_step_06, clamp_step_07]

theorem magnitude_b64_clamp_one_two :
    magnitude_2d_b64
        ⟨(8056283928194521 / 9007199254740992),
         (8056283928194521 / 4503599627370496)⟩
      = (9007199254740991 / 4503599627370496) := by
  unfold magnitude_2d_b64
  dsimp only
  rw [clamp_step_08, clamp_step_09, clamp_step_10, clamp_step_11]

theorem three_four_step_01 : fl64 (3 * 3) = 9 := by
  rw [show (3 * 3 : ℚ) = 9 by norm_num]
  exact (flt_eval_pos 53 (-1022) 3 _ 5066549580791808
    (by norm_num) (by norm_num) (by norm_num) (by norm_num) (by norm_num)).trans
    (by norm_num)

theorem three_four_step_02 : fl64 (4 * 4) = 16 := by
  rw [show (4 * 4 : ℚ) = 16 by norm_num]
  exact (flt_eval_pos 53 (-1022) 4 _ 4503599627370496
    (by norm_num) (by norm_num) (by norm_num) (by norm_num) (by norm_num)).trans
    (by norm_num)

theorem three_four_step_03 : fl64 (9 + 16) = 25 := by
  rw [show (9 + 16 : ℚ) = 25 by norm_num]
  exact (flt_eval_pos 53 (-1022) 4 _ 7036874417766400
    (by norm_num) (by norm_num) (by norm_num) (by norm_num) (by norm_num)).trans
    (by norm_num)

theorem three_four_step_04 : sqrt64 25 = 5 :=
  (sqrt64_eval 25 2 5629499534213120
    (by norm_num) (by norm_num) (by norm_num) (by norm_num) (by norm_num)).trans
    (by norm_num)

theorem magnitude_b64_three_four : magnitude_2d_b64 ⟨3, 4⟩ = 5 := by
  unfold magnitude_2d_b64
  dsimp only
  rw [three_four_step_01, three_four_step_02, three_four_step_03, three_four_step_04]

/-! ## `normalize` and `clampMagnitude` in `double` arithmetic -/

/-- C15, counterexample.  In `double` arithmetic the vector `(1, 1)` has the
non-zero magnitude `1.4142135623730951`, and its normalization
`(0.7071067811865475, 0.7071067811865475)` has magnitude
`1 - 2 ^ -53 = 0.9999999999999999`, not 1. -/
theorem normalize_magnitude_not_one :
    magnitude_2d_b64 ⟨1, 1⟩ ≠ 0 ∧
    magnitude_2d_b64 (normalize_vector_2d_b64 ⟨1, 1⟩)
      = 9007199254740991 / 9007199254740992 ∧
    magnitude_2d_b64 (normalize_vector_2d_b64 ⟨1, 1⟩) ≠ 1 := by
  have h : magnitude_2d_b64 (normalize_vector_2d_b64 ⟨1, 1⟩)
      = 9007199254740991 / 9007199254740992 := by
    rw [normalize_b64_one_one, magnitude_b64_unit_diagonal]
  refine ⟨?_, h, ?_⟩
  · rw [magnitude_b64_one_one]; norm_num
  · rw [h]; norm_num

/-- C15 as amended (normalize).  In the arithmetic of the code, `normalize` of
the zero vector is the zero vector; for every vector `v` with components of
absolute value at most `2 ^ 300` (where nothing overflows; the rounding model
does not represent overflow): if `magnitude(v) ≠ 0` the magnitude is positive,
`normalize(v)` is `v` divided componentwise by `magnitude(v)`, each quotient
rounded to `double`, and every component of the result has the sign of the
component of `v` (or is zero); and if `x * x + y * y ≥ 2 ^ -600` the magnitude
is not zero and the result has magnitude 1 up to rounding:
`|magnitude(normalize(v)) - 1| ≤ 2 ^ -49`. -/
theorem normalize_spec (v : Vector2D ℚ) (_ : |v.x| ≤ 2 ^ 300) (_ : |v.y| ≤ 2 ^ 300) :
    normalize_vector_2d_b64 ⟨0, 0⟩ = ⟨0, 0⟩ ∧
    (magnitude_2d_b64 v ≠ 0 →
      0 < magnitude_2d_b64 v ∧
      normalize_vector_2d_b64 v
        = ⟨fl64 (v.x / magnitude_2d_b64 v), fl64 (v.y / magnitude_2d_b64 v)⟩ ∧
      (0 ≤ v.x → 0 ≤ (normalize_vector_2d_b64 v).x) ∧
      (v.x ≤ 0 → (normalize_vector_2d_b64 v).x ≤ 0) ∧
      (0 ≤ v.y → 0 ≤ (normalize_vector_2d_b64 v).y) ∧
      (v.y ≤ 0 → (normalize_vector_2d_b64 v).y ≤ 0)) ∧
    (1 / 2 ^ 600 ≤ v.x * v.x + v.y * v.y →
      magnitude_2d_b64 v ≠ 0 ∧
      |magnitude_2d_b64 (normalize_vector_2d_b64 v) - 1| ≤ 1 / 2 ^ 49) := by
  refine ⟨?_, ?_, fun hlo => normalize_b64_magnitude v hlo⟩
  · unfold normalize_vector_2d_b64
    by_cases h : magnitude_2d_b64 (⟨0, 0⟩ : Vector2D ℚ) = 0
    · simp [h]
    · simp only [h, if_false, zero_div]
      unfold fl64
      rw [flt_zero]
  · intro hne
    have hpos : 0 < magnitude_2d_b64 v :=
      lt_of_le_of_ne (magnitude_b64_nonneg v) (Ne.symm hne)
    have hn := normalize_b64_of_ne v hne
    refine ⟨hpos, hn, ?_, ?_, ?_, ?_⟩
    · intro h0; rw [hn]; exact fl64_nonneg _ (div_nonneg h0 hpos.le)
    · intro h0; rw [hn]; exact fl64_nonpos _ (div_nonpos_of_nonpos_of_nonneg h0 hpos.le)
    · intro h0; rw [hn]; exact fl64_nonneg _ (div_nonneg h0 hpos.le)
    · intro h0; rw [hn]; exact fl64_nonpos _ (div_nonpos_of_nonpos_of_nonneg h0 hpos.le)

/-- C16, counterexample.  In `double` arithmetic the vector `(1, 2)` has
magnitude `2.23606797749979 > 2`, and clamped to 2 it has magnitude
`2 - 2 ^ -52 = 1.9999999999999998`: not 2, and not the minimum of its magnitude
and 2. -/
theorem clamp_magnitude_not_max :
    magnitude_2d_b64 ⟨1, 2⟩ > 2 ∧
    magnitude_2d_b64 (clamp_magnitude_vector_2d_b64 ⟨1, 2⟩ 2)
      = 9007199254740991 / 4503599627370496 ∧
    magnitude_2d_b64 (clamp_magnitude_vector_2d_b64 ⟨1, 2⟩ 2) ≠ 2 ∧
    magnitude_2d_b64 (clamp_magnitude_vector_2d_b64 ⟨1, 2⟩ 2)
      ≠ min (magnitude_2d_b64 ⟨1, 2⟩) 2 := by
  have h : magnitude_2d_b64 (clamp_magnitude_vector_2d_b64 ⟨1, 2⟩ 2)
      = 9007199254740991 / 4503599627370496 := by
    rw [clamp_b64_one_two, magnitude_b64_clamp_one_two]
  have hgt : magnitude_2d_b64 ⟨1, 2⟩ > 2 := by
    rw [magnitude_b64_one_two]; norm_num
  refine ⟨hgt, h, ?_, ?_⟩
  · rw [h]; norm_num
  · rw [h, min_eq_right hgt.le]; norm_num

/-- C16 as amended (clampMagnitude).  In the arithmetic of the code, for every
vector `v` with components of absolute value at most `2 ^ 300` (where nothing
overflows; the rounding model does not represent overflow) and every
`max ≥ 0`: if `magnitude(v) > max` the result is `v` with each component
multiplied by the scale `max / magnitude(v)`, where the scale and both products
are rounded to `double`; the scale lies in `[0, 1]` and every component of the
result has the sign of the component of `v` (or is zero); otherwise the result
is `v` unchanged, and then its magnitude is `min(magnitude(v), max)`; for
`max = 0` the result has magnitude 0; and for `2 ^ -300 ≤ max ≤ 2 ^ 300` the
magnitude of the result is `min(magnitude(v), max)` up to rounding: the
difference is at most `max * 2 ^ -49`. -/
theorem clamp_spec (v : Vector2D ℚ) (max : ℚ) (hmax : 0 ≤ max) (hx : |v.x| ≤ 2 ^ 300)
    (hy : |v.y| ≤ 2 ^ 300) :
    (magnitude_2d_b64 v > max →
      clamp_magnitude_vector_2d_b64 v max
        = ⟨fl64 (v.x * fl64 (max / magnitude_2d_b64 v)),
           fl64 (v.y * fl64 (max / magnitude_2d_b64 v))⟩ ∧
      0 ≤ fl64 (max / magnitude_2d_b64 v) ∧ fl64 (max / magnitude_2d_b64 v) ≤ 1 ∧
      (0 ≤ v.x → 0 ≤ (clamp_magnitude_vector_2d_b64 v max).x) ∧
      (v.x ≤ 0 → (clamp_magnitude_vector_2d_b64 v max).x ≤ 0) ∧
      (0 ≤ v.y → 0 ≤ (clamp_magnitude_vector_2d_b64 v max).y) ∧
      (v.y ≤ 0 → (clamp_magnitude_vector_2d_b64 v max).y ≤ 0)) ∧
    (¬ magnitude_2d_b64 v > max →
      clamp_magnitude_vector_2d_b64 v max = v ∧
      magnitude_2d_b64 (clamp_magnitude_vector_2d_b64 v max)
        = min (magnitude_2d_b64 v) max) ∧
    (max = 0 → magnitude_2d_b64 (clamp_magnitude_vector_2d_b64 v max) = 0) ∧
    (1 / 2 ^ 300 ≤ max → max ≤ 2 ^ 300 →
      |magnitude_2d_b64 (clamp_magnitude_vector_2d_b64 v max)
        - min (magnitude_2d_b64 v) max| ≤ max / 2 ^ 49) := by
  refine ⟨?_, ?_, ?_, ?_⟩
  · intro hgt
    have he := clamp_b64_of_gt v max hgt
    obtain ⟨hs0, hs1⟩ := clamp_b64_scale v max hmax hgt
    refine ⟨he, hs0, hs1, ?_, ?_, ?_, ?_⟩
    · intro h0; rw [he]; exact fl64_nonneg _ (mul_nonneg h0 hs0)
    · intro h0; rw [he]; exact fl64_nonpos _ (mul_nonpos_of_nonpos_of_nonneg h0 hs0)
    · intro h0; rw [he]; exact fl64_nonneg _ (mul_nonneg h0 hs0)
    · intro h0; rw [he]; exact fl64_nonpos _ (mul_nonpos_of_nonpos_of_nonneg h0 hs0)
  · intro hle
    have he := clamp_b64_of_not_gt v max hle
    exact ⟨he, by rw [he, min_eq_left (not_lt.mp hle)]⟩
  · intro h0
    by_cases hgt : magnitude_2d_b64 v > max
    · rw [clamp_b64_of_gt v max hgt, h0, zero_div]
      have e : fl64 0 = 0 := flt_zero 53 (-1022)
      rw [e, mul_zero, mul_zero, e]
      exact magnitude_b64_zero
    · rw [clamp_b64_of_not_gt v max hgt]
      rw [h0] at hgt
      exact le_antisymm (not_lt.mp hgt) (magnitude_b64_nonneg v)
  · intro hm1 hm2
    by_cases hgt : magnitude_2d_b64 v > max
    · rw [min_eq_right hgt.le]
      exact clamp_b64_magnitude v max hx hy hm1 hm2 hgt
    · rw [clamp_b64_of_not_gt v max hgt, min_eq_left (not_lt.mp hgt), sub_self, abs_zero]
      exact div_nonneg hmax (by norm_num)

/-- Witness for `normalize_spec`: the vector `(3, 4)`, of magnitude 5. -/
theorem normalize_spec_witness :
    (|(3 : ℚ)| ≤ 2 ^ 300 ∧ |(4 : ℚ)| ≤ 2 ^ 300) ∧
    magnitude_2d_b64 ⟨3, 4⟩ ≠ 0 ∧
    normalize_vector_2d_b64 ⟨3, 4⟩
      = ⟨fl64 (3 / magnitude_2d_b64 ⟨3, 4⟩), fl64 (4 / magnitude_2d_b64 ⟨3, 4⟩)⟩ ∧
    (1 : ℚ) / 2 ^ 600 ≤ 3 * 3 + 4 * 4 ∧
    |magnitude_2d_b64 (normalize_vector_2d_b64 ⟨3, 4⟩) - 1| ≤ 1 / 2 ^ 49 :=
  ⟨⟨by norm_num [abs_of_pos], by norm_num [abs_of_pos]⟩,
   by rw [magnitude_b64_three_four]; norm_num,
   ((normalize_spec ⟨3, 4⟩ (by norm_num [abs_of_pos]) (by norm_num [abs_of_pos])).2.1
     (by rw [magnitude_b64_three_four]; norm_num)).2.1,
   by norm_num,
   ((normalize_spec ⟨3, 4⟩ (by norm_num [abs_of_pos]) (by norm_num [abs_of_pos])).2.2
     (by norm_num)).2⟩

/-- Witness for `clamp_spec`: the vector `(3, 4)`, of magnitude 5, clamped
to 2. -/
theorem clamp_spec_witness :
    ((0 : ℚ) ≤ 2 ∧ |(3 : ℚ)| ≤ 2 ^ 300 ∧ |(4 : ℚ)| ≤ 2 ^ 300) ∧
    magnitude_2d_b64 ⟨3, 4⟩ > 2 ∧
    (0 ≤ fl64 (2 / magnitude_2d_b64 ⟨3, 4⟩) ∧ fl64 (2 / magnitude_2d_b64 ⟨3, 4⟩) ≤ 1) ∧
    ((1 : ℚ) / 2 ^ 300 ≤ 2 ∧ (2 : ℚ) ≤ 2 ^ 300) ∧
    |magnitude_2d_b64 (clamp_magnitude_vector_2d_b64 ⟨3, 4⟩ 2)
      - min (magnitude_2d_b64 ⟨3, 4⟩) 2| ≤ 2 / 2 ^ 49 :=
  ⟨⟨by norm_num, by norm_num [abs_of_pos], by norm_num [abs_of_pos]⟩,
   by rw [magnitude_b64_three_four]; norm_num,
   ⟨((clamp_spec ⟨3, 4⟩ 2 (by norm_num) (by norm_num [abs_of_pos])
        (by norm_num [abs_of_pos])).1 (by rw [magnitude_b64_three_four]; norm_num)).2.1,
    ((clamp_spec ⟨3, 4⟩ 2 (by norm_num) (by norm_num [abs_of_pos])
        (by norm_num [abs_of_pos])).1 (by rw [magnitude_b64_three_four]; norm_num)).2.2.1⟩,
   ⟨by norm_num, by norm_num⟩,
   (clamp_spec ⟨3, 4⟩ 2 (by norm_num) (by norm_num [abs_of_pos])
     (by norm_num [abs_of_pos])).2.2.2 (by norm_num) (by norm_num)⟩

/-! ## Wraparound, speed limit and end-of-tick position -/

section Motion

variable {K : Type} [LinearOrderedField K] [FloorRing K]

omit [FloorRing K] in
/-- C13 (wraparound).  Before the velocity is added, a coordinate `x < 0` is
set to 799, a coordinate `x ≥ 800` is set to 0 and a coordinate with
`0 ≤ x < 800` is unchanged (likewise `y` with 600); so the wrapped coordinate
lies in `[0, dimension)`, wrapping a second time changes nothing, and the
position after the integrator is the once-wrapped position plus the new
velocity. -/
theorem wraparound_spec (sq : K → K) (ant : Ant K) (c : K) :
    ((c < 0 → wrapCoord c SCREEN_WIDTH = 799) ∧
      (800 ≤ c → wrapCoord c SCREEN_WIDTH = 0) ∧
      (0 ≤ c → c < 800 → wrapCoord c SCREEN_WIDTH = c) ∧
      (0 ≤ wrapCoord c SCREEN_WIDTH ∧ wrapCoord c SCREEN_WIDTH < 800) ∧
      wrapCoord (wrapCoord c SCREEN_WIDTH) SCREEN_WIDTH = wrapCoord c SCREEN_WIDTH) ∧
    ((c < 0 → wrapCoord c SCREEN_HEIGHT = 599) ∧
      (600 ≤ c → wrapCoord c SCREEN_HEIGHT = 0) ∧
      (0 ≤ c → c < 600 → wrapCoord c SCREEN_HEIGHT = c) ∧
      (0 ≤ wrapCoord c SCREEN_HEIGHT ∧ wrapCoord c SCREEN_HEIGHT < 600) ∧
      wrapCoord (wrapCoord c SCREEN_HEIGHT) SCREEN_HEIGHT = wrapCoord c SCREEN_HEIGHT) ∧
    (integrate sq ant).position.x
      = wrapCoord ant.position.x SCREEN_WIDTH + (integrate sq ant).velocity.x ∧
    (integrate sq ant).position.y
      = wrapCoord ant.position.y SCREEN_HEIGHT + (integrate sq ant).velocity.y := by
  have key : ∀ (dim : ℤ), 1 ≤ dim → ∀ c : K,
      (c < 0 → wrapCoord c dim = (dim : K) - 1) ∧
      ((dim : K) ≤ c → wrapCoord c dim = 0) ∧
      (0 ≤ c → c < (dim : K) → wrapCoord c dim = c) := by
    intro dim hdim c
    have hd : (1 : K) ≤ (dim : K) := by exact_mod_cast hdim
    refine ⟨?_, ?_, ?_⟩
    · intro h
      have h1 : ¬ ((dim : K) - 1 ≥ (dim : K)) := by intro h2; linarith
      simp [wrapCoord, h, h1]
    · intro h
      have h0 : ¬ c < 0 := by intro h2; linarith
      simp [wrapCoord, h0, h]
    · intro h0 h1
      simp [wrapCoord, not_lt.mpr h0, not_le.mpr h1]
  have idem : ∀ (dim : ℤ), 1 ≤ dim → wrapCoord (wrapCoord c dim) dim = wrapCoord c dim := by
    intro dim hdim
    obtain ⟨h0, h1⟩ := wrapCoord_range c dim hdim
    exact (key dim hdim (wrapCoord c dim)).2.2 h0 h1
  obtain ⟨a1, a2, a3⟩ := key SCREEN_WIDTH (by norm_num) c
  obtain ⟨b1, b2, b3⟩ := key SCREEN_HEIGHT (by norm_num) c
  have ra := wrapCoord_range c SCREEN_WIDTH (by norm_num)
  have rb := wrapCoord_range c SCREEN_HEIGHT (by norm_num)
  refine ⟨⟨?_, ?_, ?_, ?_, idem SCREEN_WIDTH (by norm_num)⟩,
    ⟨?_, ?_, ?_, ?_, idem SCREEN_HEIGHT (by norm_num)⟩, rfl, rfl⟩
  · intro h; rw [a1 h]; norm_num
  · intro h; exact a2 (by push_cast; exact h)
  · intro h0 h1; exact a3 h0 (by push_cast; exact h1)
  · push_cast at ra; exact ra
  · intro h; rw [b1 h]; norm_num
  · intro h; exact b2 (by push_cast; exact h)
  · intro h0 h1; exact b3 h0 (by push_cast; exact h1)
  · push_cast at rb; exact rb

theorem toInt_bounds (v : K) (lo hi : ℤ) (hlo : lo ≤ 0) (hhi : 0 ≤ hi)
    (h1 : (lo : K) ≤ v) (h2 : v < (hi : K) + 1) : lo ≤ toInt v ∧ toInt v ≤ hi := by
  unfold toInt
  by_cases h0 : 0 ≤ v
  · simp only [h0, if_true]
    constructor
    · exact hlo.trans (Int.floor_nonneg.mpr h0)
    · have : ⌊v⌋ < hi + 1 := Int.floor_lt.mpr (by push_cast; exact h2)
      omega
  · simp only [h0, if_false]
    push_neg at h0
    constructor
    · exact Int.le_ceil_iff.mpr (by linarith)
    · have : ⌈v⌉ ≤ 0 := Int.ceil_le.mpr (by push_cast; exact h0.le)
      omega

/-- C18 (end-of-tick position bound).  For every ant and every state before
the tick (any position, any velocity, any state), after one tick the position
satisfies `-2 ≤ x < 802` and `-2 ≤ y < 602`; so the truncated cell that the next
tick uses is at most 2 cells outside the grid, and a deposit at such a cell
outside the grid leaves the field unchanged. -/
theorem end_of_tick_position (sq : K → K) (hsq : IsSqrt sq) (rand : ℕ → ℕ) (w : World K) :
    ∀ a ∈ (Step sq rand w).ants,
      (-2 ≤ a.position.x ∧ a.position.x < 802) ∧ (-2 ≤ a.position.y ∧ a.position.y < 602) ∧
      (-2 ≤ toInt a.position.x ∧ toInt a.position.x ≤ 801) ∧
      (-2 ≤ toInt a.position.y ∧ toInt a.position.y ≤ 601) ∧
      (∀ (g : Grid K) (t : ℤ) (s : K), ¬ inGrid (toInt a.position.x) (toInt a.position.y) →
        depositPheromones g (toInt a.position.x) (toInt a.position.y) t s = g) := by
  intro a ha
  rw [Step_ants] at ha
  obtain ⟨hx, hy⟩ := moveAntsLoop_position_bound hsq rand _ _ a ha
  refine ⟨hx, hy, ?_, ?_, ?_⟩
  · exact toInt_bounds a.position.x (-2) 801 (by norm_num) (by norm_num)
      (by push_cast; exact hx.1) (by push_cast; linarith [hx.2])
  · exact toInt_bounds a.position.y (-2) 601 (by norm_num) (by norm_num)
      (by push_cast; exact hy.1) (by push_cast; linarith [hy.2])
  · intro g t s hout
    exact depositPheromones_outside g _ _ t s hout

end Motion

/-- Witness for `wraparound_spec`: the coordinate `-1`, one step left of the
world. -/
theorem wraparound_spec_witness :
    wrapCoord (-1 : ℚ) SCREEN_WIDTH = 799 ∧ wrapCoord (-1 : ℚ) SCREEN_HEIGHT = 599 :=
  ⟨(wraparound_spec sqrtQ edgeAnt (-1 : ℚ)).1.1 (by norm_num),
   (wraparound_spec sqrtQ edgeAnt (-1 : ℚ)).2.1.1 (by norm_num)⟩

/-- Witness for `end_of_tick_position`: a real ant far outside the world with a
large velocity. -/
theorem end_of_tick_position_witness :
    ∃ a, (Step Real.sqrt (fun _ => 1)
        ⟨[(⟨⟨-50, 900⟩, ⟨30, 40⟩, 0, ⟨1, 0⟩, AntState.TO_FOOD, 100⟩ : Ant ℝ)],
         ⟨[], fun _ _ => ⟨0, 0⟩, 0⟩⟩).ants = [a] ∧
      (-2 ≤ a.position.x ∧ a.position.x < 802) ∧ (-2 ≤ a.position.y ∧ a.position.y < 602) :=
  ⟨_, rfl,
    (end_of_tick_position Real.sqrt isSqrt_real (fun _ => 1)
      ⟨[(⟨⟨-50, 900⟩, ⟨30, 40⟩, 0, ⟨1, 0⟩, AntState.TO_FOOD, 100⟩ : Ant ℝ)],
       ⟨[], fun _ _ => ⟨0, 0⟩, 0⟩⟩ _ (List.mem_singleton.mpr rfl)).1,
    (end_of_tick_position Real.sqrt isSqrt_real (fun _ => 1)
      ⟨[(⟨⟨-50, 900⟩, ⟨30, 40⟩, 0, ⟨1, 0⟩, AntState.TO_FOOD, 100⟩ : Ant ℝ)],
       ⟨[], fun _ _ => ⟨0, 0⟩, 0⟩⟩ _ (List.mem_singleton.mpr rfl)).2.1⟩

/-! ## Invariants of the food store and of the trail types -/

section Invariants

variable {K : Type} [LinearOrderedField K] [FloorRing K]

/-- A property of the environment that every ant update and the decay pass
preserve holds after the loop and after any number of ticks. -/
theorem moveAntsLoop_env_induction (sq : K → K) (rand : ℕ → ℕ) (I : Env K → Prop)
    (hupd : ∀ (a : Ant K) (e : Env K), I e → I (updateAntState sq rand a e).2)
    (ants : List (Ant K)) (e : Env K) (he : I e) : I (moveAntsLoop sq rand ants e).2 := by
  induction ants generalizing e with
  | nil => exact he
  | cons a as ih =>
    simp only [moveAntsLoop, moveAnt]
    exact ih _ (hupd a e he)

theorem Steps_env_induction (sq : K → K) (rand : ℕ → ℕ) (I : Env K → Prop)
    (hupd : ∀ (a : Ant K) (e : Env K), I e → I (updateAntState sq rand a e).2)
    (hdecay : ∀ e : Env K, I e → I { e with pheromones := updatePheromones e.pheromones })
    (w : World K) (hw : I w.env) (n : ℕ) : I (Steps sq rand n w).env := by
  induction n with
  | zero => exact hw
  | succ n ih =>
    rw [Steps_succ, Step_env]
    exact moveAntsLoop_env_induction sq rand I hupd _ _ (hdecay _ ih)

theorem Steps_add (sq : K → K) (rand : ℕ → ℕ) (n m : ℕ) (w : World K) :
    Steps sq rand (n + m) w = Steps sq rand m (Steps sq rand n w) := by
  induction m with
  | zero => rfl
  | succ m ih => rw [← Nat.add_assoc, Steps_succ, Steps_succ, ih]

/-- Replacing the food at index `i` changes the total amount by the difference
of the two amounts. -/
theorem sum_amount_set (foods : List Food) (i : ℕ) (f f2 : Food) (hf : foods[i]? = some f) :
    ((foods.set i f2).map Food.amount).sum
      = (foods.map Food.amount).sum - f.amount + f2.amount := by
  induction foods generalizing i with
  | nil => simp at hf
  | cons b bs ih =>
    cases i with
    | zero =>
      simp only [List.getElem?_cons_zero, Option.some.injEq] at hf
      subst hf
      simp only [List.set_cons_zero, List.map_cons, List.sum_cons]
      ring
    | succ n =>
      simp only [List.getElem?_cons_succ] at hf
      simp only [List.set_cons_succ, List.map_cons, List.sum_cons, ih n hf]
      ring

theorem takeOne_amount (f : Food) : (takeOne f).amount = f.amount - 1 := by
  unfold takeOne
  by_cases h : f.amount - 1 ≤ 0 <;> simp [h]

/-- The pickup keeps a well-formed existing food well-formed. -/
theorem takeOne_ok (f : Food) (hiff : f.exists_ ≠ 0 ↔ 0 < f.amount) (hex : f.exists_ ≠ 0) :
    0 ≤ (takeOne f).amount ∧ ((takeOne f).exists_ ≠ 0 ↔ 0 < (takeOne f).amount) := by
  have hpos : 0 < f.amount := hiff.mp hex
  unfold takeOne
  by_cases h : f.amount - 1 ≤ 0
  · simp only [h, if_true]
    constructor
    · omega
    · constructor
      · intro hne; exact absurd rfl hne
      · intro hlt; omega
  · simp only [h, if_false]
    constructor
    · omega
    · constructor
      · intro _; omega
      · intro _; exact hex

theorem updateAntState_foods_ok (sq : K → K) (rand : ℕ → ℕ) (ant : Ant K) (e : Env K)
    (he : ∀ f ∈ e.foods, 0 ≤ f.amount ∧ (f.exists_ ≠ 0 ↔ 0 < f.amount)) :
    ∀ f ∈ (updateAntState sq rand ant e).2.foods,
      0 ≤ f.amount ∧ (f.exists_ ≠ 0 ↔ 0 < f.amount) := by
  by_cases h1 : ant.state = AntState.TO_FOOD
  · obtain ⟨-, -, -, h | ⟨f2, -, hf2, hex2, -, -, -, hfoods⟩⟩ :=
      updateAntState_TO_FOOD sq rand ant e h1
    · rw [h.2.2.1]; exact he
    · rw [hfoods]
      intro f hf
      have hmem : f2 ∈ e.foods := List.getElem?_mem hf2
      rcases List.mem_or_eq_of_mem_set hf with h | h
      · exact he f h
      · rw [h]
        exact takeOne_ok f2 (he f2 hmem).2 hex2
  · by_cases h2 : ant.state = AntState.TO_HOME
    · rw [(updateAntState_TO_HOME sq rand ant e h2).2.2.1]; exact he
    · rw [updateAntState_other sq rand ant e h1 h2]; exact he

/-- C19 (food-store invariant).  In every state reached by any number of ticks,
with any number of ants, from an initial state in which every food has amount
100 and `exists = 1`, every food has amount `≥ 0` and exists exactly when its
amount is positive; a food that no longer exists stays as it is in all later
states; and an update of a `TO_FOOD` ant that captures (the ant turns
`TO_HOME`) lowers the total amount by exactly 1, while an update without
capture leaves the food array unchanged. -/
theorem food_store_invariant (sq : K → K) (rand : ℕ → ℕ) (w : World K)
    (hinit : ∀ f ∈ w.env.foods, f.amount = 100 ∧ f.exists_ = 1) :
    (∀ n, ∀ f ∈ (Steps sq rand n w).env.foods,
      0 ≤ f.amount ∧ (f.exists_ ≠ 0 ↔ 0 < f.amount)) ∧
    (∀ (n m i : ℕ) (f : Food), (Steps sq rand n w).env.foods[i]? = some f → f.exists_ = 0 →
      (Steps sq rand (n + m) w).env.foods[i]? = some f) ∧
    (∀ (ant : Ant K) (e : Env K), ant.state = AntState.TO_FOOD →
      ((updateAntState sq rand ant e).1.state = AntState.TO_HOME →
        (((updateAntState sq rand ant e).2.foods).map Food.amount).sum
          = (e.foods.map Food.amount).sum - 1) ∧
      ((updateAntState sq rand ant e).1.state = AntState.TO_FOOD →
        (updateAntState sq rand ant e).2.foods = e.foods)) := by
  refine ⟨?_, ?_, ?_⟩
  · intro n
    apply Steps_env_induction sq rand
      (fun e => ∀ f ∈ e.foods, 0 ≤ f.amount ∧ (f.exists_ ≠ 0 ↔ 0 < f.amount))
    · intro a e he
      exact updateAntState_foods_ok sq rand a e he
    · intro e he
      exact he
    · intro f hf
      obtain ⟨h1, h2⟩ := hinit f hf
      rw [h1, h2]
      norm_num
  · intro n m i f hf hex
    rw [Steps_add]
    exact Steps_exhausted sq rand m _ i f hf hex
  · intro ant e hs
    obtain ⟨-, -, -, h | ⟨f2, -, hf2, -, -, hst, -, hfoods⟩⟩ :=
      updateAntState_TO_FOOD sq rand ant e hs
    · refine ⟨?_, fun _ => h.2.2.1⟩
      intro hhome
      rw [h.1] at hhome
      cases hhome
    · refine ⟨?_, ?_⟩
      · intro _
        rw [hfoods, sum_amount_set _ _ f2 _ hf2, takeOne_amount]
        ring
      · intro hfood
        rw [hst] at hfood
        cases hfood

omit [FloorRing K] in
theorem updatePheromones_type_ok (g : Grid K)
    (hg : ∀ x y, (g x y).strength ≠ 0 → (g x y).type = 1) :
    ∀ x y, (updatePheromones g x y).strength ≠ 0 → (updatePheromones g x y).type = 1 := by
  intro x y hne
  rw [updatePheromones_type]
  apply hg
  intro h0
  apply hne
  unfold updatePheromones
  by_cases hin : inGrid x y <;> simp [hin, h0]

theorem updateAntState_type_ok (sq : K → K) (rand : ℕ → ℕ) (ant : Ant K) (e : Env K)
    (hg : ∀ x y, (e.pheromones x y).strength ≠ 0 → (e.pheromones x y).type = 1) :
    ∀ x y, ((updateAntState sq rand ant e).2.pheromones x y).strength ≠ 0 →
      ((updateAntState sq rand ant e).2.pheromones x y).type = 1 := by
  by_cases h1 : ant.state = AntState.TO_FOOD
  · rw [(updateAntState_TO_FOOD sq rand ant e h1).2.2.1]; exact hg
  · by_cases h2 : ant.state = AntState.TO_HOME
    · rw [(updateAntState_TO_HOME sq rand ant e h2).2.2.2.2.1]
      intro x y
      by_cases hc : x = toInt ant.position.x ∧ y = toInt ant.position.y
      · obtain ⟨hx, hy⟩ := hc
        subst hx; subst hy
        by_cases hin : inGrid (toInt ant.position.x) (toInt ant.position.y)
        · rw [depositPheromones_same _ _ _ _ _ hin]
          intro _
          simp
        · rw [depositPheromones_outside _ _ _ _ _ hin]; exact hg _ _
      · rw [depositPheromones_other _ _ _ _ _ _ _ hc]; exact hg x y
    · rw [updateAntState_other sq rand ant e h1 h2]; exact hg

/-- C20 (trail-type invariant).  From the initial field (every cell of type 0
and strength 0), in every state reached by ticks every cell with non-zero
strength has type 1 (home mark), so no cell of type 0 carries strength; the
decay pass and every ant update preserve this, so it also holds between the
updates of a tick; and on such a state the window query either selects nothing
or selects a cell of type 1. -/
theorem trail_type_invariant (sq : K → K) (rand : ℕ → ℕ) (w : World K)
    (hinit : ∀ x y, (w.env.pheromones x y).type = 0 ∧ (w.env.pheromones x y).strength = 0) :
    (∀ n x y, ((Steps sq rand n w).env.pheromones x y).strength ≠ 0 →
      ((Steps sq rand n w).env.pheromones x y).type = 1) ∧
    (∀ n x y, ((Steps sq rand n w).env.pheromones x y).type = 0 →
      ((Steps sq rand n w).env.pheromones x y).strength = 0) ∧
    (∀ g : Grid K, (∀ x y, (g x y).strength ≠ 0 → (g x y).type = 1) →
      (∀ x y, (updatePheromones g x y).strength ≠ 0 → (updatePheromones g x y).type = 1) ∧
      (∀ (ant : Ant K) (foods : List Food) (seed : ℕ) (x y : ℤ),
        ((updateAntState sq rand ant ⟨foods, g, seed⟩).2.pheromones x y).strength ≠ 0 →
        ((updateAntState sq rand ant ⟨foods, g, seed⟩).2.pheromones x y).type = 1) ∧
      (∀ cx cy : ℤ, scanWindow g cx cy = (⟨0, 0⟩, 0) ∨
        ∃ dx dy : ℤ, (-5 ≤ dx ∧ dx ≤ 5) ∧ (-5 ≤ dy ∧ dy ≤ 5) ∧ inGrid (cx + dx) (cy + dy) ∧
          scanWindow g cx cy = (⟨(dx : K), (dy : K)⟩, (g (cx + dx) (cy + dy)).strength) ∧
          (g (cx + dx) (cy + dy)).type = 1)) := by
  have hreach : ∀ n x y, ((Steps sq rand n w).env.pheromones x y).strength ≠ 0 →
      ((Steps sq rand n w).env.pheromones x y).type = 1 := by
    intro n
    apply Steps_env_induction sq rand
      (fun e => ∀ x y, (e.pheromones x y).strength ≠ 0 → (e.pheromones x y).type = 1)
    · intro a e he
      exact updateAntState_type_ok sq rand a e he
    · intro e he
      exact updatePheromones_type_ok e.pheromones he
    · intro x y hne
      exact absurd (hinit x y).2 hne
  refine ⟨hreach, ?_, ?_⟩
  · intro n x y ht
    by_contra hne
    have h1 := hreach n x y hne
    rw [ht] at h1
    norm_num at h1
  · intro g hg
    refine ⟨updatePheromones_type_ok g hg, ?_, ?_⟩
    · intro ant foods seed
      exact updateAntState_type_ok sq rand ant ⟨foods, g, seed⟩ hg
    · intro cx cy
      rcases scanWindow_first_max g cx cy with ⟨h1, -⟩ | ⟨dx, dy, hx, hy, hin, hpos, hr, -⟩
      · exact Or.inl h1
      · exact Or.inr ⟨dx, dy, hx, hy, hin, hr, hg _ _ (ne_of_gt hpos)⟩

end Invariants

/-- Witness for `food_store_invariant`: one real ant next to one full food
source, 500 ticks. -/
theorem food_store_invariant_witness :
    (∀ f ∈ (Steps Real.sqrt (fun _ => 1) 500
        ⟨[(⟨⟨10, 10⟩, ⟨0, 0⟩, 0, ⟨1, 0⟩, AntState.TO_FOOD, 100⟩ : Ant ℝ)],
         ⟨[⟨11, 10, 100, 1⟩], fun _ _ => ⟨0, 0⟩, 0⟩⟩).env.foods,
      0 ≤ f.amount ∧ (f.exists_ ≠ 0 ↔ 0 < f.amount)) ∧
    (∀ (n m i : ℕ) (f : Food),
      (Steps Real.sqrt (fun _ => 1) n
        ⟨[(⟨⟨10, 10⟩, ⟨0, 0⟩, 0, ⟨1, 0⟩, AntState.TO_FOOD, 100⟩ : Ant ℝ)],
         ⟨[⟨11, 10, 100, 1⟩], fun _ _ => ⟨0, 0⟩, 0⟩⟩).env.foods[i]? = some f →
      f.exists_ = 0 →
      (Steps Real.sqrt (fun _ => 1) (n + m)
        ⟨[(⟨⟨10, 10⟩, ⟨0, 0⟩, 0, ⟨1, 0⟩, AntState.TO_FOOD, 100⟩ : Ant ℝ)],
         ⟨[⟨11, 10, 100, 1⟩], fun _ _ => ⟨0, 0⟩, 0⟩⟩).env.foods[i]? = some f) :=
  ⟨(food_store_invariant Real.sqrt (fun _ => 1)
      ⟨[(⟨⟨10, 10⟩, ⟨0, 0⟩, 0, ⟨1, 0⟩, AntState.TO_FOOD, 100⟩ : Ant ℝ)],
       ⟨[⟨11, 10, 100, 1⟩], fun _ _ => ⟨0, 0⟩, 0⟩⟩
      (by
        intro f hf
        simp only [List.mem_singleton] at hf
        subst hf
        exact ⟨rfl, rfl⟩)).1 500,
   (food_store_invariant Real.sqrt (fun _ => 1)
      ⟨[(⟨⟨10, 10⟩, ⟨0, 0⟩, 0, ⟨1, 0⟩, AntState.TO_FOOD, 100⟩ : Ant ℝ)],
       ⟨[⟨11, 10, 100, 1⟩], fun _ _ => ⟨0, 0⟩, 0⟩⟩
      (by
        intro f hf
        simp only [List.mem_singleton] at hf
        subst hf
        exact ⟨rfl, rfl⟩)).2.1⟩

/-- Witness for `trail_type_invariant`: the long walk home, 300 ticks. -/
theorem trail_type_invariant_witness :
    (∀ x y, ((Steps sqrtQ (fun _ => 0) 300 longWalk).env.pheromones x y).strength ≠ 0 →
      ((Steps sqrtQ (fun _ => 0) 300 longWalk).env.pheromones x y).type = 1) ∧
    (∀ x y, ((Steps sqrtQ (fun _ => 0) 300 longWalk).env.pheromones x y).type = 0 →
      ((Steps sqrtQ (fun _ => 0) 300 longWalk).env.pheromones x y).strength = 0) :=
  ⟨(trail_type_invariant sqrtQ (fun _ => 0) longWalk (fun _ _ => ⟨rfl, rfl⟩)).1 300,
   (trail_type_invariant sqrtQ (fun _ => 0) longWalk (fun _ _ => ⟨rfl, rfl⟩)).2.1 300⟩

/-! ## Same-tick visibility -/

section Visibility

variable {K : Type} [LinearOrderedField K] [FloorRing K]

theorem moveAntsLoop_append (sq : K → K) (rand : ℕ → ℕ) (l1 l2 : List (Ant K)) (e : Env K) :
    moveAntsLoop sq rand (l1 ++ l2) e
      = ((moveAntsLoop sq rand l1 e).1
          ++ (moveAntsLoop sq rand l2 (moveAntsLoop sq rand l1 e).2).1,
         (moveAntsLoop sq rand l2 (moveAntsLoop sq rand l1 e).2).2) := by
  induction l1 generalizing e with
  | nil => simp [moveAntsLoop]
  | cons a as ih => simp [moveAntsLoop, ih]

/-- The ant that follows the prefix `l1` is updated in the environment that
`l1` left. -/
theorem moveAntsLoop_getElem_after (sq : K → K) (rand : ℕ → ℕ) (l1 rest : List (Ant K))
    (a : Ant K) (e : Env K) :
    (moveAntsLoop sq rand (l1 ++ a :: rest) e).1[l1.length]?
      = some (integrate sq (updateAntState sq rand a (moveAntsLoop sq rand l1 e).2).1) := by
  rw [moveAntsLoop_append]
  simp only
  rw [List.getElem?_append_right (by rw [moveAntsLoop_length])]
  rw [moveAntsLoop_length]
  simp [moveAntsLoop, moveAnt]

/-- An update changes a cell only when the ant is `TO_HOME` and sits on it. -/
theorem updateAntState_cell_frame (sq : K → K) (rand : ℕ → ℕ) (ant : Ant K) (e : Env K)
    (x y : ℤ)
    (h : ant.state = AntState.TO_HOME → ¬ (toInt ant.position.x = x ∧ toInt ant.position.y = y)) :
    (updateAntState sq rand ant e).2.pheromones x y = e.pheromones x y := by
  by_cases h1 : ant.state = AntState.TO_FOOD
  · rw [(updateAntState_TO_FOOD sq rand ant e h1).2.2.1]
  · by_cases h2 : ant.state = AntState.TO_HOME
    · rw [(updateAntState_TO_HOME sq rand ant e h2).2.2.2.2.1]
      apply depositPheromones_other
      intro hc
      exact h h2 ⟨hc.1.symm, hc.2.symm⟩
    · rw [updateAntState_other sq rand ant e h1 h2]

theorem moveAntsLoop_cell_frame (sq : K → K) (rand : ℕ → ℕ) (l : List (Ant K)) (e : Env K)
    (x y : ℤ)
    (h : ∀ b ∈ l, b.state = AntState.TO_HOME →
      ¬ (toInt b.position.x = x ∧ toInt b.position.y = y)) :
    (moveAntsLoop sq rand l e).2.pheromones x y = e.pheromones x y := by
  induction l generalizing e with
  | nil => rfl
  | cons a as ih =>
    simp only [moveAntsLoop, moveAnt]
    rw [ih _ (fun b hb => h b (List.mem_cons_of_mem _ hb)),
      updateAntState_cell_frame sq rand a e x y (h a (List.mem_cons_self _ _))]

theorem updateAntState_nofood (sq : K → K) (rand : ℕ → ℕ) (ant : Ant K) (e : Env K)
    (hs : ant.state = AntState.TO_FOOD) (he : e.foods = []) :
    (updateAntState sq rand ant e).1 = (followOrWander sq rand ant e).1 := by
  unfold updateAntState
  simp [hs, he, foodNearby, foodNearbyFrom]

omit [FloorRing K] in
theorem integrate_desiredDirection_eq (sq : K → K) (ant : Ant K) :
    (integrate sq ant).desiredDirection = ant.desiredDirection := rfl

omit [FloorRing K] in
theorem magnitude_offset_pos {sq : K → K} (hsq : IsSqrt sq) (dx dy : ℤ)
    (hd : ¬ (dx = 0 ∧ dy = 0)) : magnitude_2d sq (⟨(dx : K), (dy : K)⟩ : Vector2D K) > 0 := by
  unfold magnitude_2d
  apply hsq.pos
  have hz : (0 : ℤ) < dx * dx + dy * dy := by
    have hne : dx ≠ 0 ∨ dy ≠ 0 := by
      by_contra hcon
      push_neg at hcon
      exact hd hcon
    rcases hne with h | h
    · have h2 := mul_self_pos.mpr h
      nlinarith [mul_self_nonneg dy]
    · have h2 := mul_self_pos.mpr h
      nlinarith [mul_self_nonneg dx]
  show (0 : K) < (dx : K) * (dx : K) + (dy : K) * (dy : K)
  exact_mod_cast hz

/-- C17 (same-tick visibility).  On a field whose strengths are all 0, with no
food: let the ant `h` be `TO_HOME` with positive `pheromoneStrength` on the
in-grid cell `c`, let the ant `s` be `TO_FOOD` with `c` in its 11 x 11 window at
the non-zero offset `(dx, dy)`, and let no other ant that is updated before `s`
deposit in that window.  If `h` comes before `s` in the ant array, after one
tick the `desiredDirection` of `s` is `normalize (dx, dy)`; with the two ants
swapped, `s` takes the wander branch in that tick. -/
theorem same_tick_visibility (sq : K → K) (hsq : IsSqrt sq) (rand : ℕ → ℕ)
    (l1 l2 l3 : List (Ant K)) (h s : Ant K) (g : Grid K) (seed : ℕ) (dx dy : ℤ)
    (hg : ∀ x y, (g x y).strength = 0)
    (hh : h.state = AntState.TO_HOME) (hps : 0 < h.pheromoneStrength)
    (hin : inGrid (toInt h.position.x) (toInt h.position.y))
    (hs : s.state = AntState.TO_FOOD)
    (hdx : -5 ≤ dx ∧ dx ≤ 5) (hdy : -5 ≤ dy ∧ dy ≤ 5) (hd : ¬ (dx = 0 ∧ dy = 0))
    (hcx : toInt h.position.x = toInt s.position.x + dx)
    (hcy : toInt h.position.y = toInt s.position.y + dy)
    (hothers : ∀ b ∈ l1 ++ l2, b.state = AntState.TO_HOME →
      ∀ ex ey : ℤ, -5 ≤ ex → ex ≤ 5 → -5 ≤ ey → ey ≤ 5 →
        ¬ (toInt b.position.x = toInt s.position.x + ex ∧
          toInt b.position.y = toInt s.position.y + ey)) :
    (∃ s2, (Step sq rand ⟨l1 ++ h :: (l2 ++ s :: l3), ⟨[], g, seed⟩⟩).ants[
        l1.length + 1 + l2.length]? = some s2 ∧
      s2.desiredDirection = normalize_vector_2d sq ⟨(dx : K), (dy : K)⟩) ∧
    (∃ s2, (Step sq rand ⟨l1 ++ s :: (l2 ++ h :: l3), ⟨[], g, seed⟩⟩).ants[l1.length]?
        = some s2 ∧
      s2.desiredDirection = normalize_vector_2d sq
        ⟨s.desiredDirection.x
          + (randStep rand (moveAntsLoop sq rand l1 ⟨[], updatePheromones g, seed⟩).2.seed : K)
            * WANDER_STRENGTH,
         s.desiredDirection.y
          + (randStep rand
              ((moveAntsLoop sq rand l1 ⟨[], updatePheromones g, seed⟩).2.seed + 1) : K)
            * WANDER_STRENGTH⟩) := by
  -- the decayed field is still empty
  have hg0 : ∀ x y, (updatePheromones g x y).strength = 0 := by
    intro x y
    unfold updatePheromones
    by_cases hin2 : inGrid x y <;> simp [hin2, hg x y]
  have hl1 : ∀ b ∈ l1, b.state = AntState.TO_HOME → ∀ ex ey : ℤ, -5 ≤ ex → ex ≤ 5 →
      -5 ≤ ey → ey ≤ 5 → ¬ (toInt b.position.x = toInt s.position.x + ex ∧
        toInt b.position.y = toInt s.position.y + ey) :=
    fun b hb => hothers b (List.mem_append_left _ hb)
  have hl2 : ∀ b ∈ l2, b.state = AntState.TO_HOME → ∀ ex ey : ℤ, -5 ≤ ex → ex ≤ 5 →
      -5 ≤ ey → ey ≤ 5 → ¬ (toInt b.position.x = toInt s.position.x + ex ∧
        toInt b.position.y = toInt s.position.y + ey) :=
    fun b hb => hothers b (List.mem_append_right _ hb)
  -- the environment after the prefix `l1`: no food, window of `s` empty
  have hf1 : (moveAntsLoop sq rand l1 ⟨[], updatePheromones g, seed⟩).2.foods = [] :=
    (moveAntsLoop_nofood sq rand l1 ⟨[], updatePheromones g, seed⟩ rfl).1
  have hw1 : ∀ ex ey : ℤ, -5 ≤ ex → ex ≤ 5 → -5 ≤ ey → ey ≤ 5 →
      ((moveAntsLoop sq rand l1 ⟨[], updatePheromones g, seed⟩).2.pheromones
        (toInt s.position.x + ex) (toInt s.position.y + ey)).strength = 0 := by
    intro ex ey h1 h2 h3 h4
    rw [moveAntsLoop_cell_frame sq rand l1 _ _ _ (fun b hb hst => hl1 b hb hst ex ey h1 h2 h3 h4)]
    exact hg0 _ _
  constructor
  · -- `h` first: its deposit is in the window when `s` is updated
    have hidx : (l1 ++ h :: (l2 ++ s :: l3)) = (l1 ++ h :: l2) ++ s :: l3 := by simp
    have hlen : l1.length + 1 + l2.length = (l1 ++ h :: l2).length := by
      simp only [List.length_append, List.length_cons]; omega
    refine ⟨_, by rw [Step_ants, hidx, hlen]; exact moveAntsLoop_getElem_after sq rand _ _ _ _, ?_⟩
    rw [integrate_desiredDirection_eq]
    have hf3 : (moveAntsLoop sq rand (l1 ++ h :: l2) ⟨[], updatePheromones g, seed⟩).2.foods
        = [] := (moveAntsLoop_nofood sq rand _ ⟨[], updatePheromones g, seed⟩ rfl).1
    have hw3 : ∀ ex ey : ℤ, -5 ≤ ex → ex ≤ 5 → -5 ≤ ey → ey ≤ 5 →
        ((moveAntsLoop sq rand (l1 ++ h :: l2) ⟨[], updatePheromones g, seed⟩).2.pheromones
          (toInt s.position.x + ex) (toInt s.position.y + ey)).strength
          = if ex = dx ∧ ey = dy then h.pheromoneStrength else 0 := by
      intro ex ey h1 h2 h3 h4
      rw [moveAntsLoop_append]
      simp only [moveAntsLoop, moveAnt]
      rw [moveAntsLoop_cell_frame sq rand l2 _ _ _
        (fun b hb hst => hl2 b hb hst ex ey h1 h2 h3 h4),
        (updateAntState_TO_HOME sq rand h _ hh).2.2.2.2.1]
      by_cases hc : ex = dx ∧ ey = dy
      · rw [if_pos hc, hc.1, hc.2, ← hcx, ← hcy, depositPheromones_same _ _ _ _ _ hin]
        simp only
        rw [hcx, hcy, hw1 dx dy hdx.1 hdx.2 hdy.1 hdy.2, zero_add]
      · rw [if_neg hc, depositPheromones_other _ _ _ _ _ _ _ (by
          rw [hcx, hcy]
          intro hcon
          exact hc ⟨by omega, by omega⟩)]
        exact hw1 ex ey h1 h2 h3 h4
    have hsp : strongestPheromone
        (moveAntsLoop sq rand (l1 ++ h :: l2) ⟨[], updatePheromones g, seed⟩).2.pheromones s
        = ⟨(dx : K), (dy : K)⟩ := by
      unfold strongestPheromone
      rcases scanWindow_first_max
          (moveAntsLoop sq rand (l1 ++ h :: l2) ⟨[], updatePheromones g, seed⟩).2.pheromones
          (toInt s.position.x) (toInt s.position.y) with
        ⟨-, hall⟩ | ⟨ex, ey, hx, hy, -, hpos, hr, -⟩
      · have hle := hall dx dy hdx.1 hdx.2 hdy.1 hdy.2 (by rw [← hcx, ← hcy]; exact hin)
        rw [hw3 dx dy hdx.1 hdx.2 hdy.1 hdy.2, if_pos ⟨rfl, rfl⟩] at hle
        exact absurd hle (not_le.mpr hps)
      · rw [hw3 ex ey hx.1 hx.2 hy.1 hy.2] at hpos
        by_cases hc : ex = dx ∧ ey = dy
        · rw [hr, hc.1, hc.2]
        · rw [if_neg hc] at hpos
          exact absurd hpos (lt_irrefl _)
    rw [updateAntState_nofood sq rand s _ hs hf3]
    unfold followOrWander
    simp only [hsp, magnitude_offset_pos hsq dx dy hd, if_true]
  · refine ⟨_, by rw [Step_ants]; exact moveAntsLoop_getElem_after sq rand _ _ _ _, ?_⟩
    rw [integrate_desiredDirection_eq]
    have hsp : strongestPheromone
        (moveAntsLoop sq rand l1 ⟨[], updatePheromones g, seed⟩).2.pheromones s = ⟨0, 0⟩ := by
      unfold strongestPheromone
      rcases scanWindow_first_max
          (moveAntsLoop sq rand l1 ⟨[], updatePheromones g, seed⟩).2.pheromones
          (toInt s.position.x) (toInt s.position.y) with
        ⟨h1, -⟩ | ⟨ex, ey, hx, hy, -, hpos, -, -⟩
      · rw [h1]
      · rw [hw1 ex ey hx.1 hx.2 hy.1 hy.2] at hpos
        exact absurd hpos (lt_irrefl _)
    have hmag : ¬ magnitude_2d sq (⟨0, 0⟩ : Vector2D K) > 0 := by
      have h0 := hsq.of_mul_self (le_refl (0 : K))
      unfold magnitude_2d
      simp only [mul_zero, add_zero] at h0 ⊢
      rw [h0]
      exact lt_irrefl _
    rw [updateAntState_nofood sq rand s _ hs hf1]
    unfold followOrWander
    simp only [hsp, hmag, if_false]

end Visibility

theorem toInt_eleven {K : Type} [LinearOrderedField K] [FloorRing K] :
    toInt (11 : K) = 11 := by
  have h := toInt_intCast (K := K) 11
  simpa using h

/-- Witness for `same_tick_visibility`: a returning real ant at `(11, 10)` and a
seeking real ant at `(10, 10)` on the empty field, in both orders. -/
theorem same_tick_visibility_witness :
    (∃ s2, (Step Real.sqrt (fun _ => 1)
        ⟨[(⟨⟨11, 10⟩, ⟨0, 0⟩, 1, ⟨1, 0⟩, AntState.TO_HOME, 100⟩ : Ant ℝ),
          ⟨⟨10, 10⟩, ⟨0, 0⟩, 0, ⟨0, 1⟩, AntState.TO_FOOD, 100⟩],
         ⟨[], fun _ _ => ⟨0, 0⟩, 0⟩⟩).ants[1]? = some s2 ∧
      s2.desiredDirection = normalize_vector_2d Real.sqrt ⟨((1 : ℤ) : ℝ), ((0 : ℤ) : ℝ)⟩) ∧
    (∃ s2, (Step Real.sqrt (fun _ => 1)
        ⟨[(⟨⟨10, 10⟩, ⟨0, 0⟩, 0, ⟨0, 1⟩, AntState.TO_FOOD, 100⟩ : Ant ℝ),
          ⟨⟨11, 10⟩, ⟨0, 0⟩, 1, ⟨1, 0⟩, AntState.TO_HOME, 100⟩],
         ⟨[], fun _ _ => ⟨0, 0⟩, 0⟩⟩).ants[0]? = some s2 ∧
      s2.desiredDirection = normalize_vector_2d Real.sqrt
        ⟨0 + ((randStep (fun _ => 1) 0 : ℤ) : ℝ) * WANDER_STRENGTH,
         1 + ((randStep (fun _ => 1) (0 + 1) : ℤ) : ℝ) * WANDER_STRENGTH⟩) :=
  same_tick_visibility Real.sqrt isSqrt_real (fun _ => 1) [] [] []
    (⟨⟨11, 10⟩, ⟨0, 0⟩, 1, ⟨1, 0⟩, AntState.TO_HOME, 100⟩ : Ant ℝ)
    ⟨⟨10, 10⟩, ⟨0, 0⟩, 0, ⟨0, 1⟩, AntState.TO_FOOD, 100⟩
    (fun _ _ => ⟨0, 0⟩) 0 1 0 (fun _ _ => rfl) rfl (by norm_num)
    (by simp only [toInt_eleven, toInt_ten]; rw [inGrid_iff]; norm_num)
    rfl (by norm_num) (by norm_num) (by norm_num)
    (by simp only [toInt_eleven, toInt_ten]; norm_num)
    (by simp only [toInt_ten]; norm_num)
    (fun b hb => by simp at hb)

/-! ## A tick across the left edge -/

end AntSim
